import Mathlib

/-!
Verification of the nvhe hypervisor buddy page allocator
(arch/arm64/kvm/hyp/nvhe/page_alloc.c).

Shallow embedding.  Design notes:

* Physical addresses and page-frame numbers (pfn) are modelled as `Nat`;
  `phys = pfn * PAGE_SIZE`.  The external helpers `hyp_page_to_phys`,
  `hyp_phys_to_page`, `hyp_page_to_virt`, `hyp_virt_to_page` are bijections
  between frames, metadata entries and page bodies; the model identifies a
  page with its pfn, so they become `pfn * PAGE_SIZE` and `addr / PAGE_SIZE`.
* The vmemmap (one `struct hyp_page` per frame) is a function `Nat → HypPage`.
* The intrusive free lists are modelled as lists of pfns per order
  (`free_area`), front of the list = `head.next`, insertion appends at the
  tail, exactly like `list_add_tail`.  `page_remove_from_list` unlinks a node
  from whatever list holds it, so the model erases the pfn from every list.
* Byte contents of page bodies are abstracted to two flags per frame:
  `nodeZero p` = the embedded `struct list_head` area (the first bytes of the
  page body) is all-zero, and `bodyZero p` = the rest of the page is all-zero.
  `memset(...,0,...)` sets both flags of the covered frames; writing list
  pointers into a node (`page_add_to_list`) clears `nodeZero` of that page;
  `page_remove_from_list`'s `memset(node, 0, sizeof(*node))` sets it.  The
  unlink also stores pointers into the neighbouring nodes, but those are
  either the pool's own list head (not page memory) or pages that are in a
  free list, whose `nodeZero` flag is already false, so no information is
  lost by not modelling those stores.
* `u64` arithmetic on `free_pages` is `Nat` reduced `% 2^64` at each store.
  The C expression `1 << p->order` is an `int` shift, undefined for
  `order >= 31`; the model uses the mathematical power reduced mod `2^64`.
  Theorems that depend on this value only ever use it at orders where the C
  semantics is defined, or to exhibit that the written value is not the one
  the specification requires (which is true under any resolution of the UB).
-/

/-- Page size in bytes, `PAGE_SIZE = 4096` (spec §6, `PAGE_SIZE` is a
compile-time constant; the spec's scenarios fix it at 4096). -/
def PAGE_SIZE : Nat := 4096

/-- Log2 of the page size, `PAGE_SHIFT = 12`. -/
def PAGE_SHIFT : Nat := 12

/-- Modelled from the spec: `MAX_ORDER` is an external compile-time constant
(the headers defining it are not part of the source file); the spec's
scenarios assume `MAX_ORDER = 4`. -/
def MAX_ORDER : Nat := 4

/-- Number of free-area slots in a pool, `MAX_ORDER + 1`. -/
def NR_PAGE_ORDERS : Nat := MAX_ORDER + 1

/-- Modelled from the spec: the reserved sentinel for the `order` field of a
non-head page ("a reserved sentinel value NO_ORDER", spec §3).  The external
header defines it as the all-ones value of the `u8` order field, i.e. 255. -/
def HYP_NO_ORDER : Nat := 255

/-- Modulus of the `u64` type. -/
def U64 : Nat := 2 ^ 64

/-- The value `-1ULL` that `__hyp_pool_init` stores into `range_start` for an
empty pool. -/
def U64_MAX : Nat := 2 ^ 64 - 1

/-- One vmemmap entry, `struct hyp_page`: a refcount (u16) and an order (u8,
with `HYP_NO_ORDER` as the non-head sentinel). -/
structure HypPage where
  refcount : Nat
  order : Nat
deriving Repr, DecidableEq

/-- Pool state, `struct hyp_pool` (minus the spinlock, which the sequential
model does not need): free lists per order, the advisory `free_pages`
counter, the physical range and the effective max order. -/
structure HypPool where
  free_area : List (List Nat)
  free_pages : Nat
  range_start : Nat
  range_end : Nat
  max_order : Nat
deriving Repr, DecidableEq

/-- Whole machine state visible to the allocator: the pool, the vmemmap and
the zero-flags abstraction of page-body bytes. -/
structure HState where
  pool : HypPool
  pages : Nat → HypPage
  nodeZero : Nat → Bool
  bodyZero : Nat → Bool

/-- Pointwise update of a function on pfns. -/
def updFn {α : Type} (f : Nat → α) (a : Nat) (v : α) : Nat → α :=
  fun x => if x = a then v else f x

/-- The free list of a given order (out-of-bounds orders read as empty). -/
def getArea (s : HState) (k : Nat) : List Nat :=
  s.pool.free_area.getD k []

/-- Replace the free list of a given order. -/
def setArea (s : HState) (k : Nat) (l : List Nat) : HState :=
  { s with pool := { s.pool with free_area := s.pool.free_area.set k l } }

/-- Overwrite the order field of one vmemmap entry. -/
def setOrder (s : HState) (p : Nat) (o : Nat) : HState :=
  { s with pages := updFn s.pages p { s.pages p with order := o } }

/-- Overwrite the refcount field of one vmemmap entry. -/
def setRc (s : HState) (p : Nat) (r : Nat) : HState :=
  { s with pages := updFn s.pages p { s.pages p with refcount := r } }

/-- Store to `pool->free_pages` (a u64, hence the reduction). -/
def setFp (s : HState) (v : Nat) : HState :=
  { s with pool := { s.pool with free_pages := v % U64 } }

/-- Is a physical byte address inside the pool range. -/
def addrInR (pl : HypPool) (a : Nat) : Prop :=
  pl.range_start ≤ a ∧ a < pl.range_end

instance (pl : HypPool) (a : Nat) : Decidable (addrInR pl a) := by
  unfold addrInR; infer_instance

/-- Is a frame's first byte inside the pool range. -/
def inRangeP (pl : HypPool) (p : Nat) : Prop :=
  addrInR pl (p * PAGE_SIZE)

instance (pl : HypPool) (p : Nat) : Decidable (inRangeP pl p) := by
  unfold inRangeP; infer_instance

/-- The physical address the buddy computation produces:
`hyp_page_to_phys(p) ^ (PAGE_SIZE << order)`. -/
def buddyAddr (p : Nat) (order : Nat) : Nat :=
  (p * PAGE_SIZE) ^^^ (PAGE_SIZE <<< order)

/-- Source `__find_buddy_nocheck`: index the vmemmap at the XOR-ed address,
but refuse addresses outside `[range_start, range_end)`. -/
def __find_buddy_nocheck (pl : HypPool) (p : Nat) (order : Nat) : Option Nat :=
  let addr := buddyAddr p order
  if addr < pl.range_start ∨ pl.range_end ≤ addr then none
  else some (addr / PAGE_SIZE)

/-- Source `__find_buddy_avail`: the nocheck buddy, but only when its order
field equals the requested order and its refcount is zero. -/
def __find_buddy_avail (s : HState) (p : Nat) (order : Nat) : Option Nat :=
  match __find_buddy_nocheck s.pool p order with
  | none => none
  | some buddy =>
    if (s.pages buddy).order ≠ order ∨ (s.pages buddy).refcount ≠ 0 then none
    else some buddy

/-- Source `page_remove_from_list`: `__list_del_entry` unlinks the node from
whatever free list holds it (the model erases the pfn from every list) and
`memset(node, 0, sizeof(*node))` re-zeroes the node bytes. -/
def pageRemoveFromList (s : HState) (p : Nat) : HState :=
  { s with
    pool := { s.pool with free_area := s.pool.free_area.map (fun l => l.erase p) }
    nodeZero := updFn s.nodeZero p true }

/-- Source `page_add_to_list`: `INIT_LIST_HEAD` plus `list_add_tail` appends
the page at the tail of the given list and writes (non-zero) pointers into
its node bytes. -/
def pageAddToList (s : HState) (p : Nat) (k : Nat) : HState :=
  let s := setArea s k (getArea s k ++ [p])
  { s with nodeZero := updFn s.nodeZero p false }

/-- The `memset(hyp_page_to_virt(p), 0, PAGE_SIZE << p->order)` at the top of
`__hyp_attach_page`: zeroes every byte of the `2^order` frames of the group,
so both flags of every covered frame become true. -/
def memsetGroup (s : HState) (p : Nat) (order : Nat) : HState :=
  { s with
    nodeZero := fun q => if p ≤ q ∧ q < p + 2 ^ order then true else s.nodeZero q
    bodyZero := fun q => if p ≤ q ∧ q < p + 2 ^ order then true else s.bodyZero q }

/-- The coalescing loop of `__hyp_attach_page`:
`for (; (order + 1) <= pool->max_order; order++) { buddy = avail; if (!buddy)
break; remove buddy; buddy->order = HYP_NO_ORDER; p = min(p, buddy); }`.
The loop is bounded because `order` grows towards `max_order`; the model
makes that explicit with a fuel argument.  With `gas = max_order + 1 - order`
the fuel runs out exactly when `order = max_order + 1 > max_order`, i.e. the
fuel-exhaustion branch coincides with the loop condition turning false, so
the function computes precisely what the C loop does. -/
def coalesceGo : Nat → HState → Nat → Nat → HState × Nat × Nat
  | 0, s, p, order => (s, p, order)
  | gas + 1, s, p, order =>
    if order + 1 ≤ s.pool.max_order then
      match __find_buddy_avail s p order with
      | none => (s, p, order)
      | some buddy =>
        coalesceGo gas (setOrder (pageRemoveFromList s buddy) buddy HYP_NO_ORDER)
          (min p buddy) (order + 1)
    else (s, p, order)

/-- Source `__hyp_attach_page`: zero the body, skip coalescing for external
pages, otherwise proactively mark the page `HYP_NO_ORDER`, coalesce upwards,
then mark the final head with the final order and insert it at the tail of
its free list. -/
def __hyp_attach_page (s : HState) (p : Nat) : HState :=
  let phys := p * PAGE_SIZE
  let order := (s.pages p).order
  let s := memsetGroup s p order
  if phys < s.pool.range_start ∨ s.pool.range_end ≤ phys then
    -- insert: mark the new head, and insert it
    pageAddToList (setOrder s p order) p order
  else
    let s := setOrder s p HYP_NO_ORDER
    let r := coalesceGo (s.pool.max_order + 1 - order) s p order
    pageAddToList (setOrder r.1 r.2.1 r.2.2) r.2.1 r.2.2

/-- The head and final order that the attach path of the state `s` would
produce for page `p` (the values of the local variables `p` and `order` of
`__hyp_attach_page` at the `insert:` label). -/
def attachHead (s : HState) (p : Nat) : Nat × Nat :=
  let phys := p * PAGE_SIZE
  let order := (s.pages p).order
  if phys < s.pool.range_start ∨ s.pool.range_end ≤ phys then (p, order)
  else
    let s := setOrder (memsetGroup s p order) p HYP_NO_ORDER
    let r := coalesceGo (s.pool.max_order + 1 - order) s p order
    (r.2.1, r.2.2)

/-- The splitting loop of `__hyp_extract_page`:
`while (p->order > order) { buddy = nocheck(p, p->order - 1); if (!buddy)
return p; p->order--; buddy->order = p->order; add buddy; }`.
Each iteration decreases `p->order` by one; with `gas` equal to the entry
value of `p->order` the fuel can only run out with `p->order = 0`, where the
loop condition is false anyway, so the function computes precisely what the
C loop does. -/
def extractGo : Nat → HState → Nat → Nat → HState × Nat
  | 0, s, p, _ => (s, p)
  | gas + 1, s, p, order =>
    if order < (s.pages p).order then
      match __find_buddy_nocheck s.pool p ((s.pages p).order - 1) with
      | none => (s, p)
      | some buddy =>
        let s := setOrder s p ((s.pages p).order - 1)
        let s := setOrder s buddy ((s.pages p).order)
        let s := pageAddToList s buddy ((s.pages buddy).order)
        extractGo gas s p order
    else (s, p)

/-- Source `__hyp_extract_page`: take the head out of its list and split it
down towards the requested order. -/
def __hyp_extract_page (s : HState) (p : Nat) (order : Nat) : HState × Nat :=
  let s := pageRemoveFromList s p
  extractGo ((s.pages p).order) s p order

/-- Modelled from the spec: the external helper `hyp_set_page_refcounted`
sets the refcount to 1 (initial-owner convention, spec §6; fatal in checked
builds if the refcount was non-zero, which theorems track as hypotheses). -/
def hyp_set_page_refcounted (s : HState) (p : Nat) : HState :=
  setRc s p 1

/-- Source `__hyp_put_page`: `hyp_page_ref_dec_and_test` (atomic decrement,
true iff the result is zero; decrementing zero is fatal in checked builds
and the model's theorems always assume `refcount ≥ 1`), and on the zero
transition attach the page and add `1 << p->order` — read from the page
passed in, after attaching — to `free_pages`. -/
def __hyp_put_page (s : HState) (p : Nat) : HState :=
  let s := setRc s p ((s.pages p).refcount - 1)
  if (s.pages p).refcount = 0 then
    let s := __hyp_attach_page s p
    setFp s (s.pool.free_pages + 2 ^ (s.pages p).order)
  else s

/-- Source `hyp_put_page`: `BUG_ON(p->order > pool->max_order)` (a fatal
caller-contract check, tracked as a hypothesis where relevant) and then
`__hyp_put_page`. -/
def hyp_put_page (s : HState) (p : Nat) : HState :=
  __hyp_put_page s p

/-- Source `hyp_get_page`: atomic refcount increment, no locking. -/
def hyp_get_page (s : HState) (p : Nat) : HState :=
  setRc s p ((s.pages p).refcount + 1)

/-- Source `hyp_split_page`: reset the head's order to 0 and, for each tail
index `1 ≤ i < (1 << order)`, set the tail's order to 0 and its refcount to
1 (`hyp_set_page_refcounted`). -/
def hyp_split_page (s : HState) (p : Nat) : HState :=
  let order := (s.pages p).order
  let s := setOrder s p 0
  (List.range' 1 ((1 <<< order) - 1)).foldl
    (fun s i => hyp_set_page_refcounted (setOrder s (p + i) 0) (p + i)) s

/-- The allocation scan of `hyp_alloc_pages`:
`while (i <= pool->max_order && list_empty(&pool->free_area[i])) i++;
if (i > pool->max_order) return NULL;` — returns the first order at or above
the request whose list is non-empty.  With `gas = max_order + 1 - i` the
fuel runs out exactly when `i > max_order`, so the exhaustion branch
coincides with the loop's exit-with-NULL. -/
def scanGo (s : HState) : Nat → Nat → Option Nat
  | 0, _ => none
  | gas + 1, i =>
    if i ≤ s.pool.max_order then
      if getArea s i = [] then scanGo s gas (i + 1) else some i
    else none

/-- Source `hyp_alloc_pages`: scan for a high-enough-order page, extract the
first entry of that list at the requested order, set the result's refcount
to 1, subtract `1 << p->order` (u64 arithmetic) from `free_pages` and return
the page. -/
def hyp_alloc_pages (s : HState) (order : Nat) : Option Nat × HState :=
  match scanGo s (s.pool.max_order + 1 - order) order with
  | none => (none, s)
  | some i =>
    match getArea s i with
    | [] => (none, s)  -- unreachable: the scan only returns non-empty orders
    | p :: _ =>
      let r := __hyp_extract_page s p order
      let s := hyp_set_page_refcounted r.1 r.2
      let p := r.2
      (some p, setFp s (s.pool.free_pages + U64 - 2 ^ (s.pages p).order % U64))

/-- Source `hyp_pool_free_pages`: lock-free read of the counter. -/
def hyp_pool_free_pages (s : HState) : Nat :=
  s.pool.free_pages

/-- Ceiling base-2 logarithm, computed structurally (the fuel argument only
bounds the recursion depth; `ceilLog2Go n n` is exact because halving `n`
reaches `1` in at most `n` steps): the least `k` with `n ≤ 2 ^ k`. -/
def ceilLog2Go : Nat → Nat → Nat
  | 0, _ => 0
  | fuel + 1, n => if n ≤ 1 then 0 else ceilLog2Go fuel ((n + 1) / 2) + 1

/-- Modelled from the spec: the external `get_order(size)` helper is the
ceiling log2 of the size in pages ("max_order = min(MAX_ORDER,
ceil_log2(nr_pages))", spec §4.6); it is only applied to exact multiples of
`PAGE_SIZE` here. -/
def get_order (size : Nat) : Nat :=
  ceilLog2Go (size / PAGE_SIZE) (size / PAGE_SIZE)

/-- The initialisation of the free-area array: slots `0..=max_order` are made
empty (`INIT_LIST_HEAD`); the remaining slots of the fixed-size array keep
their previous contents.  The result always has `NR_PAGE_ORDERS` slots. -/
def initAreas (old : List (List Nat)) (mo : Nat) : List (List Nat) :=
  (List.range NR_PAGE_ORDERS).map (fun i => if i ≤ mo then [] else old.getD i [])

/-- Source `__hyp_pool_init`: compute `max_order`, initialise the free lists,
either mark the range impossible (`empty_alloc`) or set the range, give every
frame an initial owner reference, and release the non-reserved frames into
the pool one by one.  (`free_pages` is not initialised by the C function;
a freshly zero-initialised pool starts it at 0.) -/
def __hyp_pool_init (s : HState) (pfn : Nat) (nr_pages reserved_pages : Nat)
    (empty_alloc : Bool) : HState :=
  let mo := min MAX_ORDER (get_order (nr_pages <<< PAGE_SHIFT))
  let s : HState :=
    { s with pool := { s.pool with
        max_order := mo
        free_area := initAreas s.pool.free_area mo } }
  if empty_alloc then
    -- all pages are attached from outside: impossible range
    { s with pool := { s.pool with range_start := U64_MAX, range_end := 0 } }
  else
    let phys := pfn * PAGE_SIZE
    let s : HState :=
      { s with pool := { s.pool with
          range_start := phys
          range_end := phys + (nr_pages <<< PAGE_SHIFT) } }
    let s := (List.range nr_pages).foldl (fun s i => hyp_set_page_refcounted s (pfn + i)) s
    (List.range' reserved_pages (nr_pages - reserved_pages)).foldl
      (fun s i => __hyp_put_page s (pfn + i)) s

/-- Source `hyp_pool_init`. -/
def hyp_pool_init (s : HState) (pfn : Nat) (nr_pages reserved_pages : Nat) : HState :=
  __hyp_pool_init s pfn nr_pages reserved_pages false

/-- Source `hyp_pool_init_empty`. -/
def hyp_pool_init_empty (s : HState) (nr_pages : Nat) : HState :=
  __hyp_pool_init s 0 nr_pages 0 true

/-- A freshly zero-initialised machine: empty free lists, zero counters and a
zeroed vmemmap and memory, as the hypervisor's BSS/early setup provides. -/
def freshState : HState :=
  { pool := { free_area := List.replicate NR_PAGE_ORDERS [], free_pages := 0,
              range_start := 0, range_end := 0, max_order := 0 }
    pages := fun _ => { refcount := 0, order := 0 }
    nodeZero := fun _ => true
    bodyZero := fun _ => true }

/-! Definitions that follow the specification's words (used for the
refinement claims): each is compared against the code-derived definition
above by a theorem. -/

/-- Claim-worded `find_buddy_avail` (spec §4.1): "Returns the buddy only if
it exists, has order == k, and refcount == 0; otherwise null." -/
def findBuddyAvailClaim (s : HState) (p : Nat) (order : Nat) : Option Nat :=
  match __find_buddy_nocheck s.pool p order with
  | none => none
  | some buddy =>
    if (s.pages buddy).order = order ∧ (s.pages buddy).refcount = 0 then some buddy
    else none

/-- Claim-worded coalescing loop (spec §4.3 step 4): "Loop while
order < max_order: ask find_buddy_avail(p, order); if null, stop.  Otherwise
remove the buddy from its free list, set buddy.order = NO_ORDER, set
p = min(p, buddy), increment order."  Same fuel convention as
`coalesceGo`. -/
def claimCoalesceGo : Nat → HState → Nat → Nat → HState × Nat × Nat
  | 0, s, p, order => (s, p, order)
  | gas + 1, s, p, order =>
    if order < s.pool.max_order then
      match findBuddyAvailClaim s p order with
      | none => (s, p, order)
      | some buddy =>
        claimCoalesceGo gas (setOrder (pageRemoveFromList s buddy) buddy HYP_NO_ORDER)
          (min p buddy) (order + 1)
    else (s, p, order)

/-- Claim-worded attach of an in-range head (spec §4.3 steps 1, 3–5): zero
the body, mark the head NO_ORDER, run the claim-worded coalescing loop, set
the final head's order and insert it at the tail of its free list. -/
def attachClaim (s : HState) (p : Nat) : HState :=
  let order := (s.pages p).order
  let s := memsetGroup s p order
  let s := setOrder s p HYP_NO_ORDER
  let r := claimCoalesceGo (s.pool.max_order + 1 - order) s p order
  pageAddToList (setOrder r.1 r.2.1 r.2.2) r.2.1 r.2.2

/-- Claim-worded `find_buddy_nocheck` (claim C5): "the entry at physical
address phys(p) XOR (PAGE_SIZE << k), or null when that address falls
outside [range_start, range_end)". -/
def findBuddyNocheckClaim (pl : HypPool) (p : Nat) (order : Nat) : Option Nat :=
  if addrInR pl (buddyAddr p order) then some (buddyAddr p order / PAGE_SIZE)
  else none

/-- Claim-worded splitting loop (spec §4.4 step 2 and claim C5): "while
p.order > want_order: locate the order-(p.order - 1) buddy of p via the
nocheck routine ...; decrement p.order, set buddy.order = p.order, and
insert the buddy at the tail of free_area[buddy.order]"; on a null lookup
stop and return the page at its current (oversize) order.  Same fuel
convention as `extractGo`. -/
def claimExtractGo : Nat → HState → Nat → Nat → HState × Nat
  | 0, s, p, _ => (s, p)
  | gas + 1, s, p, order =>
    if (s.pages p).order > order then
      match findBuddyNocheckClaim s.pool p ((s.pages p).order - 1) with
      | none => (s, p)
      | some buddy =>
        let s := setOrder s p ((s.pages p).order - 1)
        let s := setOrder s buddy ((s.pages p).order)
        let s := pageAddToList s buddy ((s.pages buddy).order)
        claimExtractGo gas s p order
    else (s, p)

/-- Claim-worded extraction (claim C5): remove the head from its list, then
split. -/
def extractClaim (s : HState) (p : Nat) (order : Nat) : HState × Nat :=
  let s := pageRemoveFromList s p
  claimExtractGo ((s.pages p).order) s p order

/-! Concrete states used by counterexamples and failing-input theorems. -/

/-- The state halfway through `pool_init(pool, pfn=0, nr_pages=2,
reserved_pages=0)`, just after frame 0 was released: frame 0 is a free
order-0 head, frame 1 still carries its initialiser reference. -/
def midInitTwoFrames : HState :=
  { pool := { free_area := [[0], [], [], [], []], free_pages := 1,
              range_start := 0, range_end := 8192, max_order := 1 }
    pages := fun q => if q = 1 then { refcount := 1, order := 0 }
                      else { refcount := 0, order := 0 }
    nodeZero := fun _ => true
    bodyZero := fun _ => true }

/-- An empty-range pool (as built by `pool_init_empty(pool, 8)` from a fresh
state) into which the host has donated one external order-1 group headed at
frame 100: the donor's metadata carries `order = 1`, `refcount = 1`. -/
def extDonatedOrder1 : HState :=
  let s := hyp_pool_init_empty freshState 8
  { s with pages := updFn s.pages 100 { refcount := 1, order := 1 } }

/-- The pool of the previous definition after the donation has been released
into it: frame 100 sits in free_area[1] as an external order-1 head. -/
def extPoolWithOrder1Head : HState :=
  hyp_put_page extDonatedOrder1 100

/-- A pool over frames [4, 12) built by `pool_init(pool, pfn=4, nr_pages=8,
reserved_pages=0)` from a fresh state, together with a donated external
order-2 group covering frames [0, 4) (disjoint from the pool range), whose
head metadata carries `order = 2`, `refcount = 1`. -/
def poolWithExtOrder2Donation : HState :=
  let s := hyp_pool_init freshState 4 8 0
  { s with pages := updFn s.pages 0 { refcount := 1, order := 2 } }

/-! Decidability instances, the structural invariant components and the
caller contracts. -/

instance decidableOptionForall {α : Type} {o : Option α} {P : α → Prop}
    [∀ b, Decidable (P b)] : Decidable (∀ b, o = some b → P b) :=
  match o with
  | none => isTrue (by intro b h; cases h)
  | some x => decidable_of_iff (P x)
      ⟨fun h b hb => by cases hb; exact h, fun h => h x rfl⟩

/-- Claim C6's first predicate: every entry present in free_area[k] has
order == k and refcount == 0 (hence is marked as a head). -/
def ClaimInv1 (s : HState) : Prop :=
  ∀ k, k < NR_PAGE_ORDERS → ∀ p ∈ getArea s k,
    (s.pages p).order = k ∧ (s.pages p).refcount = 0

/-- Claim C6's second predicate exactly as stated: no free head of order
k < max_order whose order-k buddy lies inside the pool range has that buddy
simultaneously free at order k. -/
def ClaimInv3Stated (s : HState) : Prop :=
  ∀ k, k < NR_PAGE_ORDERS → k < s.pool.max_order → ∀ p ∈ getArea s k,
    ∀ b, __find_buddy_nocheck s.pool p k = some b → b ∉ getArea s k

/-- The amended second predicate: as stated, but only for in-range heads
(external heads skip coalescing, so nothing prevents their in-range buddy
from being free at the same order). -/
def ClaimInv3InRange (s : HState) : Prop :=
  ∀ k, k < NR_PAGE_ORDERS → k < s.pool.max_order → ∀ p ∈ getArea s k,
    inRangeP s.pool p →
    ∀ b, __find_buddy_nocheck s.pool p k = some b → b ∉ getArea s k

instance (s : HState) : Decidable (ClaimInv1 s) := by
  unfold ClaimInv1; infer_instance

instance (s : HState) : Decidable (ClaimInv3Stated s) := by
  unfold ClaimInv3Stated; infer_instance

instance (s : HState) : Decidable (ClaimInv3InRange s) := by
  unfold ClaimInv3InRange; infer_instance

def s5Donated : HState :=
  let s := hyp_pool_init_empty freshState 8
  { s with pages := updFn (updFn s.pages 100 ⟨1, 0⟩) 101 ⟨1, 0⟩ }

def s5AfterPuts : HState := hyp_put_page (hyp_put_page s5Donated 100) 101

/-- Basic well-formedness: the free-area array has its fixed size and the
pool's max_order is a valid order. -/
def InvA (s : HState) : Prop :=
  s.pool.free_area.length = NR_PAGE_ORDERS ∧ s.pool.max_order < NR_PAGE_ORDERS

/-- Free-list sanity: members of free_area[k] carry order k and refcount 0,
and each list is duplicate-free. -/
def InvL (s : HState) : Prop :=
  ∀ k, k < NR_PAGE_ORDERS →
    (∀ p ∈ getArea s k, (s.pages p).order = k ∧ (s.pages p).refcount = 0) ∧
    (getArea s k).Nodup

/-- In-range free groups are aligned, lie inside the range, and their tails
are NO_ORDER, refcount 0, and in no free list. -/
def InvG (s : HState) : Prop :=
  ∀ k, k < NR_PAGE_ORDERS → ∀ p ∈ getArea s k, inRangeP s.pool p →
    2 ^ k ∣ p ∧ (p + 2 ^ k) * PAGE_SIZE ≤ s.pool.range_end ∧
    ∀ q, q < p + 2 ^ k → p < q →
      (s.pages q).order = HYP_NO_ORDER ∧ (s.pages q).refcount = 0 ∧
      ∀ j, j < NR_PAGE_ORDERS → q ∉ getArea s j

/-- External free heads are inert: every lower-order buddy address they
could ever produce is outside the pool range (true of any donation whose
aligned group is disjoint from the range). -/
def InvX (s : HState) : Prop :=
  ∀ k, k < NR_PAGE_ORDERS → ∀ p ∈ getArea s k, ¬ inRangeP s.pool p →
    ∀ j, j < k → ¬ addrInR s.pool (buddyAddr p j)

/-- Pairwise disjointness of in-range free groups. -/
def InvD (s : HState) : Prop :=
  ∀ k, k < NR_PAGE_ORDERS → ∀ p ∈ getArea s k, inRangeP s.pool p →
    ∀ k2, k2 < NR_PAGE_ORDERS → ∀ p2 ∈ getArea s k2, inRangeP s.pool p2 →
      (k ≠ k2 ∨ p ≠ p2) → (p + 2 ^ k ≤ p2 ∨ p2 + 2 ^ k2 ≤ p)

/-- Converse listing (spec invariant 2), with an exemption used while one
page is being operated on: every other in-range frame marked as a head with
refcount 0 sits in the free list of its order. -/
def InvMx (s : HState) (e : Nat) : Prop :=
  ∀ q, q < s.pool.range_end / PAGE_SIZE + 1 → inRangeP s.pool q → q ≠ e →
    (s.pages q).order ≠ HYP_NO_ORDER → (s.pages q).refcount = 0 →
    (s.pages q).order < NR_PAGE_ORDERS ∧ q ∈ getArea s ((s.pages q).order)

/-- Converse listing without exemption. -/
def InvM (s : HState) : Prop :=
  ∀ q, q < s.pool.range_end / PAGE_SIZE + 1 → inRangeP s.pool q →
    (s.pages q).order ≠ HYP_NO_ORDER → (s.pages q).refcount = 0 →
    (s.pages q).order < NR_PAGE_ORDERS ∧ q ∈ getArea s ((s.pages q).order)

/-- The bytes of every free group are zero, except for the head's embedded
list node. -/
def InvZ (s : HState) : Prop :=
  ∀ k, k < NR_PAGE_ORDERS → ∀ p ∈ getArea s k, ∀ q, p ≤ q → q < p + 2 ^ k →
    s.bodyZero q = true ∧ (q ≠ p → s.nodeZero q = true)

/-- External free groups lie entirely outside the pool range (a legal
donation is disjoint from the pool's own memory). -/
def InvXW (s : HState) : Prop :=
  ∀ k, k < NR_PAGE_ORDERS → ∀ p ∈ getArea s k, ¬ inRangeP s.pool p →
    ∀ q, q < p + 2 ^ k → p ≤ q → ¬ inRangeP s.pool q

/-- The full pool invariant. -/
def PoolInv (s : HState) : Prop :=
  InvA s ∧ InvL s ∧ InvG s ∧ InvX s ∧ ClaimInv3InRange s ∧ InvD s ∧ InvM s ∧ InvZ s ∧
  InvXW s

/-- Caller contract of `hyp_put_page` (spec §4.5/§7): the caller holds a
reference; when it is the last one, the released group is a well-formed
allocated group — order within bounds (the BUG_ON), head and tails in no
free list, tails marked NO_ORDER with refcount 0, aligned and inside the
range when in-range, inert when external, and disjoint from every free
group. -/
def PutContract (s : HState) (p : Nat) : Prop :=
  1 ≤ (s.pages p).refcount ∧
  ((s.pages p).refcount = 1 →
    (s.pages p).order ≤ s.pool.max_order ∧
    (∀ j, j < NR_PAGE_ORDERS → p ∉ getArea s j) ∧
    (∀ q, p < q → q < p + 2 ^ (s.pages p).order →
      (s.pages q).order = HYP_NO_ORDER ∧ (s.pages q).refcount = 0 ∧
      ∀ j, j < NR_PAGE_ORDERS → q ∉ getArea s j) ∧
    (inRangeP s.pool p → 2 ^ (s.pages p).order ∣ p ∧
      (p + 2 ^ (s.pages p).order) * PAGE_SIZE ≤ s.pool.range_end) ∧
    (¬ inRangeP s.pool p → (∀ j, j < (s.pages p).order → ¬ addrInR s.pool (buddyAddr p j)) ∧
      (∀ q, q < p + 2 ^ (s.pages p).order → p ≤ q → ¬ inRangeP s.pool q)) ∧
    (∀ k, k < NR_PAGE_ORDERS → ∀ h ∈ getArea s k,
      (h + 2 ^ k ≤ p ∨ p + 2 ^ (s.pages p).order ≤ h)))

/-- Caller contract of `hyp_split_page`: the split group is an allocated
group the caller owns — held, in no free list, tails with refcount 0, and
disjoint from every in-range free group. -/
def SplitContract (s : HState) (p : Nat) : Prop :=
  1 ≤ (s.pages p).refcount ∧
  (∀ q, p ≤ q → q < p + 2 ^ (s.pages p).order →
    (∀ j, j < NR_PAGE_ORDERS → q ∉ getArea s j) ∧ (p < q → (s.pages q).refcount = 0)) ∧
  (∀ k, k < NR_PAGE_ORDERS → ∀ h ∈ getArea s k, inRangeP s.pool h →
    (h + 2 ^ k ≤ p ∨ p + 2 ^ (s.pages p).order ≤ h))

instance (s : HState) : Decidable (InvA s) := by unfold InvA; infer_instance

instance (s : HState) : Decidable (InvL s) := by unfold InvL; infer_instance

set_option synthInstance.maxSize 512 in
set_option synthInstance.maxHeartbeats 1000000 in
instance (s : HState) : Decidable (InvG s) := by unfold InvG; infer_instance

instance (s : HState) : Decidable (InvX s) := by unfold InvX; infer_instance

instance (s : HState) : Decidable (InvD s) := by unfold InvD; infer_instance

set_option synthInstance.maxSize 512 in
set_option synthInstance.maxHeartbeats 1000000 in
instance (s : HState) (e : Nat) : Decidable (InvMx s e) := by unfold InvMx; infer_instance

set_option synthInstance.maxSize 512 in
set_option synthInstance.maxHeartbeats 1000000 in
instance (s : HState) : Decidable (InvM s) := by unfold InvM; infer_instance

instance (s : HState) : Decidable (InvZ s) := by unfold InvZ; infer_instance

set_option synthInstance.maxSize 512 in
set_option synthInstance.maxHeartbeats 1000000 in
instance (s : HState) : Decidable (InvXW s) := by unfold InvXW; infer_instance

instance (s : HState) : Decidable (PoolInv s) := by unfold PoolInv; infer_instance

/-- Bound on the current group carried through coalescing (used to show that
pool_init only ever builds groups out of already-released frames). -/
def ListedBnd (s : HState) (lo hi : Nat) : Prop :=
  ∀ k2, k2 < NR_PAGE_ORDERS → ∀ p2 ∈ getArea s k2, inRangeP s.pool p2 →
    lo ≤ p2 ∧ p2 + 2 ^ k2 ≤ hi

/-- The loop invariant of the attach/coalesce path: the current group
(headed at h, order k) is in range, aligned, covered by the range, all its
frames are NO_ORDER/refcount-0/unlisted and fully zeroed, it is disjoint
from every listed in-range group, and it lies within [lo, hi). -/
def CurGroup (s : HState) (h k lo hi : Nat) : Prop :=
  inRangeP s.pool h ∧ 2 ^ k ∣ h ∧ (h + 2 ^ k) * PAGE_SIZE ≤ s.pool.range_end ∧
  (∀ q, q < h + 2 ^ k → h ≤ q →
    (s.pages q).order = HYP_NO_ORDER ∧ (s.pages q).refcount = 0 ∧
    (∀ j, j < NR_PAGE_ORDERS → q ∉ getArea s j) ∧
    s.bodyZero q = true ∧ s.nodeZero q = true) ∧
  (∀ k2, k2 < NR_PAGE_ORDERS → ∀ p2 ∈ getArea s k2, inRangeP s.pool p2 →
    (p2 + 2 ^ k2 ≤ h ∨ h + 2 ^ k ≤ p2)) ∧
  lo ≤ h ∧ h + 2 ^ k ≤ hi

def PoolInvx (s : HState) (e : Nat) : Prop :=
  InvA s ∧ InvL s ∧ InvG s ∧ InvX s ∧ ClaimInv3InRange s ∧ InvD s ∧ InvMx s e ∧ InvZ s ∧
  InvXW s

def ExtGroup (t : HState) (p : Nat) : Prop :=
  inRangeP t.pool p ∧ (t.pages p).refcount = 0 ∧
  2 ^ (t.pages p).order ∣ p ∧
  (p + 2 ^ (t.pages p).order) * PAGE_SIZE ≤ t.pool.range_end ∧
  (∀ j, j < NR_PAGE_ORDERS → p ∉ getArea t j) ∧
  (∀ q, p < q → q < p + 2 ^ (t.pages p).order →
    (t.pages q).order = HYP_NO_ORDER ∧ (t.pages q).refcount = 0 ∧
    ∀ j, j < NR_PAGE_ORDERS → q ∉ getArea t j) ∧
  (∀ q, p ≤ q → q < p + 2 ^ (t.pages p).order →
    t.bodyZero q = true ∧ t.nodeZero q = true) ∧
  (∀ k2, k2 < NR_PAGE_ORDERS → ∀ p2 ∈ getArea t k2, inRangeP t.pool p2 →
    (p2 + 2 ^ k2 ≤ p ∨ p + 2 ^ (t.pages p).order ≤ p2)) ∧
  (t.pages p).order ≤ t.pool.max_order

/-! Basic lemmas about the state helpers. -/

@[simp] theorem updFn_self {α : Type} (f : Nat → α) (a : Nat) (v : α) :
    updFn f a v a = v := by simp [updFn]

theorem updFn_ne {α : Type} (f : Nat → α) (a x : Nat) (v : α) (h : x ≠ a) :
    updFn f a v x = f x := by simp [updFn, h]

@[simp] theorem setOrder_pool (s : HState) (p o : Nat) :
    (setOrder s p o).pool = s.pool := rfl

@[simp] theorem setRc_pool (s : HState) (p r : Nat) :
    (setRc s p r).pool = s.pool := rfl

@[simp] theorem memsetGroup_pool (s : HState) (p o : Nat) :
    (memsetGroup s p o).pool = s.pool := rfl

@[simp] theorem pageRemoveFromList_pages (s : HState) (p : Nat) :
    (pageRemoveFromList s p).pages = s.pages := rfl

@[simp] theorem pageAddToList_pages (s : HState) (p : Nat) (k : Nat) :
    (pageAddToList s p k).pages = s.pages := rfl

@[simp] theorem memsetGroup_pages (s : HState) (p o : Nat) :
    (memsetGroup s p o).pages = s.pages := rfl

@[simp] theorem setFp_pages (s : HState) (v : Nat) :
    (setFp s v).pages = s.pages := rfl

@[simp] theorem setOrder_pages_self (s : HState) (p o : Nat) :
    (setOrder s p o).pages p = { s.pages p with order := o } := by
  simp [setOrder]

theorem setOrder_pages_ne (s : HState) (p o : Nat) (q : Nat) (h : q ≠ p) :
    (setOrder s p o).pages q = s.pages q := by
  simp [setOrder, updFn_ne _ _ _ _ h]

@[simp] theorem setRc_pages_self (s : HState) (p r : Nat) :
    (setRc s p r).pages p = { s.pages p with refcount := r } := by
  simp [setRc]

theorem setRc_pages_ne (s : HState) (p r : Nat) (q : Nat) (h : q ≠ p) :
    (setRc s p r).pages q = s.pages q := by
  simp [setRc, updFn_ne _ _ _ _ h]

@[simp] theorem pageRemoveFromList_maxOrder (s : HState) (p : Nat) :
    (pageRemoveFromList s p).pool.max_order = s.pool.max_order := rfl

@[simp] theorem pageRemoveFromList_rangeStart (s : HState) (p : Nat) :
    (pageRemoveFromList s p).pool.range_start = s.pool.range_start := rfl

@[simp] theorem pageRemoveFromList_rangeEnd (s : HState) (p : Nat) :
    (pageRemoveFromList s p).pool.range_end = s.pool.range_end := rfl

@[simp] theorem pageRemoveFromList_fp (s : HState) (p : Nat) :
    (pageRemoveFromList s p).pool.free_pages = s.pool.free_pages := rfl

@[simp] theorem pageAddToList_maxOrder (s : HState) (p : Nat) (k : Nat) :
    (pageAddToList s p k).pool.max_order = s.pool.max_order := rfl

@[simp] theorem pageAddToList_rangeStart (s : HState) (p : Nat) (k : Nat) :
    (pageAddToList s p k).pool.range_start = s.pool.range_start := rfl

@[simp] theorem pageAddToList_rangeEnd (s : HState) (p : Nat) (k : Nat) :
    (pageAddToList s p k).pool.range_end = s.pool.range_end := rfl

@[simp] theorem pageAddToList_fp (s : HState) (p : Nat) (k : Nat) :
    (pageAddToList s p k).pool.free_pages = s.pool.free_pages := rfl

@[simp] theorem pageRemoveFromList_length (s : HState) (p : Nat) :
    (pageRemoveFromList s p).pool.free_area.length = s.pool.free_area.length := by
  simp [pageRemoveFromList]

@[simp] theorem pageAddToList_length (s : HState) (p : Nat) (k : Nat) :
    (pageAddToList s p k).pool.free_area.length = s.pool.free_area.length := by
  simp [pageAddToList, setArea]

theorem getArea_remove (s : HState) (p : Nat) (k : Nat) :
    getArea (pageRemoveFromList s p) k = (getArea s k).erase p := by
  unfold getArea pageRemoveFromList
  rcases h : s.pool.free_area[k]? with _ | l
  · have hk : s.pool.free_area.length ≤ k := by
      exact List.getElem?_eq_none_iff.mp h
    have : (s.pool.free_area.map (fun l => l.erase p))[k]? = none := by
      apply List.getElem?_eq_none_iff.mpr; simpa using hk
    simp [List.getD, h, this]
  · have : (s.pool.free_area.map (fun l => l.erase p))[k]? = some (l.erase p) := by
      simp [List.getElem?_map, h]
    simp [List.getD, h, this]

theorem getArea_add_self (s : HState) (p : Nat) (k : Nat)
    (h : k < s.pool.free_area.length) :
    getArea (pageAddToList s p k) k = getArea s k ++ [p] := by
  unfold getArea pageAddToList setArea
  simp [List.getElem?_set_self', List.getD, List.getElem?_eq_getElem h, getArea]

theorem getArea_add_ne (s : HState) (p : Nat) (k k' : Nat) (h : k' ≠ k) :
    getArea (pageAddToList s p k) k' = getArea s k' := by
  unfold getArea pageAddToList setArea
  simp [List.getD, List.getElem?_set_ne (Ne.symm h)]

@[simp] theorem setFp_fp (s : HState) (v : Nat) :
    (setFp s v).pool.free_pages = v % U64 := rfl

@[simp] theorem setFp_getArea (s : HState) (v k : Nat) :
    getArea (setFp s v) k = getArea s k := rfl

@[simp] theorem setOrder_getArea (s : HState) (p o k : Nat) :
    getArea (setOrder s p o) k = getArea s k := rfl

@[simp] theorem setRc_getArea (s : HState) (p r k : Nat) :
    getArea (setRc s p r) k = getArea s k := rfl

@[simp] theorem memsetGroup_getArea (s : HState) (p o k : Nat) :
    getArea (memsetGroup s p o) k = getArea s k := rfl

/-! Bit-arithmetic toolkit for buddy computations. -/

theorem pow_mul_xor_distrib (n a b : Nat) :
    (2 ^ n * a) ^^^ (2 ^ n * b) = 2 ^ n * (a ^^^ b) := by
  apply Nat.eq_of_testBit_eq
  intro j
  simp only [Nat.testBit_xor, Nat.testBit_mul_pow_two]
  by_cases h : n ≤ j <;> simp [h]

theorem buddyAddr_eq' (p k : Nat) :
    (p * 4096) ^^^ (4096 <<< k) = (p ^^^ 2 ^ k) * 4096 := by
  have h1 : p * 4096 = 2 ^ 12 * p := by norm_num; ring
  have h2 : (4096 : Nat) <<< k = 2 ^ 12 * 2 ^ k := by
    rw [Nat.shiftLeft_eq]; norm_num
  have h3 : (p ^^^ 2 ^ k) * 4096 = 2 ^ 12 * (p ^^^ 2 ^ k) := by norm_num; ring
  rw [h1, h2, h3, pow_mul_xor_distrib]

theorem two_mul_xor_one (t : Nat) : (2 * t) ^^^ 1 = 2 * t + 1 := by
  apply Nat.eq_of_testBit_eq
  intro j
  cases j with
  | zero => simp [Nat.testBit_xor, Nat.mul_add_mod]
  | succ j =>
    rw [Nat.testBit_xor]
    simp only [Nat.testBit_add_one]
    have e1 : 2 * t / 2 = t := by omega
    have e2 : (2 * t + 1) / 2 = t := by omega
    have e3 : (1 : Nat) / 2 = 0 := by norm_num
    rw [e1, e2, e3]
    simp

theorem two_mul_add_one_xor_one (t : Nat) : (2 * t + 1) ^^^ 1 = 2 * t := by
  apply Nat.eq_of_testBit_eq
  intro j
  cases j with
  | zero => simp [Nat.testBit_xor, Nat.mul_add_mod]; omega
  | succ j =>
    rw [Nat.testBit_xor]
    simp only [Nat.testBit_add_one]
    have e1 : 2 * t / 2 = t := by omega
    have e2 : (2 * t + 1) / 2 = t := by omega
    have e3 : (1 : Nat) / 2 = 0 := by norm_num
    rw [e1, e2, e3]
    simp

theorem xor_pow_ne (p k : Nat) : p ^^^ 2 ^ k ≠ p := by
  intro h
  have h1 : (p ^^^ 2 ^ k).testBit k = p.testBit k := by rw [h]
  simp [Nat.testBit_xor, Nat.testBit_two_pow_self] at h1

/-- An order-`k`-aligned address XOR-ed with `2 ^ k` moves to the sibling
half of the enclosing `2 ^ (k+1)` block: up if the lower half, down if the
upper half. -/
theorem aligned_xor_cases (k p : Nat) (hal : 2 ^ k ∣ p) :
    (2 ^ (k + 1) ∣ p ∧ p ^^^ 2 ^ k = p + 2 ^ k) ∨
    (2 ^ k ≤ p ∧ 2 ^ (k + 1) ∣ p - 2 ^ k ∧ p ^^^ 2 ^ k = p - 2 ^ k) := by
  obtain ⟨m, rfl⟩ := hal
  have key : (2 ^ k * m) ^^^ 2 ^ k = 2 ^ k * (m ^^^ 1) := by
    simpa using pow_mul_xor_distrib k m 1
  rcases Nat.even_or_odd m with he | ho
  · obtain ⟨t, rfl⟩ := he
    left
    refine ⟨⟨t, by ring⟩, ?_⟩
    rw [key, show t + t = 2 * t by ring, two_mul_xor_one]; ring
  · obtain ⟨t, rfl⟩ := ho
    right
    have hpos : (1 : Nat) ≤ 2 ^ k := Nat.one_le_two_pow
    refine ⟨by nlinarith, ⟨t, ?_⟩, ?_⟩
    · have h1 : 2 ^ k * (2 * t + 1) = 2 ^ (k + 1) * t + 2 ^ k := by ring
      omega
    rw [key, two_mul_add_one_xor_one]
    have : 2 ^ k * (2 * t + 1) = 2 ^ k * (2 * t) + 2 ^ k := by ring
    omega

/-- Splitting direction: the order-`k` buddy of the base of an aligned
`2 ^ (k+1)` block is its upper half. -/
theorem buddy_split (k p : Nat) (hal : 2 ^ (k + 1) ∣ p) :
    p ^^^ 2 ^ k = p + 2 ^ k := by
  obtain ⟨t, rfl⟩ := hal
  have key : (2 ^ k * (2 * t)) ^^^ 2 ^ k = 2 ^ k * ((2 * t) ^^^ 1) := by
    simpa using pow_mul_xor_distrib k (2 * t) 1
  have hp : 2 ^ (k + 1) * t = 2 ^ k * (2 * t) := by ring
  rw [hp, key, two_mul_xor_one]; ring

/-- Merged form used by the coalescing proofs. -/
theorem buddy_merge (k p : Nat) (hal : 2 ^ k ∣ p) :
    (p ^^^ 2 ^ k) ≠ p ∧ 2 ^ (k + 1) ∣ min p (p ^^^ 2 ^ k) ∧
    max p (p ^^^ 2 ^ k) = min p (p ^^^ 2 ^ k) + 2 ^ k := by
  have hne := xor_pow_ne p k
  rcases aligned_xor_cases k p hal with ⟨hd, he⟩ | ⟨hle, hd, he⟩
  · have hlt : p < p ^^^ 2 ^ k := by
      rw [he]; have : (1 : Nat) ≤ 2 ^ k := Nat.one_le_two_pow; omega
    rw [Nat.min_eq_left hlt.le, Nat.max_eq_right hlt.le]
    exact ⟨hne, hd, by rw [he]⟩
  · have hlt : p ^^^ 2 ^ k < p := by
      rw [he]; have : (1 : Nat) ≤ 2 ^ k := Nat.one_le_two_pow; omega
    rw [Nat.min_eq_right hlt.le, Nat.max_eq_left hlt.le]
    have hp : (1 : Nat) ≤ 2 ^ k := Nat.one_le_two_pow
    exact ⟨hne, by rw [he]; exact hd, by rw [he]; omega⟩

theorem buddyAddr_frame (p k : Nat) : buddyAddr p k = (p ^^^ 2 ^ k) * PAGE_SIZE := by
  unfold buddyAddr PAGE_SIZE
  have h : (1 : Nat) <<< k = 2 ^ k := Nat.one_shiftLeft k
  rw [buddyAddr_eq']

theorem buddyAddr_div (p k : Nat) : buddyAddr p k / PAGE_SIZE = p ^^^ 2 ^ k := by
  rw [buddyAddr_frame]
  exact Nat.mul_div_cancel _ (by norm_num [PAGE_SIZE])

theorem nocheck_eq (pl : HypPool) (p k : Nat) :
    __find_buddy_nocheck pl p k =
      if addrInR pl ((p ^^^ 2 ^ k) * PAGE_SIZE) then some (p ^^^ 2 ^ k) else none := by
  unfold __find_buddy_nocheck
  rw [show buddyAddr p k = (p ^^^ 2 ^ k) * PAGE_SIZE from buddyAddr_frame p k]
  by_cases h : addrInR pl ((p ^^^ 2 ^ k) * PAGE_SIZE)
  · rw [if_pos h, if_neg (by rcases h with ⟨h1, h2⟩; push_neg; omega)]
    rw [Nat.mul_div_cancel _ (by norm_num [PAGE_SIZE])]
  · rw [if_neg h, if_pos (by unfold addrInR at h; omega)]

theorem avail_some {s : HState} {p k : Nat} {b : Nat}
    (h : __find_buddy_avail s p k = some b) :
    b = p ^^^ 2 ^ k ∧ addrInR s.pool ((p ^^^ 2 ^ k) * PAGE_SIZE) ∧
    (s.pages b).order = k ∧ (s.pages b).refcount = 0 := by
  unfold __find_buddy_avail at h
  rw [nocheck_eq] at h
  by_cases hr : addrInR s.pool ((p ^^^ 2 ^ k) * PAGE_SIZE)
  · rw [if_pos hr] at h
    simp only [] at h
    by_cases ho : (s.pages (p ^^^ 2 ^ k)).order = k
    · by_cases hc : (s.pages (p ^^^ 2 ^ k)).refcount = 0
      · simp [ho, hc] at h
        subst h
        exact ⟨rfl, hr, ho, hc⟩
      · simp [ho, hc] at h
    · simp [ho] at h
  · rw [if_neg hr] at h
    simp at h

theorem coalesceGo_pool (gas : Nat) : ∀ (s : HState) (p k : Nat),
    (coalesceGo gas s p k).1.pool.max_order = s.pool.max_order ∧
    (coalesceGo gas s p k).1.pool.range_start = s.pool.range_start ∧
    (coalesceGo gas s p k).1.pool.range_end = s.pool.range_end ∧
    (coalesceGo gas s p k).1.pool.free_pages = s.pool.free_pages ∧
    (coalesceGo gas s p k).1.pool.free_area.length = s.pool.free_area.length := by
  induction gas with
  | zero => intro s p k; exact ⟨rfl, rfl, rfl, rfl, rfl⟩
  | succ gas ih =>
    intro s p k
    simp only [coalesceGo]
    by_cases hcond : k + 1 ≤ s.pool.max_order
    · rw [if_pos hcond]
      cases havail : __find_buddy_avail s p k with
      | none => exact ⟨rfl, rfl, rfl, rfl, rfl⟩
      | some b =>
        have h := ih (setOrder (pageRemoveFromList s b) b HYP_NO_ORDER) (min p b) (k + 1)
        simpa using h
    · rw [if_neg hcond]
      exact ⟨rfl, rfl, rfl, rfl, rfl⟩

theorem coalesceGo_order_le (gas : Nat) : ∀ (s : HState) (p k : Nat),
    k ≤ s.pool.max_order → (coalesceGo gas s p k).2.2 ≤ s.pool.max_order := by
  induction gas with
  | zero => intro s p k h; exact h
  | succ gas ih =>
    intro s p k h
    simp only [coalesceGo]
    by_cases hcond : k + 1 ≤ s.pool.max_order
    · rw [if_pos hcond]
      cases havail : __find_buddy_avail s p k with
      | none => exact h
      | some b =>
        have h2 := ih (setOrder (pageRemoveFromList s b) b HYP_NO_ORDER) (min p b) (k + 1)
          (by simpa using hcond)
        simpa using h2
    · rw [if_neg hcond]; exact h

/-- During coalescing, any page whose order field is the `HYP_NO_ORDER`
sentinel is never selected as a buddy (buddies must carry the current loop
order, which is below `max_order < HYP_NO_ORDER`), so its vmemmap entry is
frozen. -/
theorem coalesceGo_pages_frozen (gas : Nat) : ∀ (s : HState) (p k : Nat) (q : Nat),
    (s.pages q).order = HYP_NO_ORDER → s.pool.max_order < HYP_NO_ORDER →
    (coalesceGo gas s p k).1.pages q = s.pages q := by
  induction gas with
  | zero => intro s p k q _ _; rfl
  | succ gas ih =>
    intro s p k q hq hmo
    simp only [coalesceGo]
    by_cases hcond : k + 1 ≤ s.pool.max_order
    · rw [if_pos hcond]
      cases havail : __find_buddy_avail s p k with
      | none => rfl
      | some b =>
        obtain ⟨-, -, hbo, -⟩ := avail_some havail
        have hbq : b ≠ q := by
          intro he; rw [he, hq] at hbo; omega
        have hpg : (setOrder (pageRemoveFromList s b) b HYP_NO_ORDER).pages q = s.pages q := by
          rw [setOrder_pages_ne _ _ _ _ (Ne.symm hbq)]
          rfl
        have h2 := ih (setOrder (pageRemoveFromList s b) b HYP_NO_ORDER) (min p b) (k + 1) q
          (by rw [hpg]; exact hq) (by simpa using hmo)
        exact h2.trans hpg
    · rw [if_neg hcond]

/-! Equality of the code's loops with the claim-worded loops. -/

theorem avail_eq_claim (s : HState) (p k : Nat) :
    __find_buddy_avail s p k = findBuddyAvailClaim s p k := by
  unfold __find_buddy_avail findBuddyAvailClaim
  cases __find_buddy_nocheck s.pool p k with
  | none => rfl
  | some b =>
    by_cases ho : (s.pages b).order = k
    · by_cases hc : (s.pages b).refcount = 0
      · simp [ho, hc]
      · simp [ho, hc]
    · simp [ho]

theorem coalesceGo_eq_claim (gas : Nat) : ∀ (s : HState) (p k : Nat),
    coalesceGo gas s p k = claimCoalesceGo gas s p k := by
  induction gas with
  | zero => intro s p k; rfl
  | succ gas ih =>
    intro s p k
    simp only [coalesceGo, claimCoalesceGo]
    rw [avail_eq_claim]
    refine if_congr (by omega) ?_ rfl
    cases findBuddyAvailClaim s p k with
    | none => rfl
    | some b => exact ih _ _ _

theorem nocheck_eq_claim (pl : HypPool) (p k : Nat) :
    __find_buddy_nocheck pl p k = findBuddyNocheckClaim pl p k := by
  unfold findBuddyNocheckClaim
  rw [nocheck_eq, buddyAddr_div, buddyAddr_frame]

theorem extractGo_eq_claim (gas : Nat) : ∀ (s : HState) (p : Nat) (w : Nat),
    extractGo gas s p w = claimExtractGo gas s p w := by
  induction gas with
  | zero => intro s p w; rfl
  | succ gas ih =>
    intro s p w
    simp only [extractGo, claimExtractGo]
    rw [nocheck_eq_claim]
    refine if_congr Iff.rfl ?_ rfl
    cases findBuddyNocheckClaim s.pool p ((s.pages p).order - 1) with
    | none => rfl
    | some b => exact ih _ _ _

/-! Lemmas about the allocation scan. -/

theorem scanGo_none_of_empty (s : HState) : ∀ (gas i : Nat),
    (∀ j, i ≤ j → j ≤ s.pool.max_order → getArea s j = []) →
    scanGo s gas i = none := by
  intro gas
  induction gas with
  | zero => intro i _; rfl
  | succ gas ih =>
    intro i h
    simp only [scanGo]
    by_cases hcond : i ≤ s.pool.max_order
    · rw [if_pos hcond, if_pos (h i le_rfl hcond)]
      exact ih (i + 1) (fun j hj1 hj2 => h j (by omega) hj2)
    · rw [if_neg hcond]

theorem scanGo_some (s : HState) : ∀ (gas i j : Nat),
    scanGo s gas i = some j →
    i ≤ j ∧ j ≤ s.pool.max_order ∧ getArea s j ≠ [] ∧
    (∀ t, i ≤ t → t < j → getArea s t = []) := by
  intro gas
  induction gas with
  | zero => intro i j h; simp [scanGo] at h
  | succ gas ih =>
    intro i j h
    simp only [scanGo] at h
    by_cases hcond : i ≤ s.pool.max_order
    · rw [if_pos hcond] at h
      by_cases hemp : getArea s i = []
      · rw [if_pos hemp] at h
        obtain ⟨h1, h2, h3, h4⟩ := ih (i + 1) j h
        refine ⟨by omega, h2, h3, fun t ht1 ht2 => ?_⟩
        rcases Nat.eq_or_lt_of_le ht1 with he | hlt
        · rw [← he]; exact hemp
        · exact h4 t hlt ht2
      · rw [if_neg hemp] at h
        obtain rfl : i = j := by simpa using h
        exact ⟨le_rfl, hcond, hemp, fun t ht1 ht2 => by omega⟩
    · rw [if_neg hcond] at h
      simp at h

/-! Lemmas about the splitting loop. -/

theorem extractGo_snd (gas : Nat) : ∀ (s : HState) (p : Nat) (w : Nat),
    (extractGo gas s p w).2 = p := by
  induction gas with
  | zero => intro s p w; rfl
  | succ gas ih =>
    intro s p w
    simp only [extractGo]
    by_cases hcond : w < (s.pages p).order
    · rw [if_pos hcond]
      cases __find_buddy_nocheck s.pool p ((s.pages p).order - 1) with
      | none => rfl
      | some b => exact ih _ _ _
    · rw [if_neg hcond]

theorem extractGo_pool (gas : Nat) : ∀ (s : HState) (p : Nat) (w : Nat),
    (extractGo gas s p w).1.pool.max_order = s.pool.max_order ∧
    (extractGo gas s p w).1.pool.range_start = s.pool.range_start ∧
    (extractGo gas s p w).1.pool.range_end = s.pool.range_end ∧
    (extractGo gas s p w).1.pool.free_pages = s.pool.free_pages ∧
    (extractGo gas s p w).1.pool.free_area.length = s.pool.free_area.length := by
  induction gas with
  | zero => intro s p w; exact ⟨rfl, rfl, rfl, rfl, rfl⟩
  | succ gas ih =>
    intro s p w
    simp only [extractGo]
    by_cases hcond : w < (s.pages p).order
    · rw [if_pos hcond]
      cases __find_buddy_nocheck s.pool p ((s.pages p).order - 1) with
      | none => exact ⟨rfl, rfl, rfl, rfl, rfl⟩
      | some b =>
        exact ⟨(ih _ p w).1.trans rfl, (ih _ p w).2.1.trans rfl, (ih _ p w).2.2.1.trans rfl,
          (ih _ p w).2.2.2.1.trans rfl, (ih _ p w).2.2.2.2.trans (by simp)⟩
    · rw [if_neg hcond]
      exact ⟨rfl, rfl, rfl, rfl, rfl⟩

theorem nocheck_range_congr (pl pl' : HypPool) (p k : Nat)
    (h1 : pl.range_start = pl'.range_start) (h2 : pl.range_end = pl'.range_end) :
    __find_buddy_nocheck pl p k = __find_buddy_nocheck pl' p k := by
  unfold __find_buddy_nocheck
  rw [h1, h2]

theorem nocheck_some_frame {pl : HypPool} {p k b : Nat}
    (h : __find_buddy_nocheck pl p k = some b) : b = p ^^^ 2 ^ k := by
  rw [nocheck_eq] at h
  by_cases hr : addrInR pl ((p ^^^ 2 ^ k) * PAGE_SIZE)
  · rw [if_pos hr] at h; simpa using h.symm
  · rw [if_neg hr] at h; simp at h

theorem extractGo_rc (gas : Nat) : ∀ (s : HState) (p : Nat) (w : Nat) (q : Nat),
    ((extractGo gas s p w).1.pages q).refcount = (s.pages q).refcount := by
  induction gas with
  | zero => intro s p w q; rfl
  | succ gas ih =>
    intro s p w q
    simp only [extractGo]
    by_cases hcond : w < (s.pages p).order
    · rw [if_pos hcond]
      cases hnb : __find_buddy_nocheck s.pool p ((s.pages p).order - 1) with
      | none => rfl
      | some b =>
        have hbp : b ≠ p := by
          rw [nocheck_some_frame hnb]; exact xor_pow_ne p _
        refine (ih _ p w q).trans ?_
        by_cases hq1 : q = b
        · subst hq1
          simp [pageAddToList, setOrder, setArea, updFn, Ne.symm hbp, hbp]
        · by_cases hq2 : q = p <;>
            simp [pageAddToList, setOrder, setArea, updFn, hq1, hq2, Ne.symm hbp]
    · rw [if_neg hcond]

theorem extractGo_post (gas : Nat) : ∀ (s : HState) (p : Nat) (w : Nat),
    w ≤ (s.pages p).order → (s.pages p).order ≤ gas + w →
    ((extractGo gas s p w).1.pages p).order = w ∨
    (w < ((extractGo gas s p w).1.pages p).order ∧
      __find_buddy_nocheck s.pool p (((extractGo gas s p w).1.pages p).order - 1) = none) := by
  induction gas with
  | zero =>
    intro s p w h1 h2
    left
    show (s.pages p).order = w
    omega
  | succ gas ih =>
    intro s p w h1 h2
    simp only [extractGo]
    by_cases hcond : w < (s.pages p).order
    · rw [if_pos hcond]
      cases hnb : __find_buddy_nocheck s.pool p ((s.pages p).order - 1) with
      | none => right; exact ⟨hcond, hnb⟩
      | some b =>
        have hbp : b ≠ p := by
          rw [nocheck_some_frame hnb]; exact xor_pow_ne p _
        simp only [setOrder_pages_self, setOrder_pages_ne _ _ _ _ (Ne.symm hbp)]
        have hpO : ((pageAddToList (setOrder (setOrder s p ((s.pages p).order - 1)) b
            ((s.pages p).order - 1)) b ((s.pages p).order - 1)).pages p).order
            = (s.pages p).order - 1 := by
          rw [pageAddToList_pages, setOrder_pages_ne _ _ _ _ (Ne.symm hbp), setOrder_pages_self]
        have hrec := ih (pageAddToList (setOrder (setOrder s p ((s.pages p).order - 1)) b
            ((s.pages p).order - 1)) b ((s.pages p).order - 1)) p w
            (by rw [hpO]; omega) (by rw [hpO]; omega)
        refine hrec.imp (fun h => h) (fun h => ⟨h.1, ?_⟩)
        exact (nocheck_range_congr _ s.pool p _ rfl rfl).symm.trans h.2
    · rw [if_neg hcond]
      left
      show (s.pages p).order = w
      omega

/-- Claim C4: for every in-range head released into the pool, `attach`
coalesces by exactly the claimed loop — `find_buddy_avail` returns the buddy
precisely when it exists in range with matching order and zero refcount, and
the attach path equals the claim-worded pipeline (mark NO_ORDER, loop while
order < max_order taking the lower-addressed page as the new head, then set
the final head's order and append it to free_area[order]). -/
theorem c4_attach_coalesces_by_claim_loop (s : HState) (p : Nat)
    (hin : inRangeP s.pool p) :
    (∀ q k, __find_buddy_avail s q k = findBuddyAvailClaim s q k) ∧
    __hyp_attach_page s p = attachClaim s p := by
  refine ⟨fun q k => avail_eq_claim s q k, ?_⟩
  unfold __hyp_attach_page attachClaim
  obtain ⟨h1, h2⟩ := hin
  rw [if_neg (by push_neg; exact ⟨h1, h2⟩)]
  dsimp only
  rw [coalesceGo_eq_claim]

/-- Claim C5: extraction is exactly the claimed loop — `find_buddy_nocheck`
returns the entry at `phys(p) XOR (PAGE_SIZE << k)` unless that address
leaves the pool range, and `__hyp_extract_page` equals the claim-worded
pipeline (remove from the list; while p.order > want_order split off the
upper half into its free list; stop with the oversize page if the nocheck
lookup fails). -/
theorem c5_extract_by_claim_loop (s : HState) (p : Nat) (w : Nat)
    (_hmem : p ∈ getArea s ((s.pages p).order)) (_hw : w ≤ (s.pages p).order) :
    (∀ (pl : HypPool) (q k : Nat), __find_buddy_nocheck pl q k = findBuddyNocheckClaim pl q k) ∧
    __hyp_extract_page s p w = extractClaim s p w := by
  refine ⟨fun pl q k => nocheck_eq_claim pl q k, ?_⟩
  unfold __hyp_extract_page extractClaim
  rw [extractGo_eq_claim]

/-- Claim C10: when no free list of order between want_order and max_order
is non-empty (in particular whenever want_order exceeds max_order), `alloc`
returns null and the state — free lists, page metadata, counters — is
returned unchanged. -/
theorem c10_alloc_oom_null_no_change (s : HState) (w : Nat)
    (h : ∀ j, w ≤ j → j ≤ s.pool.max_order → getArea s j = []) :
    hyp_alloc_pages s w = (none, s) := by
  unfold hyp_alloc_pages
  rw [scanGo_none_of_empty s _ w h]

/-- Claim C6, counterexample: a pool over frames [4, 12) holding free
order-2 heads at frames 4 and 8 satisfies both claimed predicates; releasing
a donated external order-2 group headed at frame 0 (a disjoint, legal
donation) is a public put operation after which the no-two-free-buddies
predicate as stated is violated: external head 0 sits in free_area[2], its
order-2 buddy address is frame 4, inside the pool range and itself free at
order 2.  The amended (in-range-head) predicate still holds. -/
theorem c6_counterexample :
    ClaimInv1 poolWithExtOrder2Donation ∧ ClaimInv3Stated poolWithExtOrder2Donation ∧
    (poolWithExtOrder2Donation.pages 0).refcount = 1 ∧
    (poolWithExtOrder2Donation.pages 0).order = 2 ∧
    poolWithExtOrder2Donation.pool.max_order = 3 ∧
    ClaimInv1 (hyp_put_page poolWithExtOrder2Donation 0) ∧
    ¬ ClaimInv3Stated (hyp_put_page poolWithExtOrder2Donation 0) ∧
    ¬ inRangeP (hyp_put_page poolWithExtOrder2Donation 0).pool 0 ∧
    getArea (hyp_put_page poolWithExtOrder2Donation 0) 2 = [4, 8, 0] ∧
    __find_buddy_nocheck (hyp_put_page poolWithExtOrder2Donation 0).pool 0 2 = some 4 ∧
    ClaimInv3InRange (hyp_put_page poolWithExtOrder2Donation 0) := by decide

/-- Claim C3, counterexample: on an empty-range pool holding one external
order-1 free head (frame 100), alloc(want_order = 0) takes that head, the
nocheck lookup fails immediately, so the page is returned at order 1 —
extraction did not reach want_order — and free_pages drops by 2, not by
1 << want_order = 1. -/
theorem c3_counterexample :
    getArea extPoolWithOrder1Head 0 = [] ∧ getArea extPoolWithOrder1Head 1 = [100] ∧
    extPoolWithOrder1Head.pool.free_pages = 2 ∧
    (hyp_alloc_pages extPoolWithOrder1Head 0).1 = some 100 ∧
    ((hyp_alloc_pages extPoolWithOrder1Head 0).2.pages 100).order = 1 ∧
    ((hyp_alloc_pages extPoolWithOrder1Head 0).2.pages 100).refcount = 1 ∧
    (hyp_alloc_pages extPoolWithOrder1Head 0).2.pool.free_pages = 0 ∧
    (hyp_alloc_pages extPoolWithOrder1Head 0).2.pool.free_pages ≠
      extPoolWithOrder1Head.pool.free_pages - 2 ^ 0 := by decide

/-- Claim C1, counterexample: halfway through pool_init(0, 2, 0), releasing
frame 1 coalesces it with free frame 0; the refcount decrement reaches zero
and the head is attached (frame 0 becomes the order-1 head of free_area[1]),
but free_pages does not increase by 1 << final_order = 2: the code reads the
order field of the page that was passed in, which after coalescing holds the
HYP_NO_ORDER sentinel, so (in the model semantics of the undefined C shift)
the counter does not change at all. -/
theorem c1_counterexample :
    (midInitTwoFrames.pages 1).refcount = 1 ∧
    ((hyp_put_page midInitTwoFrames 1).pages 1).refcount = 0 ∧
    getArea (hyp_put_page midInitTwoFrames 1) 1 = [0] ∧
    ((hyp_put_page midInitTwoFrames 1).pages 0).order = 1 ∧
    ((hyp_put_page midInitTwoFrames 1).pages 1).order = HYP_NO_ORDER ∧
    attachHead (setRc midInitTwoFrames 1 0) 1 = (0, 1) ∧
    (hyp_put_page midInitTwoFrames 1).pool.free_pages = 1 ∧
    (hyp_put_page midInitTwoFrames 1).pool.free_pages ≠
      midInitTwoFrames.pool.free_pages + 2 ^ 1 := by decide

/-- Claim C2 (failing input): from a fresh state,
pool_init(pfn = 0, nr_pages = 4, reserved_pages = 0) must by exact
accounting (and by scenario S1) leave free_pages = 4; the code leaves 2.
The structural expectation of S1 does hold: free_area[2] contains exactly
the order-2 head at frame 0 and every other free area is empty. -/
theorem c2_exact_accounting_fails :
    (hyp_pool_init freshState 0 4 0).pool.free_pages = 2 ∧
    (hyp_pool_init freshState 0 4 0).pool.free_pages ≠ 4 ∧
    getArea (hyp_pool_init freshState 0 4 0) 2 = [0] ∧
    ((hyp_pool_init freshState 0 4 0).pages 0).order = 2 ∧
    (∀ k, k < NR_PAGE_ORDERS → k ≠ 2 → getArea (hyp_pool_init freshState 0 4 0) k = []) := by
  decide

/-- Claim C9 (failing input): scenario S6.  Build a two-frame pool, allocate
its order-1 head (frame 0), split it.  Split does produce 2^1 independent
order-0 heads with refcount 1 and leaves the free area untouched.  Putting
both halves (upper first, then lower) reconstructs the order-1 head at frame
0 by coalescing — the free-area structure and page metadata match what a
direct put of the unsplit head produces — but the pool is *not* restored to
the pre-split state, and free_pages disagrees with every reading of the
claim: the pre-split counter was 2^64 - 1 (already corrupted by the
stale-order accounting of pool_init and the u64 underflow in alloc), the
split/put-all path leaves 2, and the direct-put path leaves 1. -/
theorem c9_split_put_does_not_restore :
    (((hyp_alloc_pages (hyp_pool_init freshState 0 2 0) 1).1 = some 0) ∧
     ((hyp_alloc_pages (hyp_pool_init freshState 0 2 0) 1).2.pages 0 =
        { refcount := 1, order := 1 })) ∧
    -- split yields 2^1 order-0 heads, refcount 1, free area untouched
    ((hyp_split_page (hyp_alloc_pages (hyp_pool_init freshState 0 2 0) 1).2 0).pages 0 =
        { refcount := 1, order := 0 } ∧
     (hyp_split_page (hyp_alloc_pages (hyp_pool_init freshState 0 2 0) 1).2 0).pages 1 =
        { refcount := 1, order := 0 } ∧
     (∀ k, k < NR_PAGE_ORDERS →
        getArea (hyp_split_page (hyp_alloc_pages (hyp_pool_init freshState 0 2 0) 1).2 0) k =
        getArea (hyp_alloc_pages (hyp_pool_init freshState 0 2 0) 1).2 k)) ∧
    -- after put(1) then put(0): structure reconstructed ...
    (getArea (hyp_put_page (hyp_put_page
        (hyp_split_page (hyp_alloc_pages (hyp_pool_init freshState 0 2 0) 1).2 0) 1) 0) 1 = [0] ∧
     (hyp_put_page (hyp_put_page
        (hyp_split_page (hyp_alloc_pages (hyp_pool_init freshState 0 2 0) 1).2 0) 1) 0).pages 0 =
        { refcount := 0, order := 1 } ∧
     ((hyp_put_page (hyp_put_page
        (hyp_split_page (hyp_alloc_pages (hyp_pool_init freshState 0 2 0) 1).2 0) 1) 0).pages 1).order =
        HYP_NO_ORDER) ∧
    -- ... but the pool state is not the pre-split state, on refcount and counter alike
    ((hyp_alloc_pages (hyp_pool_init freshState 0 2 0) 1).2.pool.free_pages = 2 ^ 64 - 1 ∧
     (hyp_put_page (hyp_put_page
        (hyp_split_page (hyp_alloc_pages (hyp_pool_init freshState 0 2 0) 1).2 0) 1) 0).pool.free_pages = 2 ∧
     (hyp_put_page (hyp_alloc_pages (hyp_pool_init freshState 0 2 0) 1).2 0).pool.free_pages = 1 ∧
     ((hyp_put_page (hyp_put_page
        (hyp_split_page (hyp_alloc_pages (hyp_pool_init freshState 0 2 0) 1).2 0) 1) 0).pages 0).refcount ≠
       (((hyp_alloc_pages (hyp_pool_init freshState 0 2 0) 1).2.pages 0).refcount)) := by
  decide

theorem attach_external_eq (s : HState) (p : Nat)
    (hext : p * PAGE_SIZE < s.pool.range_start ∨ s.pool.range_end ≤ p * PAGE_SIZE) :
    __hyp_attach_page s p =
      pageAddToList (setOrder (memsetGroup s p ((s.pages p).order)) p ((s.pages p).order))
        p ((s.pages p).order) ∧
    attachHead s p = (p, (s.pages p).order) := by
  unfold __hyp_attach_page attachHead
  dsimp only
  simp only [memsetGroup_pool, setOrder_pool]
  rw [if_pos hext, if_pos hext]
  exact ⟨rfl, rfl⟩

theorem attach_inrange_eq (s : HState) (p : Nat)
    (hin : ¬ (p * PAGE_SIZE < s.pool.range_start ∨ s.pool.range_end ≤ p * PAGE_SIZE)) :
    __hyp_attach_page s p =
      pageAddToList
        (setOrder
          (coalesceGo (s.pool.max_order + 1 - (s.pages p).order)
            (setOrder (memsetGroup s p ((s.pages p).order)) p HYP_NO_ORDER) p
            ((s.pages p).order)).1
          (coalesceGo (s.pool.max_order + 1 - (s.pages p).order)
            (setOrder (memsetGroup s p ((s.pages p).order)) p HYP_NO_ORDER) p
            ((s.pages p).order)).2.1
          (coalesceGo (s.pool.max_order + 1 - (s.pages p).order)
            (setOrder (memsetGroup s p ((s.pages p).order)) p HYP_NO_ORDER) p
            ((s.pages p).order)).2.2)
        (coalesceGo (s.pool.max_order + 1 - (s.pages p).order)
          (setOrder (memsetGroup s p ((s.pages p).order)) p HYP_NO_ORDER) p
          ((s.pages p).order)).2.1
        (coalesceGo (s.pool.max_order + 1 - (s.pages p).order)
          (setOrder (memsetGroup s p ((s.pages p).order)) p HYP_NO_ORDER) p
          ((s.pages p).order)).2.2 ∧
    attachHead s p =
      ((coalesceGo (s.pool.max_order + 1 - (s.pages p).order)
          (setOrder (memsetGroup s p ((s.pages p).order)) p HYP_NO_ORDER) p
          ((s.pages p).order)).2.1,
       (coalesceGo (s.pool.max_order + 1 - (s.pages p).order)
          (setOrder (memsetGroup s p ((s.pages p).order)) p HYP_NO_ORDER) p
          ((s.pages p).order)).2.2) := by
  unfold __hyp_attach_page attachHead
  dsimp only
  simp only [memsetGroup_pool, setOrder_pool]
  rw [if_neg hin, if_neg hin]
  exact ⟨rfl, rfl⟩

/-- Claim C1, amended: when a put's decrement reaches zero the head is
attached to the pool with coalescing, but free_pages increases (mod 2^64) by
2 ^ g where g is the order field of the page passed in, read after
attachment: g equals final_order exactly when that page is still the head
after coalescing, and g is the HYP_NO_ORDER sentinel (an undefined `int`
shift in the C) when coalescing moved the head to a lower-addressed buddy. -/
theorem c1_amended_put_stale_order (s : HState) (p : Nat)
    (h1 : (s.pages p).refcount = 1)
    (h2 : (s.pages p).order ≤ s.pool.max_order)
    (h3 : s.pool.max_order < NR_PAGE_ORDERS)
    (h4 : s.pool.free_area.length = NR_PAGE_ORDERS) :
    ((__hyp_attach_page (setRc s p 0) p).pages (attachHead (setRc s p 0) p).1).order
        = (attachHead (setRc s p 0) p).2 ∧
    (attachHead (setRc s p 0) p).1 ∈
        getArea (__hyp_attach_page (setRc s p 0) p) (attachHead (setRc s p 0) p).2 ∧
    ((__hyp_attach_page (setRc s p 0) p).pages p).order =
        (if p = (attachHead (setRc s p 0) p).1 then (attachHead (setRc s p 0) p).2
         else HYP_NO_ORDER) ∧
    hyp_put_page s p = setFp (__hyp_attach_page (setRc s p 0) p)
        ((__hyp_attach_page (setRc s p 0) p).pool.free_pages +
          2 ^ ((__hyp_attach_page (setRc s p 0) p).pages p).order) := by
  have horder : ((setRc s p 0).pages p).order = (s.pages p).order := by simp
  have hput : hyp_put_page s p = setFp (__hyp_attach_page (setRc s p 0) p)
      ((__hyp_attach_page (setRc s p 0) p).pool.free_pages +
        2 ^ ((__hyp_attach_page (setRc s p 0) p).pages p).order) := by
    unfold hyp_put_page __hyp_put_page
    rw [h1]
    norm_num
  by_cases hext : p * PAGE_SIZE < s.pool.range_start ∨ s.pool.range_end ≤ p * PAGE_SIZE
  · obtain ⟨hA, hH⟩ := attach_external_eq (setRc s p 0) p hext
    refine ⟨?_, ?_, ?_, hput⟩ <;> rw [hA, hH] <;> simp only [horder]
    · simp
    · rw [getArea_add_self _ _ _
        (by simp only [setOrder_pool, memsetGroup_pool, setRc_pool]; omega)]
      simp
    · simp
  · obtain ⟨hA, hH⟩ := attach_inrange_eq (setRc s p 0) p hext
    refine ⟨?_, ?_, ?_, hput⟩ <;> rw [hA, hH] <;>
      simp only [setRc_pool, horder] <;>
      set r := coalesceGo (s.pool.max_order + 1 - (s.pages p).order)
        (setOrder (memsetGroup (setRc s p 0) p ((s.pages p).order)) p HYP_NO_ORDER) p
        ((s.pages p).order) with hr
    · simp
    · have hfo : r.2.2 ≤ s.pool.max_order := by
        rw [hr]
        exact coalesceGo_order_le _ _ p _ h2
      have hlen : r.1.pool.free_area.length = NR_PAGE_ORDERS := by
        rw [hr, (coalesceGo_pool _ _ p _).2.2.2.2]
        exact h4
      rw [getArea_add_self _ _ _ (by simp only [setOrder_pool]; omega)]
      simp
    · by_cases hphd : p = r.2.1
      · rw [if_pos hphd, ← hphd]
        simp
      · rw [if_neg hphd]
        rw [pageAddToList_pages, setOrder_pages_ne _ _ _ _ hphd]
        have hfr : r.1.pages p =
            (setOrder (memsetGroup (setRc s p 0) p ((s.pages p).order)) p HYP_NO_ORDER).pages p := by
          rw [hr]
          exact coalesceGo_pages_frozen _ _ p _ p (by simp)
            (by simp only [setOrder_pool, memsetGroup_pool, setRc_pool]
                unfold HYP_NO_ORDER NR_PAGE_ORDERS MAX_ORDER at *
                omega)
        rw [hfr]
        simp

theorem scanGo_none_inv (s : HState) : ∀ (gas i : Nat),
    gas = s.pool.max_order + 1 - i → scanGo s gas i = none →
    ∀ j, i ≤ j → j ≤ s.pool.max_order → getArea s j = [] := by
  intro gas
  induction gas with
  | zero =>
    intro i hg _ j hj1 hj2
    omega
  | succ gas ih =>
    intro i hg hs j hj1 hj2
    have hcond : i ≤ s.pool.max_order := by omega
    simp only [scanGo, if_pos hcond] at hs
    by_cases hemp : getArea s i = []
    · rw [if_pos hemp] at hs
      rcases Nat.eq_or_lt_of_le hj1 with he | hlt
      · rw [← he]; exact hemp
      · exact ih (i + 1) (by omega) hs j hlt hj2
    · rw [if_neg hemp] at hs
      simp at hs

theorem hyp_extract_snd (s : HState) (p : Nat) (w : Nat) :
    (__hyp_extract_page s p w).2 = p := by
  unfold __hyp_extract_page
  exact extractGo_snd _ _ _ _

theorem hyp_extract_fp (s : HState) (p : Nat) (w : Nat) :
    (__hyp_extract_page s p w).1.pool.free_pages = s.pool.free_pages := by
  unfold __hyp_extract_page
  exact (extractGo_pool _ _ _ _).2.2.2.1

theorem alloc_eq_some (s : HState) (w i : Nat) (p₀ : Nat) (rest : List Nat)
    (hscan : scanGo s (s.pool.max_order + 1 - w) w = some i)
    (harea : getArea s i = p₀ :: rest) :
    hyp_alloc_pages s w = (some (__hyp_extract_page s p₀ w).2,
      setFp (hyp_set_page_refcounted (__hyp_extract_page s p₀ w).1 (__hyp_extract_page s p₀ w).2)
        ((hyp_set_page_refcounted (__hyp_extract_page s p₀ w).1
            (__hyp_extract_page s p₀ w).2).pool.free_pages + U64 -
          2 ^ ((hyp_set_page_refcounted (__hyp_extract_page s p₀ w).1
            (__hyp_extract_page s p₀ w).2).pages ((__hyp_extract_page s p₀ w).2)).order % U64)) := by
  unfold hyp_alloc_pages
  rw [hscan]
  dsimp only
  rw [harea]

/-- Claim C3, amended: under the free-list sanity invariant, alloc scans
free_area[want_order], free_area[want_order + 1], ... and returns null with
the state unchanged exactly when every list in that window is empty;
otherwise it returns the first entry of the first non-empty list, sets that
head's refcount to 1, extracts it down to want_order — reaching want_order
unless a nocheck buddy lookup fails, in which case the head keeps a larger
order — and decrements free_pages (u64 arithmetic) by 2 ^ (the returned
head's final order), which is 2 ^ want_order whenever extraction reached
want_order. -/
theorem c3_amended_alloc_characterisation (s : HState) (w : Nat)
    (hInv1 : ClaimInv1 s) (h3 : s.pool.max_order < NR_PAGE_ORDERS) :
    ((hyp_alloc_pages s w).1 = none →
      ((hyp_alloc_pages s w).2 = s ∧
        ∀ j, w ≤ j → j ≤ s.pool.max_order → getArea s j = [])) ∧
    (∀ p, (hyp_alloc_pages s w).1 = some p →
      ∃ i rest, w ≤ i ∧ i ≤ s.pool.max_order ∧ getArea s i = p :: rest ∧
        (∀ t, w ≤ t → t < i → getArea s t = []) ∧
        ((hyp_alloc_pages s w).2.pages p).refcount = 1 ∧
        (((hyp_alloc_pages s w).2.pages p).order = w ∨
          (w < ((hyp_alloc_pages s w).2.pages p).order ∧
            __find_buddy_nocheck s.pool p
              (((hyp_alloc_pages s w).2.pages p).order - 1) = none)) ∧
        (hyp_alloc_pages s w).2.pool.free_pages =
          (s.pool.free_pages + U64 -
            2 ^ ((hyp_alloc_pages s w).2.pages p).order % U64) % U64) := by
  cases hscan : scanGo s (s.pool.max_order + 1 - w) w with
  | none =>
    have halloc : hyp_alloc_pages s w = (none, s) := by
      unfold hyp_alloc_pages; rw [hscan]
    rw [halloc]
    refine ⟨fun _ => ⟨rfl, scanGo_none_inv s _ w rfl hscan⟩, fun p hp => ?_⟩
    simp at hp
  | some i =>
    obtain ⟨hwi, himo, hne, hbelow⟩ := scanGo_some s _ w i hscan
    cases harea : getArea s i with
    | nil => exact absurd harea hne
    | cons p₀ rest =>
      have halloc := alloc_eq_some s w i p₀ rest hscan harea
      have hsnd : (__hyp_extract_page s p₀ w).2 = p₀ := hyp_extract_snd s p₀ w
      have horder0 : (s.pages p₀).order = i :=
        (hInv1 i (by omega) p₀ (by rw [harea]; exact List.mem_cons_self p₀ rest)).1
      have hpostE : (((__hyp_extract_page s p₀ w).1.pages p₀).order = w ∨
          (w < ((__hyp_extract_page s p₀ w).1.pages p₀).order ∧
            __find_buddy_nocheck s.pool p₀
              (((__hyp_extract_page s p₀ w).1.pages p₀).order - 1) = none)) := by
        unfold __hyp_extract_page
        have hre : ((pageRemoveFromList s p₀).pages p₀).order = (s.pages p₀).order := rfl
        have := extractGo_post ((pageRemoveFromList s p₀).pages p₀).order
          (pageRemoveFromList s p₀) p₀ w (by rw [hre, horder0]; omega) (by omega)
        exact this.imp (fun h => h) (fun h => ⟨h.1,
          (nocheck_range_congr s.pool (pageRemoveFromList s p₀).pool p₀ _ rfl rfl).trans h.2⟩)
      have hrcE : ((__hyp_extract_page s p₀ w).1.pages p₀).refcount = (s.pages p₀).refcount := by
        unfold __hyp_extract_page
        exact (extractGo_rc _ _ _ _ _).trans rfl
      rw [halloc]
      refine ⟨fun hnone => by simp at hnone, fun p hp => ?_⟩
      have hpp : p = p₀ := by
        rw [hsnd] at hp
        simpa using hp.symm
      subst hpp
      refine ⟨i, rest, hwi, himo, harea, hbelow, ?_, ?_, ?_⟩
      · rw [hsnd]
        simp [hyp_set_page_refcounted]
      · rw [hsnd]
        have hOeq : ((setRc (__hyp_extract_page s p w).1 p 1).pages p).order =
            ((__hyp_extract_page s p w).1.pages p).order := by simp
        simpa [hyp_set_page_refcounted, hOeq] using hpostE
      · rw [hsnd]
        have hfpE : (__hyp_extract_page s p w).1.pool.free_pages = s.pool.free_pages :=
          hyp_extract_fp s p w
        simp [hyp_set_page_refcounted, hfpE]

/-- Claim C7: releasing a page whose physical address lies outside
[range_start, range_end) skips coalescing and inserts it directly into
free_area[order]; pool_init_empty sets range_start = 2^64 - 1 and
range_end = 0 so that no address is ever pool-resident; and in scenario S5
(empty pool of 8, external frames 100 and 101 donated and put) the two
frames sit in free_area[0] at order 0 without coalescing, alloc(order = 1)
returns null, and alloc(order = 0) returns one of them. -/
theorem c7_external_pages_never_coalesce :
    (∀ (s : HState) (p : Nat),
        (p * PAGE_SIZE < s.pool.range_start ∨ s.pool.range_end ≤ p * PAGE_SIZE) →
        __hyp_attach_page s p =
          pageAddToList (setOrder (memsetGroup s p ((s.pages p).order)) p ((s.pages p).order))
            p ((s.pages p).order)) ∧
    (∀ (s : HState) (n : Nat),
        (hyp_pool_init_empty s n).pool.range_start = U64_MAX ∧
        (hyp_pool_init_empty s n).pool.range_end = 0 ∧
        ∀ a, ¬ addrInR (hyp_pool_init_empty s n).pool a) ∧
    (getArea s5AfterPuts 0 = [100, 101] ∧
      s5AfterPuts.pages 100 = { refcount := 0, order := 0 } ∧
      s5AfterPuts.pages 101 = { refcount := 0, order := 0 } ∧
      (∀ k, k < NR_PAGE_ORDERS → k ≠ 0 → getArea s5AfterPuts k = []) ∧
      (hyp_alloc_pages s5AfterPuts 1).1 = none ∧
      ((hyp_alloc_pages s5AfterPuts 0).1 = some 100 ∨
        (hyp_alloc_pages s5AfterPuts 0).1 = some 101)) := by
  refine ⟨fun s p h => (attach_external_eq s p h).1, fun s n => ⟨rfl, rfl, ?_⟩, by decide⟩
  intro a ha
  obtain ⟨-, h2⟩ := ha
  have : (hyp_pool_init_empty s n).pool.range_end = 0 := rfl
  omega

theorem c4_witness :
    inRangeP midInitTwoFrames.pool 0 ∧
    ((∀ q k, __find_buddy_avail midInitTwoFrames q k = findBuddyAvailClaim midInitTwoFrames q k) ∧
      __hyp_attach_page midInitTwoFrames 0 = attachClaim midInitTwoFrames 0) :=
  ⟨by decide, c4_attach_coalesces_by_claim_loop midInitTwoFrames 0 (by decide)⟩

theorem c5_witness :
    (0 ∈ getArea midInitTwoFrames ((midInitTwoFrames.pages 0).order) ∧
      0 ≤ (midInitTwoFrames.pages 0).order) ∧
    ((∀ (pl : HypPool) (q k : Nat),
        __find_buddy_nocheck pl q k = findBuddyNocheckClaim pl q k) ∧
      __hyp_extract_page midInitTwoFrames 0 0 = extractClaim midInitTwoFrames 0 0) :=
  ⟨⟨by decide, by decide⟩,
    c5_extract_by_claim_loop midInitTwoFrames 0 0 (by decide) (by decide)⟩

theorem c10_witness :
    (∀ j, 5 ≤ j → j ≤ (hyp_pool_init_empty freshState 8).pool.max_order →
      getArea (hyp_pool_init_empty freshState 8) j = []) ∧
    hyp_alloc_pages (hyp_pool_init_empty freshState 8) 5 =
      (none, hyp_pool_init_empty freshState 8) := by
  have h : ∀ j, 5 ≤ j → j ≤ (hyp_pool_init_empty freshState 8).pool.max_order →
      getArea (hyp_pool_init_empty freshState 8) j = [] := by
    intro j h1 h2
    have hmo : (hyp_pool_init_empty freshState 8).pool.max_order = 3 := by decide
    rw [hmo] at h2
    omega
  exact ⟨h, c10_alloc_oom_null_no_change _ 5 h⟩

theorem c1_amended_witness :
    ((extDonatedOrder1.pages 100).refcount = 1 ∧
      (extDonatedOrder1.pages 100).order ≤ extDonatedOrder1.pool.max_order ∧
      extDonatedOrder1.pool.max_order < NR_PAGE_ORDERS ∧
      extDonatedOrder1.pool.free_area.length = NR_PAGE_ORDERS) ∧
    (((__hyp_attach_page (setRc extDonatedOrder1 100 0) 100).pages
          (attachHead (setRc extDonatedOrder1 100 0) 100).1).order
        = (attachHead (setRc extDonatedOrder1 100 0) 100).2 ∧
      (attachHead (setRc extDonatedOrder1 100 0) 100).1 ∈
        getArea (__hyp_attach_page (setRc extDonatedOrder1 100 0) 100)
          (attachHead (setRc extDonatedOrder1 100 0) 100).2 ∧
      ((__hyp_attach_page (setRc extDonatedOrder1 100 0) 100).pages 100).order =
        (if 100 = (attachHead (setRc extDonatedOrder1 100 0) 100).1
         then (attachHead (setRc extDonatedOrder1 100 0) 100).2 else HYP_NO_ORDER) ∧
      hyp_put_page extDonatedOrder1 100 = setFp (__hyp_attach_page (setRc extDonatedOrder1 100 0) 100)
        ((__hyp_attach_page (setRc extDonatedOrder1 100 0) 100).pool.free_pages +
          2 ^ ((__hyp_attach_page (setRc extDonatedOrder1 100 0) 100).pages 100).order)) :=
  ⟨by decide, c1_amended_put_stale_order extDonatedOrder1 100
    (by decide) (by decide) (by decide) (by decide)⟩

theorem c3_amended_witness :
    (ClaimInv1 s5AfterPuts ∧ s5AfterPuts.pool.max_order < NR_PAGE_ORDERS) ∧
    (((hyp_alloc_pages s5AfterPuts 0).1 = none →
        ((hyp_alloc_pages s5AfterPuts 0).2 = s5AfterPuts ∧
          ∀ j, 0 ≤ j → j ≤ s5AfterPuts.pool.max_order → getArea s5AfterPuts j = [])) ∧
      (∀ p, (hyp_alloc_pages s5AfterPuts 0).1 = some p →
        ∃ i rest, 0 ≤ i ∧ i ≤ s5AfterPuts.pool.max_order ∧ getArea s5AfterPuts i = p :: rest ∧
          (∀ t, 0 ≤ t → t < i → getArea s5AfterPuts t = []) ∧
          ((hyp_alloc_pages s5AfterPuts 0).2.pages p).refcount = 1 ∧
          (((hyp_alloc_pages s5AfterPuts 0).2.pages p).order = 0 ∨
            (0 < ((hyp_alloc_pages s5AfterPuts 0).2.pages p).order ∧
              __find_buddy_nocheck s5AfterPuts.pool p
                (((hyp_alloc_pages s5AfterPuts 0).2.pages p).order - 1) = none)) ∧
          (hyp_alloc_pages s5AfterPuts 0).2.pool.free_pages =
            (s5AfterPuts.pool.free_pages + U64 -
              2 ^ ((hyp_alloc_pages s5AfterPuts 0).2.pages p).order % U64) % U64)) :=
  ⟨⟨by decide, by decide⟩,
    c3_amended_alloc_characterisation s5AfterPuts 0 (by decide) (by decide)⟩

/-! Preservation of the structural pool invariant.  The two predicates of
claim C6 (ClaimInv1 and the amended ClaimInv3InRange) are not inductive on
their own; the components of `PoolInv` defined above strengthen them to an
invariant, and the lemmas below show every public operation preserves it
under the callers' documented contracts. -/

theorem listed_unique {s : HState} (hL : InvL s) {b : Nat} {k : Nat}
    (hk : k < NR_PAGE_ORDERS) (hb : b ∈ getArea s k) :
    ∀ j, j < NR_PAGE_ORDERS → j ≠ k → b ∉ getArea s j := by
  intro j hj hne hmem
  have h1 := ((hL k hk).1 b hb).1
  have h2 := ((hL j hj).1 b hmem).1
  omega

theorem step_pages_self (s : HState) (b : Nat) (o : Nat) :
    ((setOrder (pageRemoveFromList s b) b o).pages b) = { s.pages b with order := o } := by
  rw [setOrder_pages_self]; rfl

theorem step_pages_ne (s : HState) (b : Nat) (o : Nat) (q : Nat) (h : q ≠ b) :
    ((setOrder (pageRemoveFromList s b) b o).pages q) = s.pages q := by
  rw [setOrder_pages_ne _ _ _ _ h]; rfl

theorem step_getArea (s : HState) (b : Nat) (o k : Nat) :
    getArea (setOrder (pageRemoveFromList s b) b o) k = (getArea s k).erase b := by
  rw [setOrder_getArea, getArea_remove]

theorem step_nodeZero (s : HState) (b : Nat) (o : Nat) (q : Nat) :
    (setOrder (pageRemoveFromList s b) b o).nodeZero q = if q = b then true else s.nodeZero q := by
  by_cases h : q = b <;> simp [setOrder, pageRemoveFromList, updFn, h]

theorem step_bodyZero (s : HState) (b : Nat) (o : Nat) (q : Nat) :
    (setOrder (pageRemoveFromList s b) b o).bodyZero q = s.bodyZero q := rfl

theorem step_pool_max (s : HState) (b : Nat) (o : Nat) :
    (setOrder (pageRemoveFromList s b) b o).pool.max_order = s.pool.max_order := rfl

theorem step_pool_rs (s : HState) (b : Nat) (o : Nat) :
    (setOrder (pageRemoveFromList s b) b o).pool.range_start = s.pool.range_start := rfl

theorem step_pool_re (s : HState) (b : Nat) (o : Nat) :
    (setOrder (pageRemoveFromList s b) b o).pool.range_end = s.pool.range_end := rfl

theorem step_pool_len (s : HState) (b : Nat) (o : Nat) :
    (setOrder (pageRemoveFromList s b) b o).pool.free_area.length = s.pool.free_area.length := by
  simp [setOrder, pageRemoveFromList]

theorem inRangeP_congr {pl pl' : HypPool} (h1 : pl.range_start = pl'.range_start)
    (h2 : pl.range_end = pl'.range_end) (p : Nat) : inRangeP pl p ↔ inRangeP pl' p := by
  unfold inRangeP addrInR
  rw [h1, h2]

lemma interval_union (h b B q : Nat) (hmax : b = h + B) :
    (h ≤ q ∧ q < h + (B + B)) ↔ ((h ≤ q ∧ q < h + B) ∨ (b ≤ q ∧ q < b + B)) := by
  omega

lemma disjoint_merge (h b p2 A B : Nat) (hle : h ≤ b) (hbe : b = h + A ∨ h = b + A)
    (hA : 0 < A) (hB : 0 < B) (hd1 : p2 + B ≤ h ∨ h + A ≤ p2)
    (hd2 : b + A ≤ p2 ∨ p2 + B ≤ b) : p2 + B ≤ h ∨ b + A ≤ p2 := by omega

lemma disjoint_merge' (h b p2 A B : Nat) (hle : b ≤ h) (hbe : b = h + A ∨ h = b + A)
    (hA : 0 < A) (hB : 0 < B) (hd1 : p2 + B ≤ h ∨ h + A ≤ p2)
    (hd2 : b + A ≤ p2 ∨ p2 + B ≤ b) : p2 + B ≤ b ∨ h + A ≤ p2 := by omega

theorem coalesce_step_sound (s : HState) (h k lo hi : Nat) (b : Nat)
    (hInv : PoolInv s) (hG : CurGroup s h k lo hi) (hB : ListedBnd s lo hi)
    (hcond : k + 1 ≤ s.pool.max_order)
    (havail : __find_buddy_avail s h k = some b) :
    PoolInv (setOrder (pageRemoveFromList s b) b HYP_NO_ORDER) ∧
    CurGroup (setOrder (pageRemoveFromList s b) b HYP_NO_ORDER) (min h b) (k + 1) lo hi ∧
    ListedBnd (setOrder (pageRemoveFromList s b) b HYP_NO_ORDER) lo hi ∧
    (∀ k2, k2 < NR_PAGE_ORDERS →
      getArea (setOrder (pageRemoveFromList s b) b HYP_NO_ORDER) k2 ⊆ getArea s k2) ∧
    (∀ q, q < lo ∨ hi ≤ q →
      (setOrder (pageRemoveFromList s b) b HYP_NO_ORDER).pages q = s.pages q) := by
  have hNO : HYP_NO_ORDER = 255 := rfl
  have hNR : NR_PAGE_ORDERS = 5 := rfl
  obtain ⟨hA, hL, hGi, hX, hC3, hD, hM, hZ, hXW⟩ := hInv
  obtain ⟨hA1, hA2⟩ := hA
  obtain ⟨hin, hal, hcov, htails, hdisj, hlo, hhi⟩ := hG
  obtain ⟨hbf, hbaddr, hbord, hbrc⟩ := avail_some havail
  have hkmo : k + 1 ≤ s.pool.max_order := hcond
  have hk5 : k < NR_PAGE_ORDERS := by omega
  have hbin : inRangeP s.pool b := by rw [hbf]; exact hbaddr
  have hble : b < s.pool.range_end / PAGE_SIZE + 1 := by
    have h1 : b * PAGE_SIZE < s.pool.range_end := hbin.2
    have h2 : b ≤ s.pool.range_end / PAGE_SIZE :=
      (Nat.le_div_iff_mul_le (by norm_num [PAGE_SIZE])).mpr (Nat.le_of_lt h1)
    exact Nat.lt_succ_of_le h2
  have hbmem : b ∈ getArea s k := by
    have := hM b hble hbin (by omega) hbrc
    rw [hbord] at this
    exact this.2
  have hmerge := buddy_merge k h hal
  rw [← hbf] at hmerge
  obtain ⟨hbh, hal2, hmax⟩ := hmerge
  have hbneh : b ≠ h := hbh
  have hbG := hGi k hk5 b hbmem hbin
  obtain ⟨hbal, hbcov, hbtails⟩ := hbG
  have hcase : (h ≤ b ∧ min h b = h ∧ max h b = b) ∨ (b ≤ h ∧ min h b = b ∧ max h b = h) := by
    rcases le_total h b with hle | hle
    · left; exact ⟨hle, Nat.min_eq_left hle, Nat.max_eq_right hle⟩
    · right; exact ⟨hle, Nat.min_eq_right hle, Nat.max_eq_left hle⟩
  have hbe : b = h + 2 ^ k ∨ h = b + 2 ^ k := by
    rcases hcase with ⟨hle, h1, h2⟩ | ⟨hle, h1, h2⟩
    · left; rw [h1, h2] at hmax; exact hmax
    · right; rw [h1, h2] at hmax; exact hmax
  -- the merged interval is the union of the two groups
  have hunion : ∀ q, (min h b ≤ q ∧ q < min h b + 2 ^ (k + 1)) ↔
      ((h ≤ q ∧ q < h + 2 ^ k) ∨ (b ≤ q ∧ q < b + 2 ^ k)) := by
    intro q
    have hpow : (2 : Nat) ^ (k + 1) = 2 ^ k + 2 ^ k := by ring
    rcases hcase with ⟨hle, h1, h2⟩ | ⟨hle, h1, h2⟩
    · rw [h1, hpow]
      rw [h1, h2] at hmax
      exact interval_union h b (2 ^ k) q hmax
    · rw [h1, hpow]
      rw [h1, h2] at hmax
      exact (interval_union b h (2 ^ k) q hmax).trans or_comm
  have hmemiff : ∀ j, j < NR_PAGE_ORDERS → ∀ q : Nat,
      (q ∈ getArea (setOrder (pageRemoveFromList s b) b HYP_NO_ORDER) j ↔
        q ≠ b ∧ q ∈ getArea s j) := by
    intro j hj q
    rw [step_getArea]
    exact List.Nodup.mem_erase_iff ((hL j hj).2)
  have hsub : ∀ k2, k2 < NR_PAGE_ORDERS →
      getArea (setOrder (pageRemoveFromList s b) b HYP_NO_ORDER) k2 ⊆ getArea s k2 := by
    intro k2 _ q hq
    rw [step_getArea] at hq
    exact List.mem_of_mem_erase hq
  -- page-level description of the new state
  have hpg : ∀ q : Nat, q ≠ b →
      (setOrder (pageRemoveFromList s b) b HYP_NO_ORDER).pages q = s.pages q :=
    fun q hq => step_pages_ne s b _ q hq
  have hpgb : ((setOrder (pageRemoveFromList s b) b HYP_NO_ORDER).pages b).order = HYP_NO_ORDER ∧
      ((setOrder (pageRemoveFromList s b) b HYP_NO_ORDER).pages b).refcount = 0 := by
    rw [step_pages_self]
    exact ⟨rfl, hbrc⟩
  have hinr' : ∀ q, inRangeP (setOrder (pageRemoveFromList s b) b HYP_NO_ORDER).pool q ↔
      inRangeP s.pool q := fun q => inRangeP_congr rfl rfl q
  have houtside : ∀ q, q < lo ∨ hi ≤ q →
      (setOrder (pageRemoveFromList s b) b HYP_NO_ORDER).pages q = s.pages q := by
    intro q hq
    refine step_pages_ne s b _ q ?_
    intro he
    obtain ⟨w1, w2⟩ := hB k hk5 b hbmem hbin
    have hp1 : 0 < 2 ^ k := Nat.two_pow_pos k
    rw [he] at hq
    omega
  refine ⟨⟨?_, ?_, ?_, ?_, ?_, ?_, ?_, ?_, ?_⟩, ?_, ?_, hsub, houtside⟩
  · -- InvA
    exact ⟨by rw [step_pool_len]; exact hA1, by rw [step_pool_max]; exact hA2⟩
  · -- InvL
    intro j hj
    refine ⟨fun q hq => ?_, ?_⟩
    · obtain ⟨hqb, hqmem⟩ := (hmemiff j hj q).mp hq
      rw [hpg q hqb]
      exact (hL j hj).1 q hqmem
    · rw [step_getArea]
      exact ((hL j hj).2).erase b
  · -- InvG
    intro j hj p2 hp2 hp2in
    obtain ⟨hp2b, hp2mem⟩ := (hmemiff j hj p2).mp hp2
    have hp2in' : inRangeP s.pool p2 := (hinr' p2).mp hp2in
    obtain ⟨g1, g2, g3⟩ := hGi j hj p2 hp2mem hp2in'
    refine ⟨g1, by rw [step_pool_re]; exact g2, ?_⟩
    intro q hq1 hq2
    obtain ⟨t1, t2, t3⟩ := g3 q hq1 hq2
    have hqb : q ≠ b := by
      intro he
      subst he
      -- q would be an interior frame of p2's group, but q = b is a listed head
      have := hD j hj p2 hp2mem hp2in' k hk5 q hbmem hbin (by right; omega)
      omega
    rw [hpg q hqb]
    refine ⟨t1, t2, ?_⟩
    intro j2 hj2 hmem2
    exact t3 j2 hj2 (hsub j2 hj2 hmem2)
  · -- InvX
    intro j hj p2 hp2 hp2in
    obtain ⟨hp2b, hp2mem⟩ := (hmemiff j hj p2).mp hp2
    have hp2in' : ¬ inRangeP s.pool p2 := fun hc => hp2in ((hinr' p2).mpr hc)
    intro j2 hj2
    have := hX j hj p2 hp2mem hp2in' j2 hj2
    intro hc
    exact this hc
  · -- ClaimInv3InRange
    intro j hj hjmo p2 hp2 hp2in b2 hb2
    obtain ⟨hp2b, hp2mem⟩ := (hmemiff j hj p2).mp hp2
    have hp2in' : inRangeP s.pool p2 := (hinr' p2).mp hp2in
    have hjmo' : j < s.pool.max_order := by rw [step_pool_max] at hjmo; exact hjmo
    have hb2' : __find_buddy_nocheck s.pool p2 j = some b2 := by
      rw [← hb2]
      exact nocheck_range_congr _ _ _ _ rfl rfl
    have := hC3 j hj hjmo' p2 hp2mem hp2in' b2 hb2'
    intro hmem2
    exact this (hsub j hj hmem2)
  · -- InvD
    intro j hj p2 hp2 hp2in j2 hj2 p3 hp3 hp3in hne
    obtain ⟨-, hp2mem⟩ := (hmemiff j hj p2).mp hp2
    obtain ⟨-, hp3mem⟩ := (hmemiff j2 hj2 p3).mp hp3
    exact hD j hj p2 hp2mem ((hinr' p2).mp hp2in) j2 hj2 p3 hp3mem ((hinr' p3).mp hp3in) hne
  · -- InvM
    intro q hqle hqin hqord hqrc
    by_cases hqb : q = b
    · subst hqb
      rw [hpgb.1] at hqord
      exact absurd rfl hqord
    · rw [hpg q hqb] at hqord hqrc
      have hqle' : q < s.pool.range_end / PAGE_SIZE + 1 := by
        rw [step_pool_re] at hqle; exact hqle
      obtain ⟨m1, m2⟩ := hM q hqle' ((hinr' q).mp hqin) hqord hqrc
      refine ⟨by rw [hpg q hqb]; exact m1, ?_⟩
      rw [hpg q hqb]
      exact ((hmemiff _ m1 q).mpr ⟨hqb, m2⟩)
  · -- InvZ
    intro j hj p2 hp2 q hq1 hq2
    obtain ⟨hp2b, hp2mem⟩ := (hmemiff j hj p2).mp hp2
    obtain ⟨z1, z2⟩ := hZ j hj p2 hp2mem q hq1 hq2
    rw [step_bodyZero, step_nodeZero]
    refine ⟨z1, fun hqp => ?_⟩
    by_cases hqb : q = b
    · rw [if_pos hqb]
    · rw [if_neg hqb]
      exact z2 hqp
  · -- InvXW
    intro j hj p2 hp2 hp2ext q hq1 hq2
    obtain ⟨-, hp2mem⟩ := (hmemiff j hj p2).mp hp2
    have hp2ext' : ¬ inRangeP s.pool p2 := fun hc => hp2ext ((hinr' p2).mpr hc)
    intro hc
    exact hXW j hj p2 hp2mem hp2ext' q hq1 hq2 ((hinr' q).mp hc)
  · -- CurGroup for the merged head
    have hminin : inRangeP s.pool (min h b) := by
      rcases hcase with ⟨-, h1, -⟩ | ⟨-, h1, -⟩ <;> rw [h1]
      · exact hin
      · exact hbin
    have hmcov : (min h b + 2 ^ (k + 1)) * PAGE_SIZE ≤ s.pool.range_end := by
      have hpow : min h b + 2 ^ (k + 1) = max h b + 2 ^ k := by
        have : (2 : Nat) ^ (k + 1) = 2 ^ k + 2 ^ k := by ring
        omega
      rw [hpow]
      rcases hcase with ⟨-, -, h2⟩ | ⟨-, -, h2⟩ <;> rw [h2]
      · exact hbcov
      · exact hcov
    refine ⟨(hinr' _).mpr hminin, hal2, by rw [step_pool_re]; exact hmcov, ?_, ?_, ?_, ?_⟩
    · -- all frames of the merged group
      intro q hq1 hq2
      have hq := (hunion q).mp ⟨hq2, hq1⟩
      by_cases hqb : q = b
      · subst hqb
        refine ⟨hpgb.1, hpgb.2, ?_, ?_, ?_⟩
        · intro j hj
          rw [hmemiff j hj]
          rintro ⟨hcon, -⟩
          exact hcon rfl
        · rw [step_bodyZero]
          exact (hZ k hk5 q hbmem q le_rfl (Nat.lt_add_of_pos_right (Nat.two_pow_pos k))).1
        · rw [step_nodeZero, if_pos rfl]
      · rw [hpg q hqb]
        rcases hq with ⟨hqh1, hqh2⟩ | ⟨hqb1, hqb2⟩
        · obtain ⟨t1, t2, t3, t4, t5⟩ := htails q hqh2 hqh1
          refine ⟨t1, t2, ?_, t4, by rw [step_nodeZero, if_neg hqb]; exact t5⟩
          intro j hj
          rw [hmemiff j hj]
          rintro ⟨-, hmem2⟩
          exact t3 j hj hmem2
        · have hqb' : b < q := by
            rcases Nat.lt_or_ge b q with hlt | hge
            · exact hlt
            · exact absurd (Nat.le_antisymm hqb1 hge).symm hqb
          obtain ⟨t1, t2, t3⟩ := hbtails q hqb2 hqb'
          refine ⟨t1, t2, ?_, ?_, ?_⟩
          · intro j hj
            rw [hmemiff j hj]
            rintro ⟨-, hmem2⟩
            exact t3 j hj hmem2
          · rw [step_bodyZero]
            exact (hZ k hk5 b hbmem q (le_of_lt hqb') hqb2).1
          · rw [step_nodeZero, if_neg hqb]
            exact (hZ k hk5 b hbmem q (le_of_lt hqb') hqb2).2 hqb
      -- disjointness of the merged group from remaining listed groups
    · intro k2 hk2 p2 hp2 hp2in
      obtain ⟨hp2b, hp2mem⟩ := (hmemiff k2 hk2 p2).mp hp2
      have hp2in' : inRangeP s.pool p2 := (hinr' p2).mp hp2in
      have hd1 := hdisj k2 hk2 p2 hp2mem hp2in'
      have hd2 := hD k hk5 b hbmem hbin k2 hk2 p2 hp2mem hp2in' (by right; exact fun e => hp2b e.symm)
      have hpow : min h b + 2 ^ (k + 1) = max h b + 2 ^ k := by
        have : (2 : Nat) ^ (k + 1) = 2 ^ k + 2 ^ k := by ring
        omega
      rw [hpow]
      have hkpos : 0 < 2 ^ k := Nat.two_pow_pos k
      have hk2pos : 0 < 2 ^ k2 := Nat.two_pow_pos k2
      rcases hcase with ⟨hle, h1, h2⟩ | ⟨hle, h1, h2⟩ <;> rw [h1, h2]
      · exact disjoint_merge h b p2 (2 ^ k) (2 ^ k2) hle hbe hkpos hk2pos hd1 hd2
      · exact disjoint_merge' h b p2 (2 ^ k) (2 ^ k2) hle hbe hkpos hk2pos hd1 hd2
    · rcases hcase with ⟨-, h1, -⟩ | ⟨-, h1, -⟩ <;> rw [h1]
      · exact hlo
      · exact (hB k hk5 b hbmem hbin).1
    · have hpow : min h b + 2 ^ (k + 1) = max h b + 2 ^ k := by
        have : (2 : Nat) ^ (k + 1) = 2 ^ k + 2 ^ k := by ring
        omega
      rw [hpow]
      rcases hcase with ⟨-, -, h2⟩ | ⟨-, -, h2⟩ <;> rw [h2]
      · exact (hB k hk5 b hbmem hbin).2
      · exact hhi
  · -- ListedBnd
    intro k2 hk2 p2 hp2 hp2in
    obtain ⟨-, hp2mem⟩ := (hmemiff k2 hk2 p2).mp hp2
    exact hB k2 hk2 p2 hp2mem ((hinr' p2).mp hp2in)

theorem coalesceGo_sound (gas : Nat) : ∀ (s : HState) (h k lo hi : Nat),
    PoolInv s → CurGroup s h k lo hi → ListedBnd s lo hi →
    k ≤ s.pool.max_order → s.pool.max_order + 1 ≤ gas + k →
    PoolInv (coalesceGo gas s h k).1 ∧
    CurGroup (coalesceGo gas s h k).1 (coalesceGo gas s h k).2.1
      (coalesceGo gas s h k).2.2 lo hi ∧
    ListedBnd (coalesceGo gas s h k).1 lo hi ∧
    k ≤ (coalesceGo gas s h k).2.2 ∧
    ((coalesceGo gas s h k).2.2 = s.pool.max_order ∨
      __find_buddy_avail (coalesceGo gas s h k).1 (coalesceGo gas s h k).2.1
        (coalesceGo gas s h k).2.2 = none) ∧
    (∀ j, j < NR_PAGE_ORDERS → getArea (coalesceGo gas s h k).1 j ⊆ getArea s j) ∧
    (∀ q, q < lo ∨ hi ≤ q → (coalesceGo gas s h k).1.pages q = s.pages q) := by
  induction gas with
  | zero =>
    intro s h k lo hi hInv hG hB hk hgas
    exact absurd hgas (by omega)
  | succ gas ih =>
    intro s h k lo hi hInv hG hB hk hgas
    simp only [coalesceGo]
    by_cases hcond : k + 1 ≤ s.pool.max_order
    · rw [if_pos hcond]
      cases havail : __find_buddy_avail s h k with
      | none =>
        exact ⟨hInv, hG, hB, le_rfl, Or.inr havail, fun j hj => List.Subset.refl _,
          fun q hq => rfl⟩
      | some b =>
        obtain ⟨hI', hG', hB', hsub', hout'⟩ :=
          coalesce_step_sound s h k lo hi b hInv hG hB hcond havail
        have hmo' : (setOrder (pageRemoveFromList s b) b HYP_NO_ORDER).pool.max_order
            = s.pool.max_order := rfl
        have h2 := ih (setOrder (pageRemoveFromList s b) b HYP_NO_ORDER) (min h b) (k + 1) lo hi
          hI' hG' hB' (by rw [hmo']; exact hcond) (by rw [hmo']; omega)
        obtain ⟨r1, r2, r3, r4, r5, r6, r7⟩ := h2
        refine ⟨r1, r2, r3, le_trans (Nat.le_succ k) r4, ?_, ?_, ?_⟩
        · rcases r5 with r5 | r5
          · left; rw [hmo'] at r5; exact r5
          · right; exact r5
        · exact fun j hj => (r6 j hj).trans (hsub' j hj)
        · exact fun q hq => (r7 q hq).trans (hout' q hq)
    · rw [if_neg hcond]
      exact ⟨hInv, hG, hB, le_rfl, Or.inl (show k = s.pool.max_order by omega),
        fun j hj => List.Subset.refl _, fun q hq => rfl⟩

theorem pageAddToList_nodeZero (s : HState) (p : Nat) (k : Nat) (q : Nat) :
    (pageAddToList s p k).nodeZero q = if q = p then false else s.nodeZero q := by
  by_cases h : q = p <;> simp [pageAddToList, setArea, updFn, h]

theorem pageAddToList_bodyZero (s : HState) (p : Nat) (k : Nat) (q : Nat) :
    (pageAddToList s p k).bodyZero q = s.bodyZero q := rfl

theorem setOrder_nodeZero (s : HState) (p o : Nat) (q : Nat) :
    (setOrder s p o).nodeZero q = s.nodeZero q := rfl

theorem setOrder_bodyZero (s : HState) (p o : Nat) (q : Nat) :
    (setOrder s p o).bodyZero q = s.bodyZero q := rfl

theorem avail_of {s : HState} {p k : Nat} {b : Nat}
    (hn : __find_buddy_nocheck s.pool p k = some b)
    (ho : (s.pages b).order = k) (hc : (s.pages b).refcount = 0) :
    __find_buddy_avail s p k = some b := by
  unfold __find_buddy_avail
  rw [hn]
  show (if (s.pages b).order ≠ k ∨ (s.pages b).refcount ≠ 0 then none else some b) = some b
  rw [if_neg]
  push_neg
  exact ⟨ho, hc⟩

theorem nocheck_symm {pl : HypPool} {p k : Nat} {b : Nat}
    (hn : __find_buddy_nocheck pl p k = some b) (hbin : inRangeP pl p) :
    __find_buddy_nocheck pl b k = some p := by
  have hb := nocheck_some_frame hn
  rw [nocheck_eq]
  have hback : b ^^^ 2 ^ k = p := by
    rw [hb, Nat.xor_assoc, Nat.xor_self, Nat.xor_zero]
  have hbin' : addrInR pl (p * PAGE_SIZE) := hbin
  rw [hback, if_pos hbin']

theorem insert_sound (t : HState) (h' k' lo hi : Nat)
    (hInv : PoolInv t) (hG : CurGroup t h' k' lo hi) (hB : ListedBnd t lo hi)
    (hk' : k' ≤ t.pool.max_order)
    (hstop : k' = t.pool.max_order ∨ __find_buddy_avail t h' k' = none) :
    PoolInv (pageAddToList (setOrder t h' k') h' k') ∧
    ListedBnd (pageAddToList (setOrder t h' k') h' k') lo hi ∧
    getArea (pageAddToList (setOrder t h' k') h' k') k' = getArea t k' ++ [h'] ∧
    (∀ j, j ≠ k' → getArea (pageAddToList (setOrder t h' k') h' k') j = getArea t j) := by
  have hNO : HYP_NO_ORDER = 255 := rfl
  have hNR : NR_PAGE_ORDERS = 5 := rfl
  obtain ⟨hA, hL, hGi, hX, hC3, hD, hM, hZ, hXW⟩ := hInv
  obtain ⟨hA1, hA2⟩ := hA
  obtain ⟨hin, hal, hcov, htails, hdisj, hlo, hhi⟩ := hG
  have hk'5 : k' < NR_PAGE_ORDERS := by omega
  have hpow1 : 0 < 2 ^ k' := Nat.two_pow_pos k'
  have hh' := htails h' (Nat.lt_add_of_pos_right hpow1) le_rfl
  have harea_self : getArea (pageAddToList (setOrder t h' k') h' k') k'
      = getArea t k' ++ [h'] := by
    rw [getArea_add_self, setOrder_getArea]
    rw [setOrder_pool, hA1]
    exact hk'5
  have harea_ne : ∀ j, j ≠ k' →
      getArea (pageAddToList (setOrder t h' k') h' k') j = getArea t j := by
    intro j hj
    rw [getArea_add_ne _ _ _ _ hj, setOrder_getArea]
  have hmem : ∀ j q, q ∈ getArea (pageAddToList (setOrder t h' k') h' k') j ↔
      (q ∈ getArea t j ∨ (j = k' ∧ q = h')) := by
    intro j q
    by_cases hj : j = k'
    · subst hj
      rw [harea_self, List.mem_append, List.mem_singleton]
      constructor
      · rintro (h | h)
        · exact Or.inl h
        · exact Or.inr ⟨rfl, h⟩
      · rintro (h | ⟨-, h⟩)
        · exact Or.inl h
        · exact Or.inr h
    · rw [harea_ne j hj]
      constructor
      · exact Or.inl
      · rintro (h | ⟨he, -⟩)
        · exact h
        · exact absurd he hj
  have hpg_ne : ∀ q, q ≠ h' →
      (pageAddToList (setOrder t h' k') h' k').pages q = t.pages q := by
    intro q hq
    rw [pageAddToList_pages, setOrder_pages_ne _ _ _ _ hq]
  have hpg_self : (pageAddToList (setOrder t h' k') h' k').pages h'
      = { t.pages h' with order := k' } := by
    rw [pageAddToList_pages, setOrder_pages_self]
  have hnz : ∀ q, (pageAddToList (setOrder t h' k') h' k').nodeZero q
      = if q = h' then false else t.nodeZero q := by
    intro q
    rw [pageAddToList_nodeZero, setOrder_nodeZero]
  have hbz : ∀ q, (pageAddToList (setOrder t h' k') h' k').bodyZero q = t.bodyZero q :=
    fun q => rfl
  have hrs : (pageAddToList (setOrder t h' k') h' k').pool.range_start
      = t.pool.range_start := by rw [pageAddToList_rangeStart, setOrder_pool]
  have hre : (pageAddToList (setOrder t h' k') h' k').pool.range_end
      = t.pool.range_end := by rw [pageAddToList_rangeEnd, setOrder_pool]
  have hinr : ∀ q, inRangeP (pageAddToList (setOrder t h' k') h' k').pool q ↔
      inRangeP t.pool q := fun q => inRangeP_congr hrs hre q
  have hself_unlisted : ∀ j, j < NR_PAGE_ORDERS → h' ∉ getArea t j :=
    hh'.2.2.1
  refine ⟨⟨?_, ?_, ?_, ?_, ?_, ?_, ?_, ?_, ?_⟩, ?_, harea_self, harea_ne⟩
  · -- InvA
    constructor
    · rw [pageAddToList_length, setOrder_pool]; exact hA1
    · rw [pageAddToList_maxOrder, setOrder_pool]; exact hA2
  · -- InvL
    intro j hj
    constructor
    · intro q hq
      rcases (hmem j q).mp hq with hq | ⟨hjk, hqh⟩
      · have hqh : q ≠ h' := fun he => hself_unlisted j hj (he ▸ hq)
        rw [hpg_ne q hqh]
        exact (hL j hj).1 q hq
      · have hjk' := hjk.symm
        have hqh' := hqh.symm
        subst hjk'
        subst hqh'
        rw [hpg_self]
        exact ⟨rfl, hh'.2.1⟩
    · by_cases hj' : j = k'
      · subst hj'
        rw [harea_self]
        have h1 := (hL j hj).2
        have h2 := hself_unlisted j hj
        simp [List.nodup_append, h1, h2]
      · rw [harea_ne j hj']
        exact (hL j hj).2
  · -- InvG
    intro j hj p2 hp2 hp2in
    have hp2in' : inRangeP t.pool p2 := (hinr p2).mp hp2in
    rcases (hmem j p2).mp hp2 with hp2t | ⟨hjk, hph⟩
    · obtain ⟨g1, g2, g3⟩ := hGi j hj p2 hp2t hp2in'
      have hdj := hdisj j hj p2 hp2t hp2in'
      refine ⟨g1, by rw [hre]; exact g2, ?_⟩
      intro q hq1 hq2
      obtain ⟨t1, t2, t3⟩ := g3 q hq1 hq2
      have hqh : q ≠ h' := by
        intro he
        rcases hdj with hdj | hdj
        · rw [he] at hq1
          exact Nat.lt_irrefl _ (Nat.lt_of_lt_of_le hq1 hdj)
        · rw [he] at hq2
          exact Nat.lt_irrefl _ (Nat.lt_of_le_of_lt
            (Nat.le_trans (Nat.le_add_right h' (2 ^ k')) hdj) hq2)
      rw [hpg_ne q hqh]
      refine ⟨t1, t2, ?_⟩
      intro j2 hj2
      rw [hmem j2 q]
      rintro (hc | ⟨-, he⟩)
      · exact t3 j2 hj2 hc
      · exact hqh he
    · have hjk' := hjk.symm
      have hph' := hph.symm
      subst hjk'
      subst hph'
      refine ⟨hal, by rw [hre]; exact hcov, ?_⟩
      intro q hq1 hq2
      have hqh : q ≠ h' := (Nat.ne_of_lt hq2).symm
      have ht := htails q hq1 (Nat.le_of_lt hq2)
      rw [hpg_ne q hqh]
      refine ⟨ht.1, ht.2.1, ?_⟩
      intro j2 hj2
      rw [hmem j2 q]
      rintro (hc | ⟨-, he⟩)
      · exact ht.2.2.1 j2 hj2 hc
      · exact hqh he
  · -- InvX
    intro j hj p2 hp2 hp2ext j2 hj2
    have hp2ext' : ¬ inRangeP t.pool p2 := fun hc => hp2ext ((hinr p2).mpr hc)
    rcases (hmem j p2).mp hp2 with hp2t | ⟨-, hph⟩
    · intro hc
      refine hX j hj p2 hp2t hp2ext' j2 hj2 ?_
      unfold addrInR at hc ⊢
      rw [hrs, hre] at hc
      exact hc
    · exact absurd ((hinr p2).mpr (by rw [hph]; exact hin)) hp2ext
  · -- ClaimInv3InRange
    intro j hj hjmo p2 hp2 hp2in b2 hb2
    have hp2in' : inRangeP t.pool p2 := (hinr p2).mp hp2in
    have hjmo' : j < t.pool.max_order := by
      rw [pageAddToList_maxOrder, setOrder_pool] at hjmo; exact hjmo
    have hb2t : __find_buddy_nocheck t.pool p2 j = some b2 := by
      rw [← hb2]
      exact (nocheck_range_congr _ _ _ _ hrs.symm hre.symm).symm
    rcases (hmem j p2).mp hp2 with hp2t | ⟨hjk, hph⟩
    · have hold := hC3 j hj hjmo' p2 hp2t hp2in' b2 hb2t
      rw [hmem j b2]
      rintro (hc | ⟨hjk, hbh⟩)
      · exact hold hc
      · -- the buddy of the listed in-range head p2 is the new head: then p2
        -- would be an available buddy of h' at the insertion order,
        -- contradicting the loop's stop condition
        rcases hstop with hstop | hstop
        · exact absurd hjmo' (by rw [hjk, hstop]; exact Nat.lt_irrefl _)
        · have hsym : __find_buddy_nocheck t.pool h' j = some p2 := by
            rw [← hbh]
            exact nocheck_symm hb2t hp2in'
          have hL2 := (hL j hj).1 p2 hp2t
          have hav : __find_buddy_avail t h' j = some p2 :=
            avail_of hsym hL2.1 hL2.2
          rw [hjk, hstop] at hav
          cases hav
    · have hjk' := hjk.symm
      have hph' := hph.symm
      subst hjk'
      subst hph'
      rcases hstop with hstop | hstop
      · exact absurd hjmo' (by rw [hstop]; exact Nat.lt_irrefl _)
      · rw [hmem k' b2]
        rintro (hc | ⟨-, hbh⟩)
        · have hL2 := (hL k' hk'5).1 b2 hc
          have hav : __find_buddy_avail t h' k' = some b2 :=
            avail_of hb2t hL2.1 hL2.2
          rw [hstop] at hav
          cases hav
        · have hb2f : b2 = h' ^^^ 2 ^ k' := nocheck_some_frame hb2t
          rw [hbh] at hb2f
          exact (xor_pow_ne h' k') hb2f.symm
  · -- InvD
    intro j hj p2 hp2 hp2in j2 hj2 p3 hp3 hp3in hne
    have hp2in' : inRangeP t.pool p2 := (hinr p2).mp hp2in
    have hp3in' : inRangeP t.pool p3 := (hinr p3).mp hp3in
    rcases (hmem j p2).mp hp2 with hp2t | ⟨hjk, hph⟩ <;>
      rcases (hmem j2 p3).mp hp3 with hp3t | ⟨hjk2, hph2⟩
    · exact hD j hj p2 hp2t hp2in' j2 hj2 p3 hp3t hp3in' hne
    · rw [hjk2, hph2]
      rw [hjk2, hph2] at hne
      exact hdisj j hj p2 hp2t hp2in'
    · rw [hjk, hph]
      exact Or.symm (hdisj j2 hj2 p3 hp3t hp3in')
    · exfalso
      rcases hne with hne | hne
      · exact hne (hjk.trans hjk2.symm)
      · exact hne (hph.trans hph2.symm)
  · -- InvM
    intro q hqle hqin hqord hqrc
    have hqin' : inRangeP t.pool q := (hinr q).mp hqin
    have hqle' : q < t.pool.range_end / PAGE_SIZE + 1 := by
      rw [hre] at hqle; exact hqle
    by_cases hqh : q = h'
    · have hqh' := hqh.symm
      subst hqh'
      rw [hpg_self]
      refine ⟨hk'5, ?_⟩
      rw [hmem]
      exact Or.inr ⟨rfl, rfl⟩
    · rw [hpg_ne q hqh] at hqord hqrc ⊢
      obtain ⟨m1, m2⟩ := hM q hqle' hqin' hqord hqrc
      refine ⟨m1, ?_⟩
      rw [hmem]
      exact Or.inl m2
  · -- InvZ
    intro j hj p2 hp2 q hq1 hq2
    rw [hbz, hnz]
    rcases (hmem j p2).mp hp2 with hp2t | ⟨hjk, hph⟩
    · obtain ⟨z1, z2⟩ := hZ j hj p2 hp2t q hq1 hq2
      by_cases hp2in' : inRangeP t.pool p2
      · have hdj := hdisj j hj p2 hp2t hp2in'
        have hqh : q ≠ h' := by
          intro he
          rcases hdj with hdj | hdj
          · rw [he] at hq2
            exact Nat.lt_irrefl _ (Nat.lt_of_lt_of_le hq2 hdj)
          · rw [he] at hq1
            exact Nat.lt_irrefl _ (Nat.lt_of_lt_of_le
              (Nat.lt_of_lt_of_le (Nat.lt_add_of_pos_right hpow1) hdj) hq1)
        rw [if_neg hqh]
        exact ⟨z1, z2⟩
      · -- external group: its frames are all out of range, so none is h'
        have hqh : q ≠ h' := by
          intro he
          exact hXW j hj p2 hp2t hp2in' q hq2 hq1 (by rw [he]; exact hin)
        rw [if_neg hqh]
        exact ⟨z1, z2⟩
    · have hjk' := hjk.symm
      have hph' := hph.symm
      subst hjk'
      subst hph'
      have ht := htails q hq2 hq1
      refine ⟨ht.2.2.2.1, fun hq => ?_⟩
      rw [if_neg hq]
      exact ht.2.2.2.2
  · -- InvXW
    intro j hj p2 hp2 hp2ext q hq1 hq2
    rcases (hmem j p2).mp hp2 with hp2t | ⟨-, hph⟩
    · have hp2ext' : ¬ inRangeP t.pool p2 := fun hc => hp2ext ((hinr p2).mpr hc)
      intro hc
      exact hXW j hj p2 hp2t hp2ext' q hq1 hq2 ((hinr q).mp hc)
    · exact absurd ((hinr p2).mpr (by rw [hph]; exact hin)) hp2ext
  · -- ListedBnd
    intro j hj p2 hp2 hp2in
    have hp2in' : inRangeP t.pool p2 := (hinr p2).mp hp2in
    rcases (hmem j p2).mp hp2 with hp2t | ⟨hjk, hph⟩
    · exact hB j hj p2 hp2t hp2in'
    · rw [hjk, hph]
      exact ⟨hlo, hhi⟩

theorem inRangeP_of_cover {pl : HypPool} {p2 q w : Nat}
    (hin : inRangeP pl p2) (hcov : (p2 + w) * PAGE_SIZE ≤ pl.range_end)
    (h1 : p2 ≤ q) (h2 : q < p2 + w) : inRangeP pl q := by
  obtain ⟨ha, hb⟩ := hin
  constructor
  · exact le_trans ha (Nat.mul_le_mul_right _ h1)
  · have h3 : (q + 1) * PAGE_SIZE ≤ (p2 + w) * PAGE_SIZE :=
      Nat.mul_le_mul_right _ (by omega)
    have h4 : q * PAGE_SIZE < (q + 1) * PAGE_SIZE := by
      have hp : 0 < PAGE_SIZE := by norm_num [PAGE_SIZE]
      have : q * PAGE_SIZE + 0 < q * PAGE_SIZE + PAGE_SIZE := by omega
      calc q * PAGE_SIZE < q * PAGE_SIZE + PAGE_SIZE := by omega
        _ = (q + 1) * PAGE_SIZE := by ring
    exact Nat.lt_of_lt_of_le (Nat.lt_of_lt_of_le h4 h3) hcov

theorem inRangeP_of_nocheck {pl : HypPool} {p k : Nat} {b : Nat}
    (h : __find_buddy_nocheck pl p k = some b) : inRangeP pl b := by
  rw [nocheck_eq] at h
  by_cases hr : addrInR pl ((p ^^^ 2 ^ k) * PAGE_SIZE)
  · rw [if_pos hr] at h
    cases h
    exact hr
  · rw [if_neg hr] at h
    cases h

theorem attach_external_sound (s : HState) (p : Nat) (lo hi : Nat)
    (hx : PoolInvx s p)
    (hext : ¬ inRangeP s.pool p)
    (hrc : (s.pages p).refcount = 0)
    (hunlisted : ∀ j, j < NR_PAGE_ORDERS → p ∉ getArea s j)
    (htails : ∀ q, p < q → q < p + 2 ^ (s.pages p).order →
      (s.pages q).order = HYP_NO_ORDER ∧ (s.pages q).refcount = 0 ∧
      ∀ j, j < NR_PAGE_ORDERS → q ∉ getArea s j)
    (hinert : ∀ j, j < (s.pages p).order → ¬ addrInR s.pool (buddyAddr p j))
    (hwin : ∀ q, q < p + 2 ^ (s.pages p).order → p ≤ q → ¬ inRangeP s.pool q)
    (hdisj : ∀ k, k < NR_PAGE_ORDERS → ∀ h ∈ getArea s k,
      (h + 2 ^ k ≤ p ∨ p + 2 ^ (s.pages p).order ≤ h))
    (homax : (s.pages p).order ≤ s.pool.max_order)
    (hB : ListedBnd s lo hi) :
    PoolInv (__hyp_attach_page s p) ∧ ListedBnd (__hyp_attach_page s p) lo hi ∧
    (∀ q, (__hyp_attach_page s p).pages q = s.pages q) := by
  have hNO : HYP_NO_ORDER = 255 := rfl
  have hNR : NR_PAGE_ORDERS = 5 := rfl
  obtain ⟨hA, hL, hGi, hX, hC3, hD, hMx, hZ, hXW⟩ := hx
  obtain ⟨hA1, hA2⟩ := hA
  have hextd : p * PAGE_SIZE < s.pool.range_start ∨ s.pool.range_end ≤ p * PAGE_SIZE := by
    unfold inRangeP addrInR at hext
    push_neg at hext
    rcases Nat.lt_or_ge (p * PAGE_SIZE) s.pool.range_start with h | h
    · exact Or.inl h
    · exact Or.inr (hext h)
  have heq := (attach_external_eq s p hextd).1
  rw [heq]
  have ho5 : (s.pages p).order < NR_PAGE_ORDERS := by omega
  have hpow1 : 0 < 2 ^ (s.pages p).order := Nat.two_pow_pos _
  -- abbreviations
  have hpg : ∀ q, (pageAddToList
      (setOrder (memsetGroup s p ((s.pages p).order)) p ((s.pages p).order)) p
      ((s.pages p).order)).pages q = s.pages q := by
    intro q
    rw [pageAddToList_pages]
    by_cases hq : q = p
    · rw [hq, setOrder_pages_self, memsetGroup_pages]
    · rw [setOrder_pages_ne _ _ _ _ hq, memsetGroup_pages]
  have hrs : (pageAddToList
      (setOrder (memsetGroup s p ((s.pages p).order)) p ((s.pages p).order)) p
      ((s.pages p).order)).pool.range_start = s.pool.range_start := by
    rw [pageAddToList_rangeStart, setOrder_pool, memsetGroup_pool]
  have hre : (pageAddToList
      (setOrder (memsetGroup s p ((s.pages p).order)) p ((s.pages p).order)) p
      ((s.pages p).order)).pool.range_end = s.pool.range_end := by
    rw [pageAddToList_rangeEnd, setOrder_pool, memsetGroup_pool]
  have hinr : ∀ q, inRangeP (pageAddToList
      (setOrder (memsetGroup s p ((s.pages p).order)) p ((s.pages p).order)) p
      ((s.pages p).order)).pool q ↔ inRangeP s.pool q :=
    fun q => inRangeP_congr hrs hre q
  have harea_self : getArea (pageAddToList
      (setOrder (memsetGroup s p ((s.pages p).order)) p ((s.pages p).order)) p
      ((s.pages p).order)) ((s.pages p).order)
      = getArea s ((s.pages p).order) ++ [p] := by
    rw [getArea_add_self, setOrder_getArea, memsetGroup_getArea]
    rw [setOrder_pool, memsetGroup_pool, hA1]
    exact ho5
  have harea_ne : ∀ j, j ≠ (s.pages p).order → getArea (pageAddToList
      (setOrder (memsetGroup s p ((s.pages p).order)) p ((s.pages p).order)) p
      ((s.pages p).order)) j = getArea s j := by
    intro j hj
    rw [getArea_add_ne _ _ _ _ hj, setOrder_getArea, memsetGroup_getArea]
  have hmem : ∀ j q, q ∈ getArea (pageAddToList
      (setOrder (memsetGroup s p ((s.pages p).order)) p ((s.pages p).order)) p
      ((s.pages p).order)) j ↔
      (q ∈ getArea s j ∨ (j = (s.pages p).order ∧ q = p)) := by
    intro j q
    by_cases hj : j = (s.pages p).order
    · subst hj
      rw [harea_self, List.mem_append, List.mem_singleton]
      constructor
      · rintro (h | h)
        · exact Or.inl h
        · exact Or.inr ⟨rfl, h⟩
      · rintro (h | ⟨-, h⟩)
        · exact Or.inl h
        · exact Or.inr h
    · rw [harea_ne j hj]
      constructor
      · exact Or.inl
      · rintro (h | ⟨he, -⟩)
        · exact h
        · exact absurd he hj
  have hnz : ∀ q, (pageAddToList
      (setOrder (memsetGroup s p ((s.pages p).order)) p ((s.pages p).order)) p
      ((s.pages p).order)).nodeZero q
      = if q = p then false
        else if p ≤ q ∧ q < p + 2 ^ (s.pages p).order then true else s.nodeZero q := by
    intro q
    rw [pageAddToList_nodeZero, setOrder_nodeZero]
    rfl
  have hbz : ∀ q, (pageAddToList
      (setOrder (memsetGroup s p ((s.pages p).order)) p ((s.pages p).order)) p
      ((s.pages p).order)).bodyZero q
      = if p ≤ q ∧ q < p + 2 ^ (s.pages p).order then true else s.bodyZero q := by
    intro q
    rw [pageAddToList_bodyZero, setOrder_bodyZero]
    rfl
  -- an in-range listed group has all its frames in range (so none is p)
  have hinwin : ∀ j, j < NR_PAGE_ORDERS → ∀ p2 ∈ getArea s j, inRangeP s.pool p2 →
      ∀ q, p2 ≤ q → q < p2 + 2 ^ j → q ≠ p := by
    intro j hj p2 hp2 hp2in q h1 h2 he
    obtain ⟨-, g2, -⟩ := hGi j hj p2 hp2 hp2in
    exact hext (he ▸ inRangeP_of_cover hp2in g2 h1 h2)
  -- an external listed group has all its frames distinct from p (disjointness)
  have hexwin : ∀ j, j < NR_PAGE_ORDERS → ∀ p2 ∈ getArea s j,
      ∀ q, p2 ≤ q → q < p2 + 2 ^ j → q ≠ p := by
    intro j hj p2 hp2 q h1 h2 he
    rcases hdisj j hj p2 hp2 with hd | hd
    · rw [he] at h2
      exact Nat.lt_irrefl _ (Nat.lt_of_lt_of_le h2 hd)
    · rw [he] at h1
      exact Nat.lt_irrefl _ (Nat.lt_of_lt_of_le
        (Nat.lt_of_lt_of_le (Nat.lt_add_of_pos_right hpow1) hd) h1)
  refine ⟨⟨?_, ?_, ?_, ?_, ?_, ?_, ?_, ?_, ?_⟩, ?_, hpg⟩
  · -- InvA
    constructor
    · rw [pageAddToList_length, setOrder_pool, memsetGroup_pool]; exact hA1
    · rw [pageAddToList_maxOrder, setOrder_pool, memsetGroup_pool]; exact hA2
  · -- InvL
    intro j hj
    constructor
    · intro q hq
      rw [hpg q]
      rcases (hmem j q).mp hq with hq | ⟨hjk, hqh⟩
      · exact (hL j hj).1 q hq
      · rw [hjk, hqh]
        exact ⟨rfl, hrc⟩
    · by_cases hj' : j = (s.pages p).order
      · rw [hj', harea_self]
        have h1 := (hL _ ho5).2
        have h2 := hunlisted _ ho5
        simp [List.nodup_append, h1, h2]
      · rw [harea_ne j hj']
        exact (hL j hj).2
  · -- InvG
    intro j hj p2 hp2 hp2in
    have hp2in' : inRangeP s.pool p2 := (hinr p2).mp hp2in
    rcases (hmem j p2).mp hp2 with hp2t | ⟨-, hph⟩
    · obtain ⟨g1, g2, g3⟩ := hGi j hj p2 hp2t hp2in'
      refine ⟨g1, by rw [hre]; exact g2, ?_⟩
      intro q hq1 hq2
      obtain ⟨t1, t2, t3⟩ := g3 q hq1 hq2
      have hqp : q ≠ p := hinwin j hj p2 hp2t hp2in' q (Nat.le_of_lt hq2) hq1
      rw [hpg q]
      refine ⟨t1, t2, ?_⟩
      intro j2 hj2
      rw [hmem j2 q]
      rintro (hc | ⟨-, he⟩)
      · exact t3 j2 hj2 hc
      · exact hqp he
    · exact absurd ((by rw [← hph]; exact hp2in' : inRangeP s.pool p)) hext
  · -- InvX
    intro j hj p2 hp2 hp2ext j2 hj2
    have hp2ext' : ¬ inRangeP s.pool p2 := fun hc => hp2ext ((hinr p2).mpr hc)
    rcases (hmem j p2).mp hp2 with hp2t | ⟨hjk, hph⟩
    · intro hc
      refine hX j hj p2 hp2t hp2ext' j2 hj2 ?_
      unfold addrInR at hc ⊢
      rw [hrs, hre] at hc
      exact hc
    · intro hc
      have hj2' : j2 < (s.pages p).order := by rw [← hjk]; exact hj2
      refine hinert j2 hj2' ?_
      unfold addrInR at hc ⊢
      rw [hrs, hre] at hc
      rw [hph] at hc
      exact hc
  · -- ClaimInv3InRange
    intro j hj hjmo p2 hp2 hp2in b2 hb2
    have hp2in' : inRangeP s.pool p2 := (hinr p2).mp hp2in
    have hjmo' : j < s.pool.max_order := by
      rw [pageAddToList_maxOrder, setOrder_pool, memsetGroup_pool] at hjmo; exact hjmo
    have hb2t : __find_buddy_nocheck s.pool p2 j = some b2 := by
      rw [← hb2]
      exact (nocheck_range_congr _ _ _ _ hrs.symm hre.symm).symm
    rcases (hmem j p2).mp hp2 with hp2t | ⟨-, hph⟩
    · have hold := hC3 j hj hjmo' p2 hp2t hp2in' b2 hb2t
      rw [hmem j b2]
      rintro (hc | ⟨-, hbh⟩)
      · exact hold hc
      · exact hext (hbh ▸ inRangeP_of_nocheck hb2t)
    · exact absurd ((by rw [← hph]; exact hp2in' : inRangeP s.pool p)) hext
  · -- InvD
    intro j hj p2 hp2 hp2in j2 hj2 p3 hp3 hp3in hne
    have hp2in' : inRangeP s.pool p2 := (hinr p2).mp hp2in
    have hp3in' : inRangeP s.pool p3 := (hinr p3).mp hp3in
    rcases (hmem j p2).mp hp2 with hp2t | ⟨-, hph⟩
    · rcases (hmem j2 p3).mp hp3 with hp3t | ⟨-, hph2⟩
      · exact hD j hj p2 hp2t hp2in' j2 hj2 p3 hp3t hp3in' hne
      · exact absurd ((by rw [← hph2]; exact hp3in' : inRangeP s.pool p)) hext
    · exact absurd ((by rw [← hph]; exact hp2in' : inRangeP s.pool p)) hext
  · -- InvM
    intro q hqle hqin hqord hqrc
    have hqin' : inRangeP s.pool q := (hinr q).mp hqin
    have hqle' : q < s.pool.range_end / PAGE_SIZE + 1 := by
      rw [hre] at hqle; exact hqle
    have hqp : q ≠ p := fun he => hext (he ▸ hqin')
    rw [hpg q] at hqord hqrc ⊢
    obtain ⟨m1, m2⟩ := hMx q hqle' hqin' hqp hqord hqrc
    refine ⟨m1, ?_⟩
    rw [hmem]
    exact Or.inl m2
  · -- InvZ
    intro j hj p2 hp2 q hq1 hq2
    rw [hbz, hnz]
    rcases (hmem j p2).mp hp2 with hp2t | ⟨hjk, hph⟩
    · obtain ⟨z1, z2⟩ := hZ j hj p2 hp2t q hq1 hq2
      have hqp : q ≠ p := hexwin j hj p2 hp2t q hq1 hq2
      rw [if_neg hqp]
      constructor
      · by_cases hw : p ≤ q ∧ q < p + 2 ^ (s.pages p).order
        · rw [if_pos hw]
        · rw [if_neg hw]; exact z1
      · intro hqp2
        by_cases hw : p ≤ q ∧ q < p + 2 ^ (s.pages p).order
        · rw [if_pos hw]
        · rw [if_neg hw]; exact z2 hqp2
    · rw [hjk] at hq2
      rw [hph] at hq1 hq2 ⊢
      by_cases hqp : q = p
      · rw [if_pos hqp]
        refine ⟨?_, fun hc => absurd hqp hc⟩
        rw [if_pos ⟨hq1, hq2⟩]
      · rw [if_neg hqp, if_pos ⟨hq1, hq2⟩, if_pos ⟨hq1, hq2⟩]
        exact ⟨rfl, fun _ => rfl⟩
  · -- InvXW
    intro j hj p2 hp2 hp2ext q hq1 hq2
    rcases (hmem j p2).mp hp2 with hp2t | ⟨hjk, hph⟩
    · have hp2ext' : ¬ inRangeP s.pool p2 := fun hc => hp2ext ((hinr p2).mpr hc)
      intro hc
      exact hXW j hj p2 hp2t hp2ext' q hq1 hq2 ((hinr q).mp hc)
    · intro hc
      rw [hjk] at hq1
      rw [hph] at hq1 hq2
      exact hwin q hq1 hq2 ((hinr q).mp hc)
  · -- ListedBnd
    intro j hj p2 hp2 hp2in
    have hp2in' : inRangeP s.pool p2 := (hinr p2).mp hp2in
    rcases (hmem j p2).mp hp2 with hp2t | ⟨-, hph⟩
    · exact hB j hj p2 hp2t hp2in'
    · exact absurd ((by rw [← hph]; exact hp2in' : inRangeP s.pool p)) hext

theorem attach_inrange_sound (s : HState) (p : Nat) (lo hi : Nat)
    (hx : PoolInvx s p)
    (hinp : inRangeP s.pool p)
    (hrc : (s.pages p).refcount = 0)
    (hunlisted : ∀ j, j < NR_PAGE_ORDERS → p ∉ getArea s j)
    (htails : ∀ q, p < q → q < p + 2 ^ (s.pages p).order →
      (s.pages q).order = HYP_NO_ORDER ∧ (s.pages q).refcount = 0 ∧
      ∀ j, j < NR_PAGE_ORDERS → q ∉ getArea s j)
    (hal : 2 ^ (s.pages p).order ∣ p)
    (hcov : (p + 2 ^ (s.pages p).order) * PAGE_SIZE ≤ s.pool.range_end)
    (hdisj : ∀ k, k < NR_PAGE_ORDERS → ∀ h ∈ getArea s k,
      (h + 2 ^ k ≤ p ∨ p + 2 ^ (s.pages p).order ≤ h))
    (homax : (s.pages p).order ≤ s.pool.max_order)
    (hB : ListedBnd s lo hi) (hplo : lo ≤ p) (hphi : p + 2 ^ (s.pages p).order ≤ hi) :
    PoolInv (__hyp_attach_page s p) ∧ ListedBnd (__hyp_attach_page s p) lo hi ∧
    (∀ q, q < lo ∨ hi ≤ q → (__hyp_attach_page s p).pages q = s.pages q) := by
  have hNO : HYP_NO_ORDER = 255 := rfl
  have hNR : NR_PAGE_ORDERS = 5 := rfl
  obtain ⟨hA, hL, hGi, hX, hC3, hD, hMx, hZ, hXW⟩ := hx
  obtain ⟨hA1, hA2⟩ := hA
  have hinaddr : ¬ (p * PAGE_SIZE < s.pool.range_start ∨
      s.pool.range_end ≤ p * PAGE_SIZE) := by
    rintro (hc | hc)
    · exact Nat.lt_irrefl _ (Nat.lt_of_lt_of_le hc hinp.1)
    · exact Nat.lt_irrefl _ (Nat.lt_of_lt_of_le hinp.2 hc)
  rw [(attach_inrange_eq s p hinaddr).1]
  have ho5 : (s.pages p).order < NR_PAGE_ORDERS := by omega
  have hpow1 : 0 < 2 ^ (s.pages p).order := Nat.two_pow_pos _
  have hpg1_ne : ∀ q, q ≠ p →
      (setOrder (memsetGroup s p ((s.pages p).order)) p HYP_NO_ORDER).pages q
      = s.pages q := by
    intro q hq
    rw [setOrder_pages_ne _ _ _ _ hq, memsetGroup_pages]
  have hpg1_self : (setOrder (memsetGroup s p ((s.pages p).order)) p HYP_NO_ORDER).pages p
      = { s.pages p with order := HYP_NO_ORDER } := by
    rw [setOrder_pages_self, memsetGroup_pages]
  have harea1 : ∀ j, getArea (setOrder (memsetGroup s p ((s.pages p).order)) p
      HYP_NO_ORDER) j = getArea s j := by
    intro j
    rw [setOrder_getArea, memsetGroup_getArea]
  have hrs1 : (setOrder (memsetGroup s p ((s.pages p).order)) p
      HYP_NO_ORDER).pool.range_start = s.pool.range_start := by
    rw [setOrder_pool, memsetGroup_pool]
  have hre1 : (setOrder (memsetGroup s p ((s.pages p).order)) p
      HYP_NO_ORDER).pool.range_end = s.pool.range_end := by
    rw [setOrder_pool, memsetGroup_pool]
  have hinr1 : ∀ q, inRangeP (setOrder (memsetGroup s p ((s.pages p).order)) p
      HYP_NO_ORDER).pool q ↔ inRangeP s.pool q :=
    fun q => inRangeP_congr hrs1 hre1 q
  have hnz1 : ∀ q, (setOrder (memsetGroup s p ((s.pages p).order)) p
      HYP_NO_ORDER).nodeZero q
      = if p ≤ q ∧ q < p + 2 ^ (s.pages p).order then true else s.nodeZero q := by
    intro q
    rw [setOrder_nodeZero]
    rfl
  have hbz1 : ∀ q, (setOrder (memsetGroup s p ((s.pages p).order)) p
      HYP_NO_ORDER).bodyZero q
      = if p ≤ q ∧ q < p + 2 ^ (s.pages p).order then true else s.bodyZero q := by
    intro q
    rw [setOrder_bodyZero]
    rfl
  have hexwin : ∀ j, j < NR_PAGE_ORDERS → ∀ p2 ∈ getArea s j,
      ∀ q, p2 ≤ q → q < p2 + 2 ^ j → q ≠ p := by
    intro j hj p2 hp2 q h1 h2 he
    rcases hdisj j hj p2 hp2 with hd | hd
    · rw [he] at h2
      exact Nat.lt_irrefl _ (Nat.lt_of_lt_of_le h2 hd)
    · rw [he] at h1
      exact Nat.lt_irrefl _ (Nat.lt_of_lt_of_le
        (Nat.lt_of_lt_of_le (Nat.lt_add_of_pos_right hpow1) hd) h1)
  have hInv1 : PoolInv (setOrder (memsetGroup s p ((s.pages p).order)) p
      HYP_NO_ORDER) := by
    refine ⟨⟨?_, ?_⟩, ?_, ?_, ?_, ?_, ?_, ?_, ?_, ?_⟩
    · rw [setOrder_pool, memsetGroup_pool]; exact hA1
    · rw [setOrder_pool, memsetGroup_pool]; exact hA2
    · -- InvL
      intro j hj
      rw [harea1 j]
      refine ⟨fun q hq => ?_, (hL j hj).2⟩
      have hqp : q ≠ p := fun he => hunlisted j hj (he ▸ hq)
      rw [hpg1_ne q hqp]
      exact (hL j hj).1 q hq
    · -- InvG
      intro j hj p2 hp2 hp2in
      rw [harea1 j] at hp2
      have hp2in' : inRangeP s.pool p2 := (hinr1 p2).mp hp2in
      obtain ⟨g1, g2, g3⟩ := hGi j hj p2 hp2 hp2in'
      refine ⟨g1, by rw [hre1]; exact g2, ?_⟩
      intro q hq1 hq2
      obtain ⟨t1, t2, t3⟩ := g3 q hq1 hq2
      have hqp : q ≠ p := hexwin j hj p2 hp2 q (Nat.le_of_lt hq2) hq1
      rw [hpg1_ne q hqp]
      refine ⟨t1, t2, ?_⟩
      intro j2 hj2
      rw [harea1 j2]
      exact t3 j2 hj2
    · -- InvX
      intro j hj p2 hp2 hp2ext j2 hj2
      rw [harea1 j] at hp2
      have hp2ext' : ¬ inRangeP s.pool p2 := fun hc => hp2ext ((hinr1 p2).mpr hc)
      intro hc
      refine hX j hj p2 hp2 hp2ext' j2 hj2 ?_
      unfold addrInR at hc ⊢
      rw [hrs1, hre1] at hc
      exact hc
    · -- ClaimInv3InRange
      intro j hj hjmo p2 hp2 hp2in b2 hb2
      rw [harea1 j] at hp2
      have hp2in' : inRangeP s.pool p2 := (hinr1 p2).mp hp2in
      have hjmo' : j < s.pool.max_order := by
        rw [setOrder_pool, memsetGroup_pool] at hjmo; exact hjmo
      have hb2t : __find_buddy_nocheck s.pool p2 j = some b2 := by
        rw [← hb2]
        exact (nocheck_range_congr _ _ _ _ hrs1.symm hre1.symm).symm
      rw [harea1 j]
      exact hC3 j hj hjmo' p2 hp2 hp2in' b2 hb2t
    · -- InvD
      intro j hj p2 hp2 hp2in j2 hj2 p3 hp3 hp3in hne
      rw [harea1 j] at hp2
      rw [harea1 j2] at hp3
      exact hD j hj p2 hp2 ((hinr1 p2).mp hp2in) j2 hj2 p3 hp3 ((hinr1 p3).mp hp3in) hne
    · -- InvM
      intro q hqle hqin hqord hqrc
      have hqin' : inRangeP s.pool q := (hinr1 q).mp hqin
      have hqle' : q < s.pool.range_end / PAGE_SIZE + 1 := by
        rw [hre1] at hqle; exact hqle
      by_cases hqp : q = p
      · rw [hqp, hpg1_self] at hqord
        exact absurd rfl hqord
      · rw [hpg1_ne q hqp] at hqord hqrc ⊢
        obtain ⟨m1, m2⟩ := hMx q hqle' hqin' hqp hqord hqrc
        refine ⟨m1, ?_⟩
        rw [harea1]
        exact m2
    · -- InvZ
      intro j hj p2 hp2 q hq1 hq2
      rw [harea1 j] at hp2
      obtain ⟨z1, z2⟩ := hZ j hj p2 hp2 q hq1 hq2
      rw [hbz1, hnz1]
      constructor
      · by_cases hw : p ≤ q ∧ q < p + 2 ^ (s.pages p).order
        · rw [if_pos hw]
        · rw [if_neg hw]; exact z1
      · intro hqp2
        by_cases hw : p ≤ q ∧ q < p + 2 ^ (s.pages p).order
        · rw [if_pos hw]
        · rw [if_neg hw]; exact z2 hqp2
    · -- InvXW
      intro j hj p2 hp2 hp2ext q hq1 hq2
      rw [harea1 j] at hp2
      have hp2ext' : ¬ inRangeP s.pool p2 := fun hc => hp2ext ((hinr1 p2).mpr hc)
      intro hc
      exact hXW j hj p2 hp2 hp2ext' q hq1 hq2 ((hinr1 q).mp hc)
  have hG1 : CurGroup (setOrder (memsetGroup s p ((s.pages p).order)) p HYP_NO_ORDER) p
      ((s.pages p).order) lo hi := by
    refine ⟨(hinr1 p).mpr hinp, hal, by rw [hre1]; exact hcov, ?_, ?_, hplo, hphi⟩
    · intro q hq1 hq2
      refine ⟨?_, ?_, ?_, ?_, ?_⟩
      · by_cases hqp : q = p
        · rw [hqp, hpg1_self]
        · rw [hpg1_ne q hqp]
          exact (htails q (Nat.lt_of_le_of_ne hq2 (Ne.symm hqp)) hq1).1
      · by_cases hqp : q = p
        · rw [hqp, hpg1_self]
          exact hrc
        · rw [hpg1_ne q hqp]
          exact (htails q (Nat.lt_of_le_of_ne hq2 (Ne.symm hqp)) hq1).2.1
      · intro j hj
        rw [harea1 j]
        by_cases hqp : q = p
        · rw [hqp]
          exact hunlisted j hj
        · exact (htails q (Nat.lt_of_le_of_ne hq2 (Ne.symm hqp)) hq1).2.2 j hj
      · rw [hbz1, if_pos ⟨hq2, hq1⟩]
      · rw [hnz1, if_pos ⟨hq2, hq1⟩]
    · intro k2 hk2 p2 hp2 hp2in
      rw [harea1 k2] at hp2
      exact hdisj k2 hk2 p2 hp2
  have hB1 : ListedBnd (setOrder (memsetGroup s p ((s.pages p).order)) p
      HYP_NO_ORDER) lo hi := by
    intro k2 hk2 p2 hp2 hp2in
    rw [harea1 k2] at hp2
    exact hB k2 hk2 p2 hp2 ((hinr1 p2).mp hp2in)
  have hmo1 : (setOrder (memsetGroup s p ((s.pages p).order)) p
      HYP_NO_ORDER).pool.max_order = s.pool.max_order := by
    rw [setOrder_pool, memsetGroup_pool]
  obtain ⟨r1, r2, r3, r4, r5, r6, r7⟩ :=
    coalesceGo_sound (s.pool.max_order + 1 - (s.pages p).order)
      (setOrder (memsetGroup s p ((s.pages p).order)) p HYP_NO_ORDER) p
      ((s.pages p).order) lo hi hInv1 hG1 hB1
      (by rw [hmo1]; exact homax) (by rw [hmo1]; omega)
  have hrmo : (coalesceGo (s.pool.max_order + 1 - (s.pages p).order)
      (setOrder (memsetGroup s p ((s.pages p).order)) p HYP_NO_ORDER) p
      ((s.pages p).order)).1.pool.max_order = s.pool.max_order := by
    rw [(coalesceGo_pool _ _ _ _).1, hmo1]
  obtain ⟨hi1, hi2, -, -⟩ := insert_sound _ _ _ lo hi r1 r2 r3
    (by
      rw [hrmo, ← hmo1]
      exact coalesceGo_order_le _ _ _ _ (by rw [hmo1]; exact homax))
    (by
      rcases r5 with r5 | r5
      · left; rw [hrmo, ← hmo1]; exact r5
      · right; exact r5)
  refine ⟨hi1, hi2, ?_⟩
  intro q hq
  obtain ⟨-, -, -, -, -, hlo2, hhi2⟩ := r2
  have hpow2 := Nat.two_pow_pos (coalesceGo (s.pool.max_order + 1 - (s.pages p).order)
      (setOrder (memsetGroup s p ((s.pages p).order)) p HYP_NO_ORDER) p
      ((s.pages p).order)).2.2
  have hqh : q ≠ (coalesceGo (s.pool.max_order + 1 - (s.pages p).order)
      (setOrder (memsetGroup s p ((s.pages p).order)) p HYP_NO_ORDER) p
      ((s.pages p).order)).2.1 := by omega
  have hqp : q ≠ p := by omega
  rw [pageAddToList_pages, setOrder_pages_ne _ _ _ _ hqh, r7 q hq, hpg1_ne q hqp]

theorem poolInv_setFp (t : HState) (v : Nat) : PoolInv (setFp t v) ↔ PoolInv t := Iff.rfl

theorem listedBnd_setFp (t : HState) (v lo hi : Nat) :
    ListedBnd (setFp t v) lo hi ↔ ListedBnd t lo hi := Iff.rfl

theorem put_eq_attach (s : HState) (p : Nat) (h1 : (s.pages p).refcount = 1) :
    __hyp_put_page s p =
      setFp (__hyp_attach_page (setRc s p 0) p)
        ((__hyp_attach_page (setRc s p 0) p).pool.free_pages +
          2 ^ (((__hyp_attach_page (setRc s p 0) p).pages p).order)) := by
  unfold __hyp_put_page
  dsimp only
  rw [h1]
  norm_num

theorem put_eq_dec (s : HState) (p : Nat) (h0 : 1 ≤ (s.pages p).refcount)
    (h1 : (s.pages p).refcount ≠ 1) :
    __hyp_put_page s p = setRc s p ((s.pages p).refcount - 1) := by
  unfold __hyp_put_page
  dsimp only
  rw [if_neg]
  intro hc
  rw [setRc_pages_self] at hc
  have hc' : (s.pages p).refcount - 1 = 0 := hc
  omega

theorem put_sound (s : HState) (p : Nat) (lo hi : Nat)
    (hInv : PoolInv s) (hPC : PutContract s p) (hB : ListedBnd s lo hi)
    (hbnd : (s.pages p).refcount = 1 → inRangeP s.pool p →
      lo ≤ p ∧ p + 2 ^ (s.pages p).order ≤ hi) :
    PoolInv (__hyp_put_page s p) ∧ ListedBnd (__hyp_put_page s p) lo hi ∧
    (∀ q, q ≠ p → q < lo ∨ hi ≤ q → (__hyp_put_page s p).pages q = s.pages q) := by
  obtain ⟨hA, hL, hGi, hX, hC3, hD, hM, hZ, hXW⟩ := hInv
  obtain ⟨hrc1, himp⟩ := hPC
  by_cases h1 : (s.pages p).refcount = 1
  · obtain ⟨homax, hunl, htl, hinrcl, hextcl, hdj⟩ := himp h1
    rw [put_eq_attach s p h1, poolInv_setFp, listedBnd_setFp]
    have hordd : ((setRc s p 0).pages p).order = (s.pages p).order := by
      rw [setRc_pages_self]
    have hrcd : ((setRc s p 0).pages p).refcount = 0 := by
      rw [setRc_pages_self]
    have hpool : (setRc s p 0).pool = s.pool := setRc_pool s p 0
    have hareas : ∀ j, getArea (setRc s p 0) j = getArea s j :=
      fun j => setRc_getArea s p 0 j
    have hinrd : ∀ q, inRangeP (setRc s p 0).pool q ↔ inRangeP s.pool q :=
      fun q => inRangeP_congr (by rw [hpool]) (by rw [hpool]) q
    have hpgd : ∀ q, q ≠ p → (setRc s p 0).pages q = s.pages q :=
      fun q hq => setRc_pages_ne s p 0 q hq
    have hx : PoolInvx (setRc s p 0) p := by
      refine ⟨?_, ?_, ?_, ?_, ?_, ?_, ?_, ?_, ?_⟩
      · exact ⟨by rw [hpool]; exact hA.1, by rw [hpool]; exact hA.2⟩
      · -- InvL
        intro j hj
        rw [hareas j]
        refine ⟨fun q hq => ?_, (hL j hj).2⟩
        have hq0 := (hL j hj).1 q hq
        have hqp : q ≠ p := by
          intro he
          rw [he] at hq0
          rw [hq0.2] at h1
          cases h1
        rw [hpgd q hqp]
        exact hq0
      · -- InvG
        intro j hj p2 hp2 hp2in
        rw [hareas j] at hp2
        have hp2in' : inRangeP s.pool p2 := (hinrd p2).mp hp2in
        obtain ⟨g1, g2, g3⟩ := hGi j hj p2 hp2 hp2in'
        refine ⟨g1, by rw [hpool]; exact g2, ?_⟩
        intro q hq1 hq2
        obtain ⟨t1, t2, t3⟩ := g3 q hq1 hq2
        have hqp : q ≠ p := by
          intro he
          rw [he] at t2
          rw [t2] at h1
          cases h1
        rw [hpgd q hqp]
        refine ⟨t1, t2, ?_⟩
        intro j2 hj2
        rw [hareas j2]
        exact t3 j2 hj2
      · -- InvX
        intro j hj p2 hp2 hp2ext j2 hj2
        rw [hareas j] at hp2
        have hp2ext' : ¬ inRangeP s.pool p2 := fun hc => hp2ext ((hinrd p2).mpr hc)
        intro hc
        refine hX j hj p2 hp2 hp2ext' j2 hj2 ?_
        unfold addrInR at hc ⊢
        rw [hpool] at hc
        exact hc
      · -- ClaimInv3InRange
        intro j hj hjmo p2 hp2 hp2in b2 hb2
        rw [hareas j] at hp2
        rw [hareas j]
        have hjmo' : j < s.pool.max_order := by rw [hpool] at hjmo; exact hjmo
        have hb2t : __find_buddy_nocheck s.pool p2 j = some b2 := by
          rw [← hb2]
          exact (nocheck_range_congr _ _ _ _ (by rw [hpool]) (by rw [hpool])).symm
        exact hC3 j hj hjmo' p2 hp2 ((hinrd p2).mp hp2in) b2 hb2t
      · -- InvD
        intro j hj p2 hp2 hp2in j2 hj2 p3 hp3 hp3in hne
        rw [hareas j] at hp2
        rw [hareas j2] at hp3
        exact hD j hj p2 hp2 ((hinrd p2).mp hp2in) j2 hj2 p3 hp3 ((hinrd p3).mp hp3in) hne
      · -- InvMx
        intro q hqle hqin hqp hqord hqrc
        rw [hpgd q hqp] at hqord hqrc ⊢
        have hqle' : q < s.pool.range_end / PAGE_SIZE + 1 := by
          rw [hpool] at hqle; exact hqle
        obtain ⟨m1, m2⟩ := hM q hqle' ((hinrd q).mp hqin) hqord hqrc
        refine ⟨m1, ?_⟩
        rw [hareas]
        exact m2
      · -- InvZ
        intro j hj p2 hp2 q hq1 hq2
        rw [hareas j] at hp2
        exact hZ j hj p2 hp2 q hq1 hq2
      · -- InvXW
        intro j hj p2 hp2 hp2ext q hq1 hq2
        rw [hareas j] at hp2
        have hp2ext' : ¬ inRangeP s.pool p2 := fun hc => hp2ext ((hinrd p2).mpr hc)
        intro hc
        exact hXW j hj p2 hp2 hp2ext' q hq1 hq2 ((hinrd q).mp hc)
    have hunl' : ∀ j, j < NR_PAGE_ORDERS → p ∉ getArea (setRc s p 0) j := by
      intro j hj
      rw [hareas j]
      exact hunl j hj
    have htl' : ∀ q, p < q → q < p + 2 ^ (((setRc s p 0).pages p).order) →
        (((setRc s p 0).pages q)).order = HYP_NO_ORDER ∧
        (((setRc s p 0).pages q)).refcount = 0 ∧
        ∀ j, j < NR_PAGE_ORDERS → q ∉ getArea (setRc s p 0) j := by
      intro q hq1 hq2
      rw [hordd] at hq2
      have hqp : q ≠ p := (Nat.ne_of_lt hq1).symm
      rw [hpgd q hqp]
      obtain ⟨u1, u2, u3⟩ := htl q hq1 hq2
      refine ⟨u1, u2, ?_⟩
      intro j hj
      rw [hareas j]
      exact u3 j hj
    have hdj' : ∀ k, k < NR_PAGE_ORDERS → ∀ h ∈ getArea (setRc s p 0) k,
        (h + 2 ^ k ≤ p ∨ p + 2 ^ (((setRc s p 0).pages p).order) ≤ h) := by
      intro k hk h hh
      rw [hareas k] at hh
      rw [hordd]
      exact hdj k hk h hh
    have homax' : ((setRc s p 0).pages p).order ≤ (setRc s p 0).pool.max_order := by
      rw [hordd, hpool]
      exact homax
    have hB' : ListedBnd (setRc s p 0) lo hi := by
      intro k hk p2 hp2 hp2in
      rw [hareas k] at hp2
      exact hB k hk p2 hp2 ((hinrd p2).mp hp2in)
    by_cases hin : inRangeP s.pool p
    · obtain ⟨hplo, hphi⟩ := hbnd h1 hin
      obtain ⟨hal, hcov⟩ := hinrcl hin
      obtain ⟨a1, a2, a3⟩ := attach_inrange_sound (setRc s p 0) p lo hi hx
        ((hinrd p).mpr hin) hrcd
        hunl' htl' (by rw [hordd]; exact hal)
        (by rw [hordd, hpool]; exact hcov) hdj' homax' hB'
        hplo (by rw [hordd]; exact hphi)
      refine ⟨a1, a2, ?_⟩
      intro q hqp hq
      exact (a3 q hq).trans (hpgd q hqp)
    · obtain ⟨hinert, hwin⟩ := hextcl hin
      obtain ⟨a1, a2, a3⟩ := attach_external_sound (setRc s p 0) p lo hi hx
        (fun hc => hin ((hinrd p).mp hc)) hrcd hunl' htl'
        (by
          intro j hj
          rw [hordd] at hj
          have := hinert j hj
          intro hc
          refine this ?_
          unfold addrInR at hc ⊢
          rw [hpool] at hc
          exact hc)
        (by
          intro q hq1 hq2
          rw [hordd] at hq1
          intro hc
          exact hwin q hq1 hq2 ((hinrd q).mp hc))
        hdj' homax' hB'
      refine ⟨a1, a2, ?_⟩
      intro q hqp hq
      exact (a3 q).trans (hpgd q hqp)
  · rw [put_eq_dec s p hrc1 h1]
    have hge2 : 2 ≤ (s.pages p).refcount := by omega
    have hpool : (setRc s p ((s.pages p).refcount - 1)).pool = s.pool := setRc_pool s p _
    have hareas : ∀ j, getArea (setRc s p ((s.pages p).refcount - 1)) j = getArea s j :=
      fun j => setRc_getArea s p _ j
    have hinrd : ∀ q, inRangeP (setRc s p ((s.pages p).refcount - 1)).pool q ↔
        inRangeP s.pool q :=
      fun q => inRangeP_congr (by rw [hpool]) (by rw [hpool]) q
    have hpgd : ∀ q, q ≠ p → (setRc s p ((s.pages p).refcount - 1)).pages q = s.pages q :=
      fun q hq => setRc_pages_ne s p _ q hq
    refine ⟨?_, ?_, fun q hqp hq => hpgd q hqp⟩
    · refine ⟨?_, ?_, ?_, ?_, ?_, ?_, ?_, ?_, ?_⟩
      · exact ⟨by rw [hpool]; exact hA.1, by rw [hpool]; exact hA.2⟩
      · -- InvL
        intro j hj
        rw [hareas j]
        refine ⟨fun q hq => ?_, (hL j hj).2⟩
        have hq0 := (hL j hj).1 q hq
        have hqp : q ≠ p := by
          intro he
          rw [he] at hq0
          rw [hq0.2] at hrc1
          cases hrc1
        rw [hpgd q hqp]
        exact hq0
      · -- InvG
        intro j hj p2 hp2 hp2in
        rw [hareas j] at hp2
        have hp2in' : inRangeP s.pool p2 := (hinrd p2).mp hp2in
        obtain ⟨g1, g2, g3⟩ := hGi j hj p2 hp2 hp2in'
        refine ⟨g1, by rw [hpool]; exact g2, ?_⟩
        intro q hq1 hq2
        obtain ⟨t1, t2, t3⟩ := g3 q hq1 hq2
        have hqp : q ≠ p := by
          intro he
          rw [he] at t2
          rw [t2] at hrc1
          cases hrc1
        rw [hpgd q hqp]
        refine ⟨t1, t2, ?_⟩
        intro j2 hj2
        rw [hareas j2]
        exact t3 j2 hj2
      · -- InvX
        intro j hj p2 hp2 hp2ext j2 hj2
        rw [hareas j] at hp2
        have hp2ext' : ¬ inRangeP s.pool p2 := fun hc => hp2ext ((hinrd p2).mpr hc)
        intro hc
        refine hX j hj p2 hp2 hp2ext' j2 hj2 ?_
        unfold addrInR at hc ⊢
        rw [hpool] at hc
        exact hc
      · -- ClaimInv3InRange
        intro j hj hjmo p2 hp2 hp2in b2 hb2
        rw [hareas j] at hp2
        rw [hareas j]
        have hjmo' : j < s.pool.max_order := by rw [hpool] at hjmo; exact hjmo
        have hb2t : __find_buddy_nocheck s.pool p2 j = some b2 := by
          rw [← hb2]
          exact (nocheck_range_congr _ _ _ _ (by rw [hpool]) (by rw [hpool])).symm
        exact hC3 j hj hjmo' p2 hp2 ((hinrd p2).mp hp2in) b2 hb2t
      · -- InvD
        intro j hj p2 hp2 hp2in j2 hj2 p3 hp3 hp3in hne
        rw [hareas j] at hp2
        rw [hareas j2] at hp3
        exact hD j hj p2 hp2 ((hinrd p2).mp hp2in) j2 hj2 p3 hp3 ((hinrd p3).mp hp3in) hne
      · -- InvM
        intro q hqle hqin hqord hqrc
        have hqle' : q < s.pool.range_end / PAGE_SIZE + 1 := by
          rw [hpool] at hqle; exact hqle
        by_cases hqp : q = p
        · rw [hqp, setRc_pages_self] at hqrc
          have : (s.pages p).refcount - 1 = 0 := hqrc
          omega
        · rw [hpgd q hqp] at hqord hqrc ⊢
          obtain ⟨m1, m2⟩ := hM q hqle' ((hinrd q).mp hqin) hqord hqrc
          refine ⟨m1, ?_⟩
          rw [hareas]
          exact m2
      · -- InvZ
        intro j hj p2 hp2 q hq1 hq2
        rw [hareas j] at hp2
        exact hZ j hj p2 hp2 q hq1 hq2
      · -- InvXW
        intro j hj p2 hp2 hp2ext q hq1 hq2
        rw [hareas j] at hp2
        have hp2ext' : ¬ inRangeP s.pool p2 := fun hc => hp2ext ((hinrd p2).mpr hc)
        intro hc
        exact hXW j hj p2 hp2 hp2ext' q hq1 hq2 ((hinrd q).mp hc)
    · intro k hk p2 hp2 hp2in
      rw [hareas k] at hp2
      exact hB k hk p2 hp2 ((hinrd p2).mp hp2in)

theorem get_sound (s : HState) (p : Nat) (lo hi : Nat)
    (hInv : PoolInv s) (hrc1 : 1 ≤ (s.pages p).refcount) (hB : ListedBnd s lo hi) :
    PoolInv (hyp_get_page s p) ∧ ListedBnd (hyp_get_page s p) lo hi := by
  obtain ⟨hA, hL, hGi, hX, hC3, hD, hM, hZ, hXW⟩ := hInv
  unfold hyp_get_page
  have hpool : (setRc s p ((s.pages p).refcount + 1)).pool = s.pool := setRc_pool s p _
  have hareas : ∀ j, getArea (setRc s p ((s.pages p).refcount + 1)) j = getArea s j :=
    fun j => setRc_getArea s p _ j
  have hinrd : ∀ q, inRangeP (setRc s p ((s.pages p).refcount + 1)).pool q ↔
      inRangeP s.pool q :=
    fun q => inRangeP_congr (by rw [hpool]) (by rw [hpool]) q
  have hpgd : ∀ q, q ≠ p → (setRc s p ((s.pages p).refcount + 1)).pages q = s.pages q :=
    fun q hq => setRc_pages_ne s p _ q hq
  constructor
  · refine ⟨?_, ?_, ?_, ?_, ?_, ?_, ?_, ?_, ?_⟩
    · exact ⟨by rw [hpool]; exact hA.1, by rw [hpool]; exact hA.2⟩
    · -- InvL
      intro j hj
      rw [hareas j]
      refine ⟨fun q hq => ?_, (hL j hj).2⟩
      have hq0 := (hL j hj).1 q hq
      have hqp : q ≠ p := by
        intro he
        rw [he] at hq0
        rw [hq0.2] at hrc1
        cases hrc1
      rw [hpgd q hqp]
      exact hq0
    · -- InvG
      intro j hj p2 hp2 hp2in
      rw [hareas j] at hp2
      have hp2in' : inRangeP s.pool p2 := (hinrd p2).mp hp2in
      obtain ⟨g1, g2, g3⟩ := hGi j hj p2 hp2 hp2in'
      refine ⟨g1, by rw [hpool]; exact g2, ?_⟩
      intro q hq1 hq2
      obtain ⟨t1, t2, t3⟩ := g3 q hq1 hq2
      have hqp : q ≠ p := by
        intro he
        rw [he] at t2
        rw [t2] at hrc1
        cases hrc1
      rw [hpgd q hqp]
      refine ⟨t1, t2, ?_⟩
      intro j2 hj2
      rw [hareas j2]
      exact t3 j2 hj2
    · -- InvX
      intro j hj p2 hp2 hp2ext j2 hj2
      rw [hareas j] at hp2
      have hp2ext' : ¬ inRangeP s.pool p2 := fun hc => hp2ext ((hinrd p2).mpr hc)
      intro hc
      refine hX j hj p2 hp2 hp2ext' j2 hj2 ?_
      unfold addrInR at hc ⊢
      rw [hpool] at hc
      exact hc
    · -- ClaimInv3InRange
      intro j hj hjmo p2 hp2 hp2in b2 hb2
      rw [hareas j] at hp2
      rw [hareas j]
      have hjmo' : j < s.pool.max_order := by rw [hpool] at hjmo; exact hjmo
      have hb2t : __find_buddy_nocheck s.pool p2 j = some b2 := by
        rw [← hb2]
        exact (nocheck_range_congr _ _ _ _ (by rw [hpool]) (by rw [hpool])).symm
      exact hC3 j hj hjmo' p2 hp2 ((hinrd p2).mp hp2in) b2 hb2t
    · -- InvD
      intro j hj p2 hp2 hp2in j2 hj2 p3 hp3 hp3in hne
      rw [hareas j] at hp2
      rw [hareas j2] at hp3
      exact hD j hj p2 hp2 ((hinrd p2).mp hp2in) j2 hj2 p3 hp3 ((hinrd p3).mp hp3in) hne
    · -- InvM
      intro q hqle hqin hqord hqrc
      have hqle' : q < s.pool.range_end / PAGE_SIZE + 1 := by
        rw [hpool] at hqle; exact hqle
      by_cases hqp : q = p
      · rw [hqp, setRc_pages_self] at hqrc
        have : (s.pages p).refcount + 1 = 0 := hqrc
        omega
      · rw [hpgd q hqp] at hqord hqrc ⊢
        obtain ⟨m1, m2⟩ := hM q hqle' ((hinrd q).mp hqin) hqord hqrc
        refine ⟨m1, ?_⟩
        rw [hareas]
        exact m2
    · -- InvZ
      intro j hj p2 hp2 q hq1 hq2
      rw [hareas j] at hp2
      exact hZ j hj p2 hp2 q hq1 hq2
    · -- InvXW
      intro j hj p2 hp2 hp2ext q hq1 hq2
      rw [hareas j] at hp2
      have hp2ext' : ¬ inRangeP s.pool p2 := fun hc => hp2ext ((hinrd p2).mpr hc)
      intro hc
      exact hXW j hj p2 hp2 hp2ext' q hq1 hq2 ((hinrd q).mp hc)
  · intro k hk p2 hp2 hp2in
    rw [hareas k] at hp2
    exact hB k hk p2 hp2 ((hinrd p2).mp hp2in)

theorem extract_step_sound (t : HState) (p : Nat) (b : Nat) (w : Nat)
    (hx : PoolInvx t p) (hg : ExtGroup t p) (hlt : w < (t.pages p).order)
    (hnb : __find_buddy_nocheck t.pool p ((t.pages p).order - 1) = some b) :
    PoolInvx (pageAddToList (setOrder (setOrder t p ((t.pages p).order - 1)) b
      ((t.pages p).order - 1)) b ((t.pages p).order - 1)) p ∧
    ExtGroup (pageAddToList (setOrder (setOrder t p ((t.pages p).order - 1)) b
      ((t.pages p).order - 1)) b ((t.pages p).order - 1)) p ∧
    ((pageAddToList (setOrder (setOrder t p ((t.pages p).order - 1)) b
      ((t.pages p).order - 1)) b ((t.pages p).order - 1)).pages p).order
      = (t.pages p).order - 1 ∧
    (∀ j, j < NR_PAGE_ORDERS → ∀ q ∈ getArea (pageAddToList (setOrder (setOrder t p
      ((t.pages p).order - 1)) b ((t.pages p).order - 1)) b ((t.pages p).order - 1)) j,
      q ∈ getArea t j ∨ (inRangeP t.pool q ∧ p ≤ q ∧
        q + 2 ^ j ≤ p + 2 ^ (t.pages p).order)) := by
  have hNO : HYP_NO_ORDER = 255 := rfl
  have hNR : NR_PAGE_ORDERS = 5 := rfl
  obtain ⟨hA, hL, hGi, hX, hC3, hD, hMx, hZ, hXW⟩ := hx
  obtain ⟨hA1, hA2⟩ := hA
  obtain ⟨hin, hrc, hal, hcov, hunl, htl, hfl, hdj, hom⟩ := hg
  have hd1 : 1 ≤ (t.pages p).order := by omega
  have hd5 : (t.pages p).order - 1 < NR_PAGE_ORDERS := by omega
  have h2d : (2:Nat) ^ (t.pages p).order
      = 2 ^ ((t.pages p).order - 1) + 2 ^ ((t.pages p).order - 1) := by
    have h := Nat.sub_add_cancel hd1
    calc (2:Nat) ^ (t.pages p).order = 2 ^ ((t.pages p).order - 1 + 1) := by rw [h]
      _ = 2 ^ ((t.pages p).order - 1) * 2 := pow_succ 2 _
      _ = _ := by ring
  have hal' : 2 ^ ((t.pages p).order - 1 + 1) ∣ p := by
    rw [Nat.sub_add_cancel hd1]
    exact hal
  have hbf : b = p + 2 ^ ((t.pages p).order - 1) := by
    rw [nocheck_some_frame hnb]
    exact buddy_split _ p hal'
  have hpow1 : 0 < 2 ^ ((t.pages p).order - 1) := Nat.two_pow_pos _
  have hpb : p < b := by
    rw [hbf]
    exact Nat.lt_add_of_pos_right hpow1
  have hbp : b ≠ p := (Nat.ne_of_lt hpb).symm
  have hbwin : p < b ∧ b < p + 2 ^ (t.pages p).order := by
    refine ⟨hpb, ?_⟩
    rw [hbf, h2d]
    exact Nat.add_lt_add_left (Nat.lt_add_of_pos_right hpow1) p
  have hbin : inRangeP t.pool b :=
    inRangeP_of_cover hin hcov (Nat.le_of_lt hbwin.1) hbwin.2
  have hbtl := htl b hbwin.1 hbwin.2
  have hal2 : 2 ^ ((t.pages p).order - 1) ∣ b := by
    rw [hbf]
    exact Nat.dvd_add (dvd_trans (pow_dvd_pow 2 (Nat.sub_le _ _)) hal) dvd_rfl
  have hbend : b + 2 ^ ((t.pages p).order - 1) = p + 2 ^ (t.pages p).order := by
    rw [hbf, h2d]
    exact Nat.add_assoc p _ _
  -- state computation
  have hpg_p : (pageAddToList (setOrder (setOrder t p ((t.pages p).order - 1)) b
      ((t.pages p).order - 1)) b ((t.pages p).order - 1)).pages p
      = { t.pages p with order := (t.pages p).order - 1 } := by
    rw [pageAddToList_pages, setOrder_pages_ne _ _ _ _ (Ne.symm hbp), setOrder_pages_self]
  have hpg_b : (pageAddToList (setOrder (setOrder t p ((t.pages p).order - 1)) b
      ((t.pages p).order - 1)) b ((t.pages p).order - 1)).pages b
      = { t.pages b with order := (t.pages p).order - 1 } := by
    rw [pageAddToList_pages, setOrder_pages_self, setOrder_pages_ne _ _ _ _ hbp]
  have hpg_ne : ∀ q, q ≠ p → q ≠ b →
      (pageAddToList (setOrder (setOrder t p ((t.pages p).order - 1)) b
        ((t.pages p).order - 1)) b ((t.pages p).order - 1)).pages q = t.pages q := by
    intro q h1 h2
    rw [pageAddToList_pages, setOrder_pages_ne _ _ _ _ h2, setOrder_pages_ne _ _ _ _ h1]
  have hrs : (pageAddToList (setOrder (setOrder t p ((t.pages p).order - 1)) b
      ((t.pages p).order - 1)) b ((t.pages p).order - 1)).pool.range_start
      = t.pool.range_start := by
    rw [pageAddToList_rangeStart, setOrder_pool, setOrder_pool]
  have hre : (pageAddToList (setOrder (setOrder t p ((t.pages p).order - 1)) b
      ((t.pages p).order - 1)) b ((t.pages p).order - 1)).pool.range_end
      = t.pool.range_end := by
    rw [pageAddToList_rangeEnd, setOrder_pool, setOrder_pool]
  have hinr : ∀ q, inRangeP (pageAddToList (setOrder (setOrder t p
      ((t.pages p).order - 1)) b ((t.pages p).order - 1)) b
      ((t.pages p).order - 1)).pool q ↔ inRangeP t.pool q :=
    fun q => inRangeP_congr hrs hre q
  have harea_self : getArea (pageAddToList (setOrder (setOrder t p
      ((t.pages p).order - 1)) b ((t.pages p).order - 1)) b
      ((t.pages p).order - 1)) ((t.pages p).order - 1)
      = getArea t ((t.pages p).order - 1) ++ [b] := by
    rw [getArea_add_self, setOrder_getArea, setOrder_getArea]
    rw [setOrder_pool, setOrder_pool, hA1]
    exact hd5
  have harea_ne : ∀ j, j ≠ (t.pages p).order - 1 →
      getArea (pageAddToList (setOrder (setOrder t p ((t.pages p).order - 1)) b
        ((t.pages p).order - 1)) b ((t.pages p).order - 1)) j = getArea t j := by
    intro j hj
    rw [getArea_add_ne _ _ _ _ hj, setOrder_getArea, setOrder_getArea]
  have hmem : ∀ j q, q ∈ getArea (pageAddToList (setOrder (setOrder t p
      ((t.pages p).order - 1)) b ((t.pages p).order - 1)) b
      ((t.pages p).order - 1)) j ↔
      (q ∈ getArea t j ∨ (j = (t.pages p).order - 1 ∧ q = b)) := by
    intro j q
    by_cases hj : j = (t.pages p).order - 1
    · subst hj
      rw [harea_self, List.mem_append, List.mem_singleton]
      constructor
      · rintro (h | h)
        · exact Or.inl h
        · exact Or.inr ⟨rfl, h⟩
      · rintro (h | ⟨-, h⟩)
        · exact Or.inl h
        · exact Or.inr h
    · rw [harea_ne j hj]
      constructor
      · exact Or.inl
      · rintro (h | ⟨he, -⟩)
        · exact h
        · exact absurd he hj
  have hnz : ∀ q, (pageAddToList (setOrder (setOrder t p ((t.pages p).order - 1)) b
      ((t.pages p).order - 1)) b ((t.pages p).order - 1)).nodeZero q
      = if q = b then false else t.nodeZero q := by
    intro q
    rw [pageAddToList_nodeZero, setOrder_nodeZero, setOrder_nodeZero]
  have hbz : ∀ q, (pageAddToList (setOrder (setOrder t p ((t.pages p).order - 1)) b
      ((t.pages p).order - 1)) b ((t.pages p).order - 1)).bodyZero q
      = t.bodyZero q := fun q => rfl
  -- frames of in-range listed windows avoid both p and b
  have hwinpb : ∀ j, j < NR_PAGE_ORDERS → ∀ p2 ∈ getArea t j, inRangeP t.pool p2 →
      ∀ q, p2 ≤ q → q < p2 + 2 ^ j → q ≠ p ∧ q ≠ b := by
    intro j hj p2 hp2 hp2in q h1 h2
    rcases hdj j hj p2 hp2 hp2in with hd | hd
    · constructor
      · intro he; rw [he] at h2
        exact Nat.lt_irrefl _ (Nat.lt_of_lt_of_le h2 hd)
      · intro he; rw [he] at h2
        exact Nat.lt_irrefl _ (Nat.lt_of_lt_of_le h2
          (Nat.le_trans hd (Nat.le_of_lt hbwin.1)))
    · constructor
      · intro he; rw [he] at h1
        exact Nat.lt_irrefl _ (Nat.lt_of_lt_of_le
          (Nat.lt_of_lt_of_le (Nat.lt_add_of_pos_right (Nat.two_pow_pos _)) hd) h1)
      · intro he; rw [he] at h1
        have hb2 : p + 2 ^ (t.pages p).order ≤ b := Nat.le_trans hd h1
        rw [hbf, h2d] at hb2
        exact Nat.lt_irrefl _ (Nat.lt_of_lt_of_le
          (Nat.add_lt_add_left (Nat.lt_add_of_pos_right hpow1) p) hb2)
  -- frames of external listed windows avoid both p and b (all in range)
  have hexpb : ∀ j, j < NR_PAGE_ORDERS → ∀ p2 ∈ getArea t j, ¬ inRangeP t.pool p2 →
      ∀ q, p2 ≤ q → q < p2 + 2 ^ j → q ≠ p ∧ q ≠ b := by
    intro j hj p2 hp2 hp2ext q h1 h2
    have hqext := hXW j hj p2 hp2 hp2ext q h2 h1
    constructor
    · intro he; rw [he] at hqext; exact hqext hin
    · intro he; rw [he] at hqext; exact hqext hbin
  have hallpb : ∀ j, j < NR_PAGE_ORDERS → ∀ p2 ∈ getArea t j,
      ∀ q, p2 ≤ q → q < p2 + 2 ^ j → q ≠ p ∧ q ≠ b := by
    intro j hj p2 hp2 q h1 h2
    by_cases hp2in : inRangeP t.pool p2
    · exact hwinpb j hj p2 hp2 hp2in q h1 h2
    · exact hexpb j hj p2 hp2 hp2in q h1 h2
  refine ⟨⟨?_, ?_, ?_, ?_, ?_, ?_, ?_, ?_, ?_⟩, ?_, by rw [hpg_p], ?_⟩
  rotate_right
  · -- member tracking: any new list entry is the inserted buddy b
    intro j hj q hq
    rcases (hmem j q).mp hq with hq | ⟨hjk, hqb⟩
    · exact Or.inl hq
    · right
      rw [hjk, hqb]
      refine ⟨hbin, Nat.le_of_lt hpb, ?_⟩
      rw [hbend]
  · -- InvA
    constructor
    · rw [pageAddToList_length, setOrder_pool, setOrder_pool]; exact hA1
    · rw [pageAddToList_maxOrder, setOrder_pool, setOrder_pool]; exact hA2
  · -- InvL
    intro j hj
    constructor
    · intro q hq
      rcases (hmem j q).mp hq with hq | ⟨hjk, hqh⟩
      · have hqp : q ≠ p := fun he => hunl j hj (he ▸ hq)
        have hqb : q ≠ b := fun he => hbtl.2.2 j hj (he ▸ hq)
        rw [hpg_ne q hqp hqb]
        exact (hL j hj).1 q hq
      · rw [hjk, hqh, hpg_b]
        exact ⟨rfl, hbtl.2.1⟩
    · by_cases hj' : j = (t.pages p).order - 1
      · rw [hj', harea_self]
        have h1 := (hL _ hd5).2
        have h2 := hbtl.2.2 _ hd5
        simp [List.nodup_append, h1, h2]
      · rw [harea_ne j hj']
        exact (hL j hj).2
  · -- InvG
    intro j hj p2 hp2 hp2in
    have hp2in' : inRangeP t.pool p2 := (hinr p2).mp hp2in
    rcases (hmem j p2).mp hp2 with hp2t | ⟨hjk, hph⟩
    · obtain ⟨g1, g2, g3⟩ := hGi j hj p2 hp2t hp2in'
      refine ⟨g1, by rw [hre]; exact g2, ?_⟩
      intro q hq1 hq2
      obtain ⟨t1, t2, t3⟩ := g3 q hq1 hq2
      obtain ⟨hqp, hqb⟩ := hwinpb j hj p2 hp2t hp2in' q (Nat.le_of_lt hq2) hq1
      rw [hpg_ne q hqp hqb]
      refine ⟨t1, t2, ?_⟩
      intro j2 hj2
      rw [hmem j2 q]
      rintro (hc | ⟨-, he⟩)
      · exact t3 j2 hj2 hc
      · exact hqb he
    · have hph' := hph.symm
      subst hph'
      refine ⟨?_, ?_, ?_⟩
      · rw [hjk]; exact hal2
      · rw [hjk, hre, hbend]; exact hcov
      · intro q hq1 hq2
        rw [hjk] at hq1
        have hq2' : b < q := hq2
        have hqin : q < p + 2 ^ (t.pages p).order := by
          rw [← hbend]; exact hq1
        have hqp : q ≠ p := by
          intro he; rw [he] at hq2'
          exact Nat.lt_irrefl _ (Nat.lt_trans hpb hq2')
        have hqb : q ≠ b := (Nat.ne_of_lt hq2').symm
        obtain ⟨u1, u2, u3⟩ := htl q (Nat.lt_trans hpb hq2') hqin
        rw [hpg_ne q hqp hqb]
        refine ⟨u1, u2, ?_⟩
        intro j2 hj2
        rw [hmem j2 q]
        rintro (hc | ⟨-, he⟩)
        · exact u3 j2 hj2 hc
        · exact hqb he
  · -- InvX
    intro j hj p2 hp2 hp2ext j2 hj2
    have hp2ext' : ¬ inRangeP t.pool p2 := fun hc => hp2ext ((hinr p2).mpr hc)
    rcases (hmem j p2).mp hp2 with hp2t | ⟨-, hph⟩
    · intro hc
      refine hX j hj p2 hp2t hp2ext' j2 hj2 ?_
      unfold addrInR at hc ⊢
      rw [hrs, hre] at hc
      exact hc
    · exact absurd ((hinr p2).mpr (by rw [hph]; exact hbin)) hp2ext
  · -- ClaimInv3InRange
    intro j hj hjmo p2 hp2 hp2in b2 hb2
    have hp2in' : inRangeP t.pool p2 := (hinr p2).mp hp2in
    have hjmo' : j < t.pool.max_order := by
      rw [pageAddToList_maxOrder, setOrder_pool, setOrder_pool] at hjmo; exact hjmo
    have hb2t : __find_buddy_nocheck t.pool p2 j = some b2 := by
      rw [← hb2]
      exact (nocheck_range_congr _ _ _ _ hrs.symm hre.symm).symm
    rcases (hmem j p2).mp hp2 with hp2t | ⟨hjk, hph⟩
    · have hold := hC3 j hj hjmo' p2 hp2t hp2in' b2 hb2t
      rw [hmem j b2]
      rintro (hc | ⟨hjk, hbh⟩)
      · exact hold hc
      · -- the buddy of a listed head cannot be the freshly inserted b:
        -- that head would have to be the unlisted p
        have hp2p : p2 = p := by
          have h1 : b2 = p2 ^^^ 2 ^ j := nocheck_some_frame hb2t
          rw [hjk] at h1
          rw [hbh] at h1
          have h2 : b = p ^^^ 2 ^ ((t.pages p).order - 1) := nocheck_some_frame hnb
          have h3 : p2 ^^^ 2 ^ ((t.pages p).order - 1)
              = p ^^^ 2 ^ ((t.pages p).order - 1) := by rw [← h1, h2]
          have h4 := congrArg (fun x => x ^^^ 2 ^ ((t.pages p).order - 1)) h3
          simpa [Nat.xor_assoc] using h4
        rw [hjk] at hp2t
        rw [hp2p] at hp2t
        exact hunl _ hd5 hp2t
    · have hph' := hph.symm
      subst hph'
      rw [hjk] at hb2t ⊢
      have hsym : __find_buddy_nocheck t.pool b ((t.pages p).order - 1) = some p :=
        nocheck_symm hnb hin
      rw [hsym] at hb2t
      cases hb2t
      rw [hmem]
      rintro (hc | ⟨-, he⟩)
      · exact hunl _ hd5 hc
      · exact hbp he.symm
  · -- InvD
    intro j hj p2 hp2 hp2in j2 hj2 p3 hp3 hp3in hne
    have hp2in' : inRangeP t.pool p2 := (hinr p2).mp hp2in
    have hp3in' : inRangeP t.pool p3 := (hinr p3).mp hp3in
    rcases (hmem j p2).mp hp2 with hp2t | ⟨hjk, hph⟩
    · rcases (hmem j2 p3).mp hp3 with hp3t | ⟨hjk2, hph2⟩
      · exact hD j hj p2 hp2t hp2in' j2 hj2 p3 hp3t hp3in' hne
      · rw [hjk2, hph2]
        rcases hdj j hj p2 hp2t hp2in' with hd | hd
        · left
          exact Nat.le_trans hd (Nat.le_of_lt hbwin.1)
        · right
          rw [hbend]
          exact hd
    · rcases (hmem j2 p3).mp hp3 with hp3t | ⟨hjk2, hph2⟩
      · rw [hjk, hph]
        rcases hdj j2 hj2 p3 hp3t hp3in' with hd | hd
        · right
          exact Nat.le_trans hd (Nat.le_of_lt hbwin.1)
        · left
          rw [hbend]
          exact hd
      · exfalso
        rcases hne with hne | hne
        · exact hne (hjk.trans hjk2.symm)
        · exact hne (hph.trans hph2.symm)
  · -- InvMx
    intro q hqle hqin hqp hqord hqrc
    have hqin' : inRangeP t.pool q := (hinr q).mp hqin
    have hqle' : q < t.pool.range_end / PAGE_SIZE + 1 := by
      rw [hre] at hqle; exact hqle
    by_cases hqb : q = b
    · rw [hqb, hpg_b]
      refine ⟨hd5, ?_⟩
      rw [hmem]
      exact Or.inr ⟨rfl, rfl⟩
    · rw [hpg_ne q hqp hqb] at hqord hqrc ⊢
      obtain ⟨m1, m2⟩ := hMx q hqle' hqin' hqp hqord hqrc
      refine ⟨m1, ?_⟩
      rw [hmem]
      exact Or.inl m2
  · -- InvZ
    intro j hj p2 hp2 q hq1 hq2
    rw [hbz, hnz]
    rcases (hmem j p2).mp hp2 with hp2t | ⟨hjk, hph⟩
    · obtain ⟨z1, z2⟩ := hZ j hj p2 hp2t q hq1 hq2
      obtain ⟨-, hqb⟩ := hallpb j hj p2 hp2t q hq1 hq2
      rw [if_neg hqb]
      exact ⟨z1, z2⟩
    · have hph' := hph.symm
      subst hph'
      rw [hjk] at hq2
      have hqwin : p ≤ q ∧ q < p + 2 ^ (t.pages p).order := by
        constructor
        · exact Nat.le_trans (Nat.le_of_lt hpb) hq1
        · rw [← hbend]; exact hq2
      have hf := hfl q hqwin.1 hqwin.2
      refine ⟨hf.1, fun hqb => ?_⟩
      rw [if_neg hqb]
      exact hf.2
  · -- InvXW
    intro j hj p2 hp2 hp2ext q hq1 hq2
    rcases (hmem j p2).mp hp2 with hp2t | ⟨-, hph⟩
    · have hp2ext' : ¬ inRangeP t.pool p2 := fun hc => hp2ext ((hinr p2).mpr hc)
      intro hc
      exact hXW j hj p2 hp2t hp2ext' q hq1 hq2 ((hinr q).mp hc)
    · exact absurd ((hinr p2).mpr (by rw [hph]; exact hbin)) hp2ext
  · -- ExtGroup for the halved group
    refine ⟨(hinr p).mpr hin, by rw [hpg_p]; exact hrc, ?_, ?_, ?_, ?_, ?_, ?_, ?_⟩
    · rw [hpg_p]
      show 2 ^ ((t.pages p).order - 1) ∣ p
      exact dvd_trans (pow_dvd_pow 2 (Nat.sub_le _ _)) hal
    · rw [hpg_p, hre]
      refine Nat.le_trans (Nat.mul_le_mul_right _ ?_) hcov
      show p + 2 ^ ((t.pages p).order - 1) ≤ p + 2 ^ (t.pages p).order
      exact Nat.add_le_add_left
        (Nat.pow_le_pow_right (by norm_num) (Nat.sub_le _ _)) p
    · intro j hj
      rw [hmem j p]
      rintro (hc | ⟨-, he⟩)
      · exact hunl j hj hc
      · exact hbp (he ▸ rfl)
    · intro q hq1 hq2
      rw [hpg_p] at hq2
      have hq2' : q < p + 2 ^ ((t.pages p).order - 1) := hq2
      have hqb : q ≠ b := by
        intro he; rw [he, hbf] at hq2'
        exact Nat.lt_irrefl _ hq2'
      have hqfull : q < p + 2 ^ (t.pages p).order :=
        Nat.lt_of_lt_of_le hq2' (Nat.add_le_add_left
          (Nat.pow_le_pow_right (by norm_num) (Nat.sub_le _ _)) p)
      obtain ⟨u1, u2, u3⟩ := htl q hq1 hqfull
      rw [hpg_ne q (Nat.ne_of_gt hq1) hqb]
      refine ⟨u1, u2, ?_⟩
      intro j hj
      rw [hmem j q]
      rintro (hc | ⟨-, he⟩)
      · exact u3 j hj hc
      · exact hqb he
    · intro q hq1 hq2
      rw [hpg_p] at hq2
      have hq2' : q < p + 2 ^ ((t.pages p).order - 1) := hq2
      have hqb : q ≠ b := by
        intro he; rw [he, hbf] at hq2'
        exact Nat.lt_irrefl _ hq2'
      have hqfull : q < p + 2 ^ (t.pages p).order :=
        Nat.lt_of_lt_of_le hq2' (Nat.add_le_add_left
          (Nat.pow_le_pow_right (by norm_num) (Nat.sub_le _ _)) p)
      have hf := hfl q hq1 hqfull
      rw [hbz, hnz, if_neg hqb]
      exact hf
    · intro k2 hk2 p2 hp2 hp2in
      have hp2in' : inRangeP t.pool p2 := (hinr p2).mp hp2in
      rw [hpg_p]
      rcases (hmem k2 p2).mp hp2 with hp2t | ⟨hjk, hph⟩
      · rcases hdj k2 hk2 p2 hp2t hp2in' with hd | hd
        · left; exact hd
        · right
          show p + 2 ^ ((t.pages p).order - 1) ≤ p2
          exact Nat.le_trans (Nat.add_le_add_left
            (Nat.pow_le_pow_right (by norm_num) (Nat.sub_le _ _)) p) hd
      · right
        rw [hph, hbf]
    · rw [hpg_p, pageAddToList_maxOrder, setOrder_pool, setOrder_pool]
      show (t.pages p).order - 1 ≤ t.pool.max_order
      exact Nat.le_trans (Nat.sub_le _ _) hom

theorem extractGo_sound (gas : Nat) : ∀ (t : HState) (p : Nat) (w : Nat),
    PoolInvx t p → ExtGroup t p → (t.pages p).order ≤ gas →
    PoolInvx (extractGo gas t p w).1 p ∧ ExtGroup (extractGo gas t p w).1 p ∧
    (w ≤ (t.pages p).order → ((extractGo gas t p w).1.pages p).order = w) ∧
    (∀ j, j < NR_PAGE_ORDERS → ∀ q ∈ getArea (extractGo gas t p w).1 j,
      q ∈ getArea t j ∨ (inRangeP t.pool q ∧ p ≤ q ∧
        q + 2 ^ j ≤ p + 2 ^ (t.pages p).order)) := by
  induction gas with
  | zero =>
    intro t p w hx hg hgas
    refine ⟨hx, hg, fun hw => ?_, fun j hj q hq => Or.inl hq⟩
    show (t.pages p).order = w
    omega
  | succ gas ih =>
    intro t p w hx hg hgas
    simp only [extractGo]
    by_cases hcond : w < (t.pages p).order
    · rw [if_pos hcond]
      have hd1 : 1 ≤ (t.pages p).order := by omega
      have hal' : 2 ^ ((t.pages p).order - 1 + 1) ∣ p := by
        rw [Nat.sub_add_cancel hd1]
        exact hg.2.2.1
      have hxb : p ^^^ 2 ^ ((t.pages p).order - 1) = p + 2 ^ ((t.pages p).order - 1) :=
        buddy_split _ p hal'
      have hpow1 : 0 < 2 ^ ((t.pages p).order - 1) := Nat.two_pow_pos _
      have h2d : (2:Nat) ^ (t.pages p).order
          = 2 ^ ((t.pages p).order - 1) + 2 ^ ((t.pages p).order - 1) := by
        have h := Nat.sub_add_cancel hd1
        calc (2:Nat) ^ (t.pages p).order = 2 ^ ((t.pages p).order - 1 + 1) := by rw [h]
          _ = 2 ^ ((t.pages p).order - 1) * 2 := pow_succ 2 _
          _ = _ := by ring
      have hblt : p + 2 ^ ((t.pages p).order - 1) < p + 2 ^ (t.pages p).order := by
        rw [h2d]
        exact Nat.add_lt_add_left (Nat.lt_add_of_pos_right hpow1) p
      have hbin : inRangeP t.pool (p + 2 ^ ((t.pages p).order - 1)) :=
        inRangeP_of_cover hg.1 hg.2.2.2.1 (Nat.le_add_right _ _) hblt
      have hnb : __find_buddy_nocheck t.pool p ((t.pages p).order - 1)
          = some (p + 2 ^ ((t.pages p).order - 1)) := by
        rw [nocheck_eq, hxb]
        have hbin' : addrInR t.pool ((p + 2 ^ ((t.pages p).order - 1)) * PAGE_SIZE) := hbin
        rw [if_pos hbin']
      cases hnb2 : __find_buddy_nocheck t.pool p ((t.pages p).order - 1) with
      | none =>
        rw [hnb2] at hnb
        cases hnb
      | some b =>
        have hbf : b = p + 2 ^ ((t.pages p).order - 1) := by
          rw [hnb2] at hnb
          cases hnb
          rfl
        have hbp : b ≠ p := by
          rw [hbf]
          intro he
          have := Nat.lt_add_of_pos_right hpow1 (n := p)
          rw [he] at this
          exact Nat.lt_irrefl _ this
        simp only [setOrder_pages_self, setOrder_pages_ne _ _ _ _ (Ne.symm hbp)]
        obtain ⟨hx', hg', hord', hmemb⟩ := extract_step_sound t p b w hx hg hcond hnb2
        have hgas' : ((pageAddToList (setOrder (setOrder t p ((t.pages p).order - 1)) b
            ((t.pages p).order - 1)) b ((t.pages p).order - 1)).pages p).order ≤ gas := by
          rw [hord']
          omega
        obtain ⟨r1, r2, r3, r4⟩ := ih _ p w hx' hg' hgas'
        refine ⟨r1, r2, fun hw => ?_, ?_⟩
        · refine r3 ?_
          rw [hord']
          omega
        · intro j hj q hq
          have hinrE : ∀ x, inRangeP (pageAddToList (setOrder (setOrder t p
              ((t.pages p).order - 1)) b ((t.pages p).order - 1)) b
              ((t.pages p).order - 1)).pool x ↔ inRangeP t.pool x := by
            intro x
            refine inRangeP_congr ?_ ?_ x
            · rw [pageAddToList_rangeStart, setOrder_pool, setOrder_pool]
            · rw [pageAddToList_rangeEnd, setOrder_pool, setOrder_pool]
          rcases r4 j hj q hq with hq2 | ⟨hq2, hq3, hq4⟩
          · exact hmemb j hj q hq2
          · right
            refine ⟨(hinrE q).mp hq2, hq3, ?_⟩
            rw [hord'] at hq4
            refine Nat.le_trans hq4 (Nat.add_le_add_left ?_ p)
            exact Nat.pow_le_pow_right (by norm_num) (Nat.sub_le _ _)
    · rw [if_neg hcond]
      refine ⟨hx, hg, fun hw => ?_, fun j hj q hq => Or.inl hq⟩
      show (t.pages p).order = w
      omega

theorem extractGo_noop (gas : Nat) (t : HState) (p : Nat) (w : Nat)
    (h : ¬ w < (t.pages p).order) : extractGo gas t p w = (t, p) := by
  cases gas with
  | zero => rfl
  | succ gas =>
    simp only [extractGo]
    rw [if_neg h]

theorem extractGo_stops (gas : Nat) (t : HState) (p : Nat) (w : Nat)
    (h : __find_buddy_nocheck t.pool p ((t.pages p).order - 1) = none) :
    extractGo gas t p w = (t, p) := by
  cases gas with
  | zero => rfl
  | succ gas =>
    simp only [extractGo]
    by_cases hc : w < (t.pages p).order
    · rw [if_pos hc, h]
    · rw [if_neg hc]

theorem remove_head_sound (s : HState) (p0 : Nat) (i : Nat) (lo hi : Nat)
    (hInv : PoolInv s) (hi5 : i < NR_PAGE_ORDERS) (hp0 : p0 ∈ getArea s i)
    (him : i ≤ s.pool.max_order) (hB : ListedBnd s lo hi) :
    PoolInvx (pageRemoveFromList s p0) p0 ∧
    (pageRemoveFromList s p0).pages p0 = s.pages p0 ∧
    ((pageRemoveFromList s p0).pages p0).order = i ∧
    ((pageRemoveFromList s p0).pages p0).refcount = 0 ∧
    (∀ j, j < NR_PAGE_ORDERS → p0 ∉ getArea (pageRemoveFromList s p0) j) ∧
    (∀ q, p0 ≤ q → q < p0 + 2 ^ i →
      (pageRemoveFromList s p0).bodyZero q = true ∧
      (pageRemoveFromList s p0).nodeZero q = true) ∧
    ListedBnd (pageRemoveFromList s p0) lo hi ∧
    (inRangeP s.pool p0 → ExtGroup (pageRemoveFromList s p0) p0) := by
  have hNO : HYP_NO_ORDER = 255 := rfl
  have hNR : NR_PAGE_ORDERS = 5 := rfl
  obtain ⟨hA, hL, hGi, hX, hC3, hD, hM, hZ, hXW⟩ := hInv
  obtain ⟨hA1, hA2⟩ := hA
  have hpg : ∀ q, (pageRemoveFromList s p0).pages q = s.pages q := fun q => rfl
  have harea : ∀ j, getArea (pageRemoveFromList s p0) j = (getArea s j).erase p0 :=
    fun j => getArea_remove s p0 j
  have hrs : (pageRemoveFromList s p0).pool.range_start = s.pool.range_start := rfl
  have hre : (pageRemoveFromList s p0).pool.range_end = s.pool.range_end := rfl
  have hinr : ∀ q, inRangeP (pageRemoveFromList s p0).pool q ↔ inRangeP s.pool q :=
    fun q => inRangeP_congr hrs hre q
  have hnz : ∀ q, (pageRemoveFromList s p0).nodeZero q
      = if q = p0 then true else s.nodeZero q := by
    intro q
    by_cases hq : q = p0 <;> simp [pageRemoveFromList, updFn, hq]
  have hbz : ∀ q, (pageRemoveFromList s p0).bodyZero q = s.bodyZero q := fun q => rfl
  have hmm : ∀ j, j < NR_PAGE_ORDERS → ∀ q,
      (q ∈ getArea (pageRemoveFromList s p0) j ↔ (q ≠ p0 ∧ q ∈ getArea s j)) := by
    intro j hj q
    rw [harea j]
    exact List.Nodup.mem_erase_iff ((hL j hj).2)
  have hp0L := (hL i hi5).1 p0 hp0
  have hunl' : ∀ j, j < NR_PAGE_ORDERS → p0 ∉ getArea (pageRemoveFromList s p0) j := by
    intro j hj hc
    exact absurd rfl ((hmm j hj p0).mp hc).1
  have hfl' : ∀ q, p0 ≤ q → q < p0 + 2 ^ i →
      (pageRemoveFromList s p0).bodyZero q = true ∧
      (pageRemoveFromList s p0).nodeZero q = true := by
    intro q h1 h2
    obtain ⟨z1, z2⟩ := hZ i hi5 p0 hp0 q h1 h2
    rw [hbz, hnz]
    by_cases hq : q = p0
    · rw [if_pos hq]
      exact ⟨z1, rfl⟩
    · rw [if_neg hq]
      exact ⟨z1, z2 hq⟩
  refine ⟨⟨?_, ?_, ?_, ?_, ?_, ?_, ?_, ?_, ?_⟩, rfl, hp0L.1, hp0L.2, hunl', hfl', ?_, ?_⟩
  · -- InvA
    exact ⟨by rw [pageRemoveFromList_length]; exact hA1,
      by rw [pageRemoveFromList_maxOrder]; exact hA2⟩
  · -- InvL
    intro j hj
    rw [harea j]
    refine ⟨fun q hq => ?_, ((hL j hj).2).erase p0⟩
    rw [hpg q]
    exact (hL j hj).1 q (List.mem_of_mem_erase hq)
  · -- InvG
    intro j hj p2 hp2 hp2in
    obtain ⟨-, hp2s⟩ := (hmm j hj p2).mp hp2
    obtain ⟨g1, g2, g3⟩ := hGi j hj p2 hp2s ((hinr p2).mp hp2in)
    refine ⟨g1, g2, ?_⟩
    intro q hq1 hq2
    obtain ⟨t1, t2, t3⟩ := g3 q hq1 hq2
    rw [hpg q]
    refine ⟨t1, t2, ?_⟩
    intro j2 hj2 hc
    exact t3 j2 hj2 ((hmm j2 hj2 q).mp hc).2
  · -- InvX
    intro j hj p2 hp2 hp2ext j2 hj2
    obtain ⟨-, hp2s⟩ := (hmm j hj p2).mp hp2
    exact hX j hj p2 hp2s (fun hc => hp2ext ((hinr p2).mpr hc)) j2 hj2
  · -- ClaimInv3InRange
    intro j hj hjmo p2 hp2 hp2in b2 hb2
    obtain ⟨-, hp2s⟩ := (hmm j hj p2).mp hp2
    have hb2t : __find_buddy_nocheck s.pool p2 j = some b2 := hb2
    intro hc
    exact hC3 j hj hjmo p2 hp2s ((hinr p2).mp hp2in) b2 hb2t ((hmm j hj b2).mp hc).2
  · -- InvD
    intro j hj p2 hp2 hp2in j2 hj2 p3 hp3 hp3in hne
    obtain ⟨-, hp2s⟩ := (hmm j hj p2).mp hp2
    exact hD j hj p2 hp2s ((hinr p2).mp hp2in) j2 hj2 p3 ((hmm j2 hj2 p3).mp hp3).2
      ((hinr p3).mp hp3in) hne
  · -- InvMx
    intro q hqle hqin hqp hqord hqrc
    rw [hpg q] at hqord hqrc
    obtain ⟨m1, m2⟩ := hM q hqle ((hinr q).mp hqin) hqord hqrc
    refine ⟨by rw [hpg q]; exact m1, ?_⟩
    rw [hpg q, hmm ((s.pages q).order) m1]
    exact ⟨hqp, m2⟩
  · -- InvZ
    intro j hj p2 hp2 q hq1 hq2
    obtain ⟨-, hp2s⟩ := (hmm j hj p2).mp hp2
    obtain ⟨z1, z2⟩ := hZ j hj p2 hp2s q hq1 hq2
    rw [hbz, hnz]
    refine ⟨z1, fun hqp2 => ?_⟩
    by_cases hq : q = p0
    · rw [if_pos hq]
    · rw [if_neg hq]
      exact z2 hqp2
  · -- InvXW
    intro j hj p2 hp2 hp2ext q hq1 hq2
    obtain ⟨-, hp2s⟩ := (hmm j hj p2).mp hp2
    intro hc
    exact hXW j hj p2 hp2s (fun h => hp2ext ((hinr p2).mpr h)) q hq1 hq2 ((hinr q).mp hc)
  · -- ListedBnd
    intro k hk p2 hp2 hp2in
    obtain ⟨-, hp2s⟩ := (hmm k hk p2).mp hp2
    exact hB k hk p2 hp2s ((hinr p2).mp hp2in)
  · -- ExtGroup when the head is in range
    intro hin
    obtain ⟨g1, g2, g3⟩ := hGi i hi5 p0 hp0 hin
    refine ⟨(hinr p0).mpr hin, ?_, ?_, ?_, hunl', ?_, ?_, ?_, ?_⟩
    · rw [hpg p0]; exact hp0L.2
    · rw [hpg p0, hp0L.1]; exact g1
    · rw [hpg p0, hp0L.1]; exact g2
    · intro q hq1 hq2
      rw [hpg p0, hp0L.1] at hq2
      obtain ⟨t1, t2, t3⟩ := g3 q hq2 hq1
      rw [hpg q]
      refine ⟨t1, t2, ?_⟩
      intro j hj hc
      exact t3 j hj ((hmm j hj q).mp hc).2
    · intro q hq1 hq2
      rw [hpg p0, hp0L.1] at hq2
      exact hfl' q hq1 hq2
    · intro k2 hk2 p2 hp2 hp2in
      obtain ⟨hne, hp2s⟩ := (hmm k2 hk2 p2).mp hp2
      rw [hpg p0, hp0L.1]
      have := hD k2 hk2 p2 hp2s ((hinr p2).mp hp2in) i hi5 p0 hp0 hin (Or.inr hne)
      exact this
    · rw [hpg p0, hp0L.1]
      exact him

theorem setRcOne_sound (t : HState) (p0 : Nat) (lo hi : Nat)
    (hx : PoolInvx t p0)
    (hunl : ∀ j, j < NR_PAGE_ORDERS → p0 ∉ getArea t j)
    (hnw : ∀ j, j < NR_PAGE_ORDERS → ∀ p2 ∈ getArea t j, inRangeP t.pool p2 →
      ∀ q, p2 ≤ q → q < p2 + 2 ^ j → q ≠ p0)
    (hB : ListedBnd t lo hi) :
    PoolInv (setRc t p0 1) ∧ ListedBnd (setRc t p0 1) lo hi := by
  obtain ⟨hA, hL, hGi, hX, hC3, hD, hMx, hZ, hXW⟩ := hx
  have hpool : (setRc t p0 1).pool = t.pool := setRc_pool t p0 1
  have hareas : ∀ j, getArea (setRc t p0 1) j = getArea t j :=
    fun j => setRc_getArea t p0 1 j
  have hinrd : ∀ q, inRangeP (setRc t p0 1).pool q ↔ inRangeP t.pool q :=
    fun q => inRangeP_congr (by rw [hpool]) (by rw [hpool]) q
  have hpgd : ∀ q, q ≠ p0 → (setRc t p0 1).pages q = t.pages q :=
    fun q hq => setRc_pages_ne t p0 1 q hq
  constructor
  · refine ⟨?_, ?_, ?_, ?_, ?_, ?_, ?_, ?_, ?_⟩
    · exact ⟨by rw [hpool]; exact hA.1, by rw [hpool]; exact hA.2⟩
    · -- InvL
      intro j hj
      rw [hareas j]
      refine ⟨fun q hq => ?_, (hL j hj).2⟩
      have hqp : q ≠ p0 := fun he => hunl j hj (he ▸ hq)
      rw [hpgd q hqp]
      exact (hL j hj).1 q hq
    · -- InvG
      intro j hj p2 hp2 hp2in
      rw [hareas j] at hp2
      have hp2in' : inRangeP t.pool p2 := (hinrd p2).mp hp2in
      obtain ⟨g1, g2, g3⟩ := hGi j hj p2 hp2 hp2in'
      refine ⟨g1, by rw [hpool]; exact g2, ?_⟩
      intro q hq1 hq2
      obtain ⟨t1, t2, t3⟩ := g3 q hq1 hq2
      have hqp : q ≠ p0 := hnw j hj p2 hp2 hp2in' q (Nat.le_of_lt hq2) hq1
      rw [hpgd q hqp]
      refine ⟨t1, t2, ?_⟩
      intro j2 hj2
      rw [hareas j2]
      exact t3 j2 hj2
    · -- InvX
      intro j hj p2 hp2 hp2ext j2 hj2
      rw [hareas j] at hp2
      have hp2ext' : ¬ inRangeP t.pool p2 := fun hc => hp2ext ((hinrd p2).mpr hc)
      intro hc
      refine hX j hj p2 hp2 hp2ext' j2 hj2 ?_
      unfold addrInR at hc ⊢
      rw [hpool] at hc
      exact hc
    · -- ClaimInv3InRange
      intro j hj hjmo p2 hp2 hp2in b2 hb2
      rw [hareas j] at hp2
      rw [hareas j]
      have hjmo' : j < t.pool.max_order := by rw [hpool] at hjmo; exact hjmo
      have hb2t : __find_buddy_nocheck t.pool p2 j = some b2 := by
        rw [← hb2]
        exact (nocheck_range_congr _ _ _ _ (by rw [hpool]) (by rw [hpool])).symm
      exact hC3 j hj hjmo' p2 hp2 ((hinrd p2).mp hp2in) b2 hb2t
    · -- InvD
      intro j hj p2 hp2 hp2in j2 hj2 p3 hp3 hp3in hne
      rw [hareas j] at hp2
      rw [hareas j2] at hp3
      exact hD j hj p2 hp2 ((hinrd p2).mp hp2in) j2 hj2 p3 hp3 ((hinrd p3).mp hp3in) hne
    · -- InvM
      intro q hqle hqin hqord hqrc
      have hqle' : q < t.pool.range_end / PAGE_SIZE + 1 := by
        rw [hpool] at hqle; exact hqle
      by_cases hqp : q = p0
      · rw [hqp, setRc_pages_self] at hqrc
        cases hqrc
      · rw [hpgd q hqp] at hqord hqrc ⊢
        obtain ⟨m1, m2⟩ := hMx q hqle' ((hinrd q).mp hqin) hqp hqord hqrc
        refine ⟨m1, ?_⟩
        rw [hareas]
        exact m2
    · -- InvZ
      intro j hj p2 hp2 q hq1 hq2
      rw [hareas j] at hp2
      exact hZ j hj p2 hp2 q hq1 hq2
    · -- InvXW
      intro j hj p2 hp2 hp2ext q hq1 hq2
      rw [hareas j] at hp2
      have hp2ext' : ¬ inRangeP t.pool p2 := fun hc => hp2ext ((hinrd p2).mpr hc)
      intro hc
      exact hXW j hj p2 hp2 hp2ext' q hq1 hq2 ((hinrd q).mp hc)
  · intro k hk p2 hp2 hp2in
    rw [hareas k] at hp2
    exact hB k hk p2 hp2 ((hinrd p2).mp hp2in)

theorem alloc_sound (s : HState) (w : Nat) (lo hi : Nat)
    (hInv : PoolInv s) (hB : ListedBnd s lo hi) :
    PoolInv (hyp_alloc_pages s w).2 ∧ ListedBnd (hyp_alloc_pages s w).2 lo hi ∧
    (∀ p, (hyp_alloc_pages s w).1 = some p →
      ∀ q, p ≤ q → q < p + 2 ^ w →
        (hyp_alloc_pages s w).2.bodyZero q = true ∧
        (hyp_alloc_pages s w).2.nodeZero q = true) := by
  have hNR : NR_PAGE_ORDERS = 5 := rfl
  cases hscan : scanGo s (s.pool.max_order + 1 - w) w with
  | none =>
    have heq : hyp_alloc_pages s w = (none, s) := by
      unfold hyp_alloc_pages
      rw [hscan]
    rw [heq]
    exact ⟨hInv, hB, fun p hp => by cases hp⟩
  | some i =>
    obtain ⟨hwle, himax, hnemp, -⟩ := scanGo_some s _ w i hscan
    cases harea : getArea s i with
    | nil => exact absurd harea hnemp
    | cons p0 rest =>
      have hA2 : s.pool.max_order < NR_PAGE_ORDERS := hInv.1.2
      have hXs : InvX s := hInv.2.2.2.1
      have hi5 : i < NR_PAGE_ORDERS := by omega
      have hp0mem : p0 ∈ getArea s i := by
        rw [harea]
        exact List.mem_cons_self p0 rest
      obtain ⟨hx1, hpg0, hord0, hrc0, hunl1, hfl1, hB1, hext1⟩ :=
        remove_head_sound s p0 i lo hi hInv hi5 hp0mem himax hB
      rw [alloc_eq_some s w i p0 rest hscan harea]
      rw [hyp_extract_snd]
      have hE : __hyp_extract_page s p0 w
          = extractGo (((pageRemoveFromList s p0).pages p0).order)
              (pageRemoveFromList s p0) p0 w := rfl
      by_cases hin : inRangeP s.pool p0
      · -- in-range head: full splitting down to the requested order
        obtain ⟨rx, rg, rww, rmemb⟩ :=
          extractGo_sound (((pageRemoveFromList s p0).pages p0).order)
            (pageRemoveFromList s p0) p0 w hx1 (hext1 hin) le_rfl
        obtain ⟨rin, rrc, ral, rcov, runl, rtl, rflags, rdj, rom⟩ := rg
        have hword : (((extractGo (((pageRemoveFromList s p0).pages p0).order)
            (pageRemoveFromList s p0) p0 w).1).pages p0).order = w :=
          rww (by rw [hord0]; exact hwle)
        have hbnd0 := hB i hi5 p0 hp0mem hin
        have hnw : ∀ j, j < NR_PAGE_ORDERS →
            ∀ p2 ∈ getArea (extractGo (((pageRemoveFromList s p0).pages p0).order)
              (pageRemoveFromList s p0) p0 w).1 j,
            inRangeP (extractGo (((pageRemoveFromList s p0).pages p0).order)
              (pageRemoveFromList s p0) p0 w).1.pool p2 →
            ∀ q, p2 ≤ q → q < p2 + 2 ^ j → q ≠ p0 := by
          intro j hj p2 hp2 hp2in q h1 h2 he
          rcases rdj j hj p2 hp2 hp2in with hd | hd
          · rw [he] at h2
            exact Nat.lt_irrefl _ (Nat.lt_of_lt_of_le h2 hd)
          · rw [he] at h1
            exact Nat.lt_irrefl _ (Nat.lt_of_lt_of_le
              (Nat.lt_of_lt_of_le (Nat.lt_add_of_pos_right (Nat.two_pow_pos _)) hd) h1)
        have hBR : ListedBnd (extractGo (((pageRemoveFromList s p0).pages p0).order)
            (pageRemoveFromList s p0) p0 w).1 lo hi := by
          intro k hk p2 hp2 hp2in
          rcases rmemb k hk p2 hp2 with hold | ⟨-, hq3, hq4⟩
          · refine hB1 k hk p2 hold ?_
            refine (inRangeP_congr ?_ ?_ p2).mp hp2in
            · rw [(extractGo_pool _ _ _ _).2.1]
            · rw [(extractGo_pool _ _ _ _).2.2.1]
          · rw [hord0] at hq4
            constructor
            · exact Nat.le_trans hbnd0.1 hq3
            · exact Nat.le_trans hq4 hbnd0.2
        obtain ⟨hPf, hBf⟩ := setRcOne_sound
          (extractGo (((pageRemoveFromList s p0).pages p0).order)
            (pageRemoveFromList s p0) p0 w).1 p0 lo hi rx runl hnw hBR
        rw [hE]
        simp only [hyp_set_page_refcounted]
        refine ⟨?_, ?_, ?_⟩
        · rw [poolInv_setFp]
          exact hPf
        · rw [listedBnd_setFp]
          exact hBf
        · intro p hp
          cases hp
          intro q hq1 hq2
          have hq2' : q < p0 + 2 ^ (((extractGo (((pageRemoveFromList s p0).pages
              p0).order) (pageRemoveFromList s p0) p0 w).1).pages p0).order := by
            rw [hword]
            exact hq2
          exact rflags q hq1 hq2'
      · -- external head: the split loop stops at once and the page keeps its order
        have hstop : extractGo (((pageRemoveFromList s p0).pages p0).order)
            (pageRemoveFromList s p0) p0 w = (pageRemoveFromList s p0, p0) := by
          by_cases hc : w < ((pageRemoveFromList s p0).pages p0).order
          · apply extractGo_stops
            have hi1 : 1 ≤ i := by
              rw [hord0] at hc
              omega
            have hnc : __find_buddy_nocheck s.pool p0 (i - 1) = none := by
              rw [nocheck_eq, if_neg]
              have := hXs i hi5 p0 hp0mem hin (i - 1) (by omega)
              rw [buddyAddr_frame] at this
              exact this
            rw [hord0]
            rw [← hnc]
            exact nocheck_range_congr _ _ _ _ rfl rfl
          · exact extractGo_noop _ _ _ _ hc
        have hnw : ∀ j, j < NR_PAGE_ORDERS →
            ∀ p2 ∈ getArea (pageRemoveFromList s p0) j,
            inRangeP (pageRemoveFromList s p0).pool p2 →
            ∀ q, p2 ≤ q → q < p2 + 2 ^ j → q ≠ p0 := by
          intro j hj p2 hp2 hp2in q h1 h2 he
          obtain ⟨-, -, hG1, -⟩ := hx1
          obtain ⟨-, g2, -⟩ := hG1 j hj p2 hp2 hp2in
          have hq : inRangeP (pageRemoveFromList s p0).pool q :=
            inRangeP_of_cover hp2in g2 h1 h2
          rw [he] at hq
          exact hin ((inRangeP_congr rfl rfl p0).mp hq)
        obtain ⟨hPf, hBf⟩ := setRcOne_sound (pageRemoveFromList s p0) p0 lo hi
          hx1 hunl1 hnw hB1
        rw [hE, hstop]
        simp only [hyp_set_page_refcounted]
        refine ⟨?_, ?_, ?_⟩
        · rw [poolInv_setFp]
          exact hPf
        · rw [listedBnd_setFp]
          exact hBf
        · intro p hp
          cases hp
          intro q hq1 hq2
          refine hfl1 q hq1 ?_
          refine Nat.lt_of_lt_of_le hq2 (Nat.add_le_add_left ?_ p0)
          exact Nat.pow_le_pow_right (by norm_num) hwle

theorem splitFold_pages (p : Nat) : ∀ (n a : Nat) (t : HState) (q : Nat),
    ((List.range' a n).foldl
      (fun s i => hyp_set_page_refcounted (setOrder s (p + i) 0) (p + i)) t).pages q
    = if p + a ≤ q ∧ q < p + a + n then { t.pages q with order := 0, refcount := 1 }
      else t.pages q := by
  intro n
  induction n with
  | zero =>
    intro a t q
    rw [if_neg]
    · rfl
    · omega
  | succ n ih =>
    intro a t q
    rw [List.range'_succ]
    simp only [List.foldl_cons]
    rw [ih (a + 1) _ q]
    unfold hyp_set_page_refcounted
    by_cases hinner : p + (a + 1) ≤ q ∧ q < p + (a + 1) + n
    · rw [if_pos hinner, if_pos (show p + a ≤ q ∧ q < p + a + (n + 1) by omega)]
    · rw [if_neg hinner]
      by_cases hqa : q = p + a
      · rw [if_pos (show p + a ≤ q ∧ q < p + a + (n + 1) by omega)]
        rw [hqa, setRc_pages_self, setOrder_pages_self]
      · rw [if_neg (show ¬ (p + a ≤ q ∧ q < p + a + (n + 1)) by omega)]
        rw [setRc_pages_ne _ _ _ _ hqa, setOrder_pages_ne _ _ _ _ hqa]

theorem splitFold_rest (p : Nat) : ∀ (n a : Nat) (t : HState),
    ((List.range' a n).foldl
      (fun s i => hyp_set_page_refcounted (setOrder s (p + i) 0) (p + i)) t).pool = t.pool ∧
    ((List.range' a n).foldl
      (fun s i => hyp_set_page_refcounted (setOrder s (p + i) 0) (p + i)) t).nodeZero
      = t.nodeZero ∧
    ((List.range' a n).foldl
      (fun s i => hyp_set_page_refcounted (setOrder s (p + i) 0) (p + i)) t).bodyZero
      = t.bodyZero := by
  intro n
  induction n with
  | zero => intro a t; exact ⟨rfl, rfl, rfl⟩
  | succ n ih =>
    intro a t
    rw [List.range'_succ]
    simp only [List.foldl_cons]
    obtain ⟨h1, h2, h3⟩ := ih (a + 1) (hyp_set_page_refcounted (setOrder t (p + a) 0) (p + a))
    exact ⟨h1, h2, h3⟩

theorem split_pages (s : HState) (p : Nat) (q : Nat) :
    (hyp_split_page s p).pages q
    = if q = p then { s.pages p with order := 0 }
      else if p ≤ q ∧ q < p + 2 ^ (s.pages p).order then
        { s.pages q with order := 0, refcount := 1 }
      else s.pages q := by
  unfold hyp_split_page
  dsimp only
  rw [splitFold_pages p ((1 <<< (s.pages p).order) - 1) 1 (setOrder s p 0) q]
  rw [Nat.one_shiftLeft]
  have hpow1 : 0 < 2 ^ (s.pages p).order := Nat.two_pow_pos _
  by_cases hqp : q = p
  · rw [if_pos hqp,
      if_neg (show ¬ (p + 1 ≤ q ∧ q < p + 1 + (2 ^ (s.pages p).order - 1)) by omega)]
    rw [hqp, setOrder_pages_self]
  · rw [if_neg hqp]
    by_cases hw : p ≤ q ∧ q < p + 2 ^ (s.pages p).order
    · rw [if_pos (show p + 1 ≤ q ∧ q < p + 1 + (2 ^ (s.pages p).order - 1) by omega),
        if_pos hw]
    · rw [if_neg (show ¬ (p + 1 ≤ q ∧ q < p + 1 + (2 ^ (s.pages p).order - 1)) by omega),
        if_neg hw]
      rw [setOrder_pages_ne _ _ _ _ hqp]

theorem split_rest (s : HState) (p : Nat) :
    (hyp_split_page s p).pool = s.pool ∧
    (hyp_split_page s p).nodeZero = s.nodeZero ∧
    (hyp_split_page s p).bodyZero = s.bodyZero := by
  unfold hyp_split_page
  dsimp only
  obtain ⟨h1, h2, h3⟩ := splitFold_rest p ((1 <<< (s.pages p).order) - 1) 1 (setOrder s p 0)
  exact ⟨h1, h2, h3⟩

theorem split_sound (s : HState) (p : Nat) (lo hi : Nat)
    (hInv : PoolInv s) (hSC : SplitContract s p) (hB : ListedBnd s lo hi) :
    PoolInv (hyp_split_page s p) ∧ ListedBnd (hyp_split_page s p) lo hi := by
  obtain ⟨hA, hL, hGi, hX, hC3, hD, hM, hZ, hXW⟩ := hInv
  obtain ⟨hrc1, hun, hdj⟩ := hSC
  obtain ⟨hpool, hnzS, hbzS⟩ := split_rest s p
  have hareas : ∀ j, getArea (hyp_split_page s p) j = getArea s j := by
    intro j
    unfold getArea
    rw [hpool]
  have hinrd : ∀ q, inRangeP (hyp_split_page s p).pool q ↔ inRangeP s.pool q :=
    fun q => inRangeP_congr (by rw [hpool]) (by rw [hpool]) q
  have hpow1 : 0 < 2 ^ (s.pages p).order := Nat.two_pow_pos _
  have hpg_out : ∀ q, ¬ (p ≤ q ∧ q < p + 2 ^ (s.pages p).order) →
      (hyp_split_page s p).pages q = s.pages q := by
    intro q hq
    rw [split_pages]
    rw [if_neg (fun he => hq (by
      rw [he]
      exact ⟨le_rfl, Nat.lt_add_of_pos_right hpow1⟩)), if_neg hq]
  -- listed entries are outside the split window
  have hmemout : ∀ j, j < NR_PAGE_ORDERS → ∀ q ∈ getArea s j,
      ¬ (p ≤ q ∧ q < p + 2 ^ (s.pages p).order) := by
    intro j hj q hq hw
    exact (hun q hw.1 hw.2).1 j hj hq
  -- frames of in-range listed windows are outside the split window
  have htailout : ∀ j, j < NR_PAGE_ORDERS → ∀ p2 ∈ getArea s j, inRangeP s.pool p2 →
      ∀ q, p2 ≤ q → q < p2 + 2 ^ j → ¬ (p ≤ q ∧ q < p + 2 ^ (s.pages p).order) := by
    intro j hj p2 hp2 hp2in q h1 h2 hw
    rcases hdj j hj p2 hp2 hp2in with hd | hd
    · exact Nat.lt_irrefl _ (Nat.lt_of_lt_of_le h2 (Nat.le_trans hd hw.1))
    · exact Nat.lt_irrefl _ (Nat.lt_of_lt_of_le hw.2 (Nat.le_trans hd h1))
  constructor
  · refine ⟨?_, ?_, ?_, ?_, ?_, ?_, ?_, ?_, ?_⟩
    · exact ⟨by rw [hpool]; exact hA.1, by rw [hpool]; exact hA.2⟩
    · -- InvL
      intro j hj
      rw [hareas j]
      refine ⟨fun q hq => ?_, (hL j hj).2⟩
      rw [hpg_out q (hmemout j hj q hq)]
      exact (hL j hj).1 q hq
    · -- InvG
      intro j hj p2 hp2 hp2in
      rw [hareas j] at hp2
      have hp2in' : inRangeP s.pool p2 := (hinrd p2).mp hp2in
      obtain ⟨g1, g2, g3⟩ := hGi j hj p2 hp2 hp2in'
      refine ⟨g1, by rw [hpool]; exact g2, ?_⟩
      intro q hq1 hq2
      obtain ⟨t1, t2, t3⟩ := g3 q hq1 hq2
      rw [hpg_out q (htailout j hj p2 hp2 hp2in' q (Nat.le_of_lt hq2) hq1)]
      refine ⟨t1, t2, ?_⟩
      intro j2 hj2
      rw [hareas j2]
      exact t3 j2 hj2
    · -- InvX
      intro j hj p2 hp2 hp2ext j2 hj2
      rw [hareas j] at hp2
      have hp2ext' : ¬ inRangeP s.pool p2 := fun hc => hp2ext ((hinrd p2).mpr hc)
      intro hc
      refine hX j hj p2 hp2 hp2ext' j2 hj2 ?_
      unfold addrInR at hc ⊢
      rw [hpool] at hc
      exact hc
    · -- ClaimInv3InRange
      intro j hj hjmo p2 hp2 hp2in b2 hb2
      rw [hareas j] at hp2
      rw [hareas j]
      have hjmo' : j < s.pool.max_order := by rw [hpool] at hjmo; exact hjmo
      have hb2t : __find_buddy_nocheck s.pool p2 j = some b2 := by
        rw [← hb2]
        exact (nocheck_range_congr _ _ _ _ (by rw [hpool]) (by rw [hpool])).symm
      exact hC3 j hj hjmo' p2 hp2 ((hinrd p2).mp hp2in) b2 hb2t
    · -- InvD
      intro j hj p2 hp2 hp2in j2 hj2 p3 hp3 hp3in hne
      rw [hareas j] at hp2
      rw [hareas j2] at hp3
      exact hD j hj p2 hp2 ((hinrd p2).mp hp2in) j2 hj2 p3 hp3 ((hinrd p3).mp hp3in) hne
    · -- InvM
      intro q hqle hqin hqord hqrc
      have hqle' : q < s.pool.range_end / PAGE_SIZE + 1 := by
        rw [hpool] at hqle; exact hqle
      by_cases hw : p ≤ q ∧ q < p + 2 ^ (s.pages p).order
      · exfalso
        rw [split_pages] at hqrc
        by_cases hqp : q = p
        · rw [if_pos hqp] at hqrc
          have : (s.pages p).refcount = 0 := hqrc
          omega
        · rw [if_neg hqp, if_pos hw] at hqrc
          cases hqrc
      · rw [hpg_out q hw] at hqord hqrc ⊢
        obtain ⟨m1, m2⟩ := hM q hqle' ((hinrd q).mp hqin) hqord hqrc
        refine ⟨m1, ?_⟩
        rw [hareas]
        exact m2
    · -- InvZ
      intro j hj p2 hp2 q hq1 hq2
      rw [hareas j] at hp2
      rw [hnzS, hbzS]
      exact hZ j hj p2 hp2 q hq1 hq2
    · -- InvXW
      intro j hj p2 hp2 hp2ext q hq1 hq2
      rw [hareas j] at hp2
      have hp2ext' : ¬ inRangeP s.pool p2 := fun hc => hp2ext ((hinrd p2).mpr hc)
      intro hc
      exact hXW j hj p2 hp2 hp2ext' q hq1 hq2 ((hinrd q).mp hc)
  · intro k hk p2 hp2 hp2in
    rw [hareas k] at hp2
    exact hB k hk p2 hp2 ((hinrd p2).mp hp2in)

theorem listedBnd_mono (s : HState) (lo hi hi' : Nat) (h : ListedBnd s lo hi)
    (hh : hi ≤ hi') : ListedBnd s lo hi' := by
  intro k hk p hp hin
  exact ⟨(h k hk p hp hin).1, le_trans (h k hk p hp hin).2 hh⟩

theorem listedBnd_univ (s : HState) (hInv : PoolInv s) :
    ListedBnd s 0 (s.pool.range_end / PAGE_SIZE) := by
  intro k hk p2 hp2 hin
  obtain ⟨-, g2, -⟩ := hInv.2.2.1 k hk p2 hp2 hin
  refine ⟨Nat.zero_le _, ?_⟩
  exact (Nat.le_div_iff_mul_le (by norm_num [PAGE_SIZE])).mpr g2

theorem attach_pool (s : HState) (p : Nat) :
    (__hyp_attach_page s p).pool.range_start = s.pool.range_start ∧
    (__hyp_attach_page s p).pool.range_end = s.pool.range_end ∧
    (__hyp_attach_page s p).pool.max_order = s.pool.max_order := by
  by_cases hc : p * PAGE_SIZE < s.pool.range_start ∨ s.pool.range_end ≤ p * PAGE_SIZE
  · rw [(attach_external_eq s p hc).1]
    exact ⟨rfl, rfl, rfl⟩
  · rw [(attach_inrange_eq s p hc).1]
    obtain ⟨c1, c2, c3, -, -⟩ := coalesceGo_pool (s.pool.max_order + 1 - (s.pages p).order)
      (setOrder (memsetGroup s p ((s.pages p).order)) p HYP_NO_ORDER) p ((s.pages p).order)
    refine ⟨?_, ?_, ?_⟩
    · rw [pageAddToList_rangeStart, setOrder_pool, c2]
      rfl
    · rw [pageAddToList_rangeEnd, setOrder_pool, c3]
      rfl
    · rw [pageAddToList_maxOrder, setOrder_pool, c1]
      rfl

theorem put_pool (s : HState) (p : Nat) :
    (__hyp_put_page s p).pool.range_start = s.pool.range_start ∧
    (__hyp_put_page s p).pool.range_end = s.pool.range_end ∧
    (__hyp_put_page s p).pool.max_order = s.pool.max_order := by
  by_cases h0 : (s.pages p).refcount ≤ 1
  · have hput : __hyp_put_page s p =
        setFp (__hyp_attach_page (setRc s p 0) p)
          ((__hyp_attach_page (setRc s p 0) p).pool.free_pages +
            2 ^ (((__hyp_attach_page (setRc s p 0) p).pages p).order)) := by
      unfold __hyp_put_page
      dsimp only
      rw [show (s.pages p).refcount - 1 = 0 by omega]
      norm_num
    rw [hput]
    obtain ⟨a1, a2, a3⟩ := attach_pool (setRc s p 0) p
    refine ⟨?_, ?_, ?_⟩
    · show (__hyp_attach_page (setRc s p 0) p).pool.range_start = s.pool.range_start
      rw [a1, setRc_pool]
    · show (__hyp_attach_page (setRc s p 0) p).pool.range_end = s.pool.range_end
      rw [a2, setRc_pool]
    · show (__hyp_attach_page (setRc s p 0) p).pool.max_order = s.pool.max_order
      rw [a3, setRc_pool]
  · rw [put_eq_dec s p (by omega) (by omega)]
    exact ⟨rfl, rfl, rfl⟩

theorem rcFold_pages (p : Nat) : ∀ (n a : Nat) (t : HState) (q : Nat),
    ((List.range' a n).foldl (fun s i => hyp_set_page_refcounted s (p + i)) t).pages q
    = if p + a ≤ q ∧ q < p + a + n then { t.pages q with refcount := 1 }
      else t.pages q := by
  intro n
  induction n with
  | zero =>
    intro a t q
    rw [if_neg]
    · rfl
    · omega
  | succ n ih =>
    intro a t q
    rw [List.range'_succ]
    simp only [List.foldl_cons]
    rw [ih (a + 1) _ q]
    unfold hyp_set_page_refcounted
    by_cases hinner : p + (a + 1) ≤ q ∧ q < p + (a + 1) + n
    · rw [if_pos hinner, if_pos (show p + a ≤ q ∧ q < p + a + (n + 1) by omega)]
      rw [setRc_pages_ne _ _ _ _ (show q ≠ p + a by omega)]
    · rw [if_neg hinner]
      by_cases hqa : q = p + a
      · rw [if_pos (show p + a ≤ q ∧ q < p + a + (n + 1) by omega)]
        rw [hqa, setRc_pages_self]
      · rw [if_neg (show ¬ (p + a ≤ q ∧ q < p + a + (n + 1)) by omega)]
        rw [setRc_pages_ne _ _ _ _ hqa]

theorem rcFold_rest (p : Nat) : ∀ (n a : Nat) (t : HState),
    ((List.range' a n).foldl (fun s i => hyp_set_page_refcounted s (p + i)) t).pool
      = t.pool ∧
    ((List.range' a n).foldl (fun s i => hyp_set_page_refcounted s (p + i)) t).nodeZero
      = t.nodeZero ∧
    ((List.range' a n).foldl (fun s i => hyp_set_page_refcounted s (p + i)) t).bodyZero
      = t.bodyZero := by
  intro n
  induction n with
  | zero => intro a t; exact ⟨rfl, rfl, rfl⟩
  | succ n ih =>
    intro a t
    rw [List.range'_succ]
    simp only [List.foldl_cons]
    obtain ⟨h1, h2, h3⟩ := ih (a + 1) (hyp_set_page_refcounted t (p + a))
    exact ⟨h1, h2, h3⟩

theorem initAreas_length (old : List (List Nat)) (mo : Nat) :
    (initAreas old mo).length = NR_PAGE_ORDERS := by
  unfold initAreas
  rw [List.length_map, List.length_range]

theorem initAreas_getD (old : List (List Nat)) (mo j : Nat) (hj : j < NR_PAGE_ORDERS) :
    (initAreas old mo).getD j [] = if j ≤ mo then [] else old.getD j [] := by
  unfold initAreas
  have hNR : NR_PAGE_ORDERS = 5 := rfl
  rw [hNR] at hj
  interval_cases j <;> rfl

theorem all_empty_inv (t : HState)
    (hlen : t.pool.free_area.length = NR_PAGE_ORDERS)
    (hmo : t.pool.max_order < NR_PAGE_ORDERS)
    (hareas : ∀ j, j < NR_PAGE_ORDERS → getArea t j = [])
    (hM : InvM t) : PoolInv t := by
  refine ⟨⟨hlen, hmo⟩, ?_, ?_, ?_, ?_, ?_, hM, ?_, ?_⟩
  · intro j hj
    rw [hareas j hj]
    exact ⟨fun q hq => absurd hq (List.not_mem_nil q), List.nodup_nil⟩
  · intro j hj p2 hp2
    rw [hareas j hj] at hp2
    exact absurd hp2 (List.not_mem_nil p2)
  · intro j hj p2 hp2
    rw [hareas j hj] at hp2
    exact absurd hp2 (List.not_mem_nil p2)
  · intro j hj hjmo p2 hp2
    rw [hareas j hj] at hp2
    exact absurd hp2 (List.not_mem_nil p2)
  · intro j hj p2 hp2
    rw [hareas j hj] at hp2
    exact absurd hp2 (List.not_mem_nil p2)
  · intro j hj p2 hp2
    rw [hareas j hj] at hp2
    exact absurd hp2 (List.not_mem_nil p2)
  · intro j hj p2 hp2
    rw [hareas j hj] at hp2
    exact absurd hp2 (List.not_mem_nil p2)

theorem pre_put_inv (t : HState) (pfn nr : Nat)
    (hlen : t.pool.free_area.length = NR_PAGE_ORDERS)
    (hmo : t.pool.max_order < NR_PAGE_ORDERS)
    (hareas : ∀ j, j < NR_PAGE_ORDERS → getArea t j = [])
    (hpages : ∀ q, pfn ≤ q → q < pfn + nr → (t.pages q).refcount = 1)
    (hrs : t.pool.range_start = pfn * PAGE_SIZE)
    (hre : t.pool.range_end = pfn * PAGE_SIZE + nr * PAGE_SIZE) :
    PoolInv t := by
  have hPS : (0:Nat) < PAGE_SIZE := by norm_num [PAGE_SIZE]
  refine all_empty_inv t hlen hmo hareas ?_
  intro q hqle hqin hqord hqrc
  exfalso
  obtain ⟨i1, i2⟩ := hqin
  rw [hrs] at i1
  rw [hre, ← Nat.add_mul] at i2
  have h1 : pfn ≤ q := Nat.le_of_mul_le_mul_right i1 hPS
  have h2 : q < pfn + nr := Nat.lt_of_mul_lt_mul_right i2
  have := hpages q h1 h2
  omega

theorem putFold_sound (pfn lo : Nat) : ∀ (n a : Nat) (t : HState),
    PoolInv t →
    ListedBnd t lo (pfn + a) →
    lo ≤ pfn + a →
    (∀ q, pfn + a ≤ q → q < pfn + a + n → t.pages q = { refcount := 1, order := 0 }) →
    t.pool.range_start ≤ (pfn + a) * PAGE_SIZE →
    (pfn + a + n) * PAGE_SIZE ≤ t.pool.range_end →
    PoolInv ((List.range' a n).foldl (fun s i => __hyp_put_page s (pfn + i)) t) ∧
    ListedBnd ((List.range' a n).foldl (fun s i => __hyp_put_page s (pfn + i)) t)
      lo (pfn + a + n) ∧
    ((List.range' a n).foldl (fun s i => __hyp_put_page s (pfn + i)) t).pool.range_start
      = t.pool.range_start ∧
    ((List.range' a n).foldl (fun s i => __hyp_put_page s (pfn + i)) t).pool.range_end
      = t.pool.range_end ∧
    ((List.range' a n).foldl (fun s i => __hyp_put_page s (pfn + i)) t).pool.max_order
      = t.pool.max_order := by
  intro n
  induction n with
  | zero =>
    intro a t hInv hB hlo hup hrs hcov
    exact ⟨hInv, by rw [Nat.add_zero]; exact hB, rfl, rfl, rfl⟩
  | succ n ih =>
    intro a t hInv hB hlo hup hrs hcov
    rw [List.range'_succ]
    simp only [List.foldl_cons]
    have hPS : (0:Nat) < PAGE_SIZE := by norm_num [PAGE_SIZE]
    have hpp : t.pages (pfn + a) = { refcount := 1, order := 0 } :=
      hup _ le_rfl (by omega)
    have hrc1 : (t.pages (pfn + a)).refcount = 1 := by rw [hpp]
    have hord0 : (t.pages (pfn + a)).order = 0 := by rw [hpp]
    have hinP : inRangeP t.pool (pfn + a) := by
      refine ⟨hrs, ?_⟩
      have h1 : (pfn + a + 1) * PAGE_SIZE ≤ t.pool.range_end :=
        le_trans (mul_le_mul_right' (by omega) PAGE_SIZE) hcov
      have h2 : (pfn + a) * PAGE_SIZE < (pfn + a + 1) * PAGE_SIZE :=
        mul_lt_mul_of_pos_right (by omega) hPS
      omega
    have hunlisted : ∀ j, j < NR_PAGE_ORDERS → pfn + a ∉ getArea t j := by
      intro j hj hmem
      have hb := hB j hj _ hmem hinP
      have := Nat.two_pow_pos j
      omega
    have hXW := hInv.2.2.2.2.2.2.2.2
    have hPC : PutContract t (pfn + a) := by
      refine ⟨by omega, fun h => ⟨?_, hunlisted, ?_, ?_, ?_, ?_⟩⟩
      · rw [hord0]
        exact Nat.zero_le _
      · intro q hq1 hq2
        exfalso
        rw [hord0] at hq2
        have : (2:Nat) ^ 0 = 1 := pow_zero 2
        omega
      · intro hin2
        constructor
        · rw [hord0, pow_zero]
          exact one_dvd _
        · rw [hord0, pow_zero]
          exact le_trans (mul_le_mul_right' (by omega) PAGE_SIZE) hcov
      · intro hext
        exact absurd hinP hext
      · intro k hk h2 hh2
        by_cases hhin : inRangeP t.pool h2
        · left
          exact (hB k hk h2 hh2 hhin).2
        · by_cases hcase : h2 + 2 ^ k ≤ pfn + a
          · left
            exact hcase
          · right
            rw [hord0, pow_zero]
            by_contra hcon
            push_neg at hcon
            have hle : h2 ≤ pfn + a := by omega
            have hlt : pfn + a < h2 + 2 ^ k := by omega
            exact absurd hinP (hXW k hk h2 hh2 hhin (pfn + a) hlt hle)
    have hB' : ListedBnd t lo (pfn + a + 1) := listedBnd_mono t lo _ _ hB (by omega)
    obtain ⟨p1, p2, p3⟩ := put_sound t (pfn + a) lo (pfn + a + 1) hInv hPC hB'
      (fun _ _ => ⟨hlo, by rw [hord0]; norm_num⟩)
    obtain ⟨q1, q2, q3⟩ := put_pool t (pfn + a)
    have hup' : ∀ q, pfn + (a + 1) ≤ q → q < pfn + (a + 1) + n →
        (__hyp_put_page t (pfn + a)).pages q = { refcount := 1, order := 0 } := by
      intro q h1 h2
      rw [p3 q (by omega) (Or.inr (by omega))]
      exact hup q (by omega) (by omega)
    obtain ⟨w1, w2, w3, w4, w5⟩ := ih (a + 1) (__hyp_put_page t (pfn + a)) p1
      (by
        have he : pfn + (a + 1) = pfn + a + 1 := by omega
        rw [he]
        exact p2)
      (by omega)
      hup'
      (by
        rw [q1]
        exact le_trans hrs (mul_le_mul_right' (by omega) PAGE_SIZE))
      (by
        rw [q2]
        exact le_trans
          (mul_le_mul_right' (show pfn + (a + 1) + n ≤ pfn + a + (n + 1) by omega)
            PAGE_SIZE) hcov)
    refine ⟨w1, ?_, w3.trans q1, w4.trans q2, w5.trans q3⟩
    have he : pfn + (a + 1) + n = pfn + a + (n + 1) := by omega
    rw [← he]
    exact w2

theorem shiftLeft_pageShift (nr : Nat) : nr <<< PAGE_SHIFT = nr * PAGE_SIZE := by
  rw [Nat.shiftLeft_eq]
  norm_num [PAGE_SHIFT, PAGE_SIZE]

theorem pool_init_sound (s : HState) (pfn nr res : Nat)
    (hres : res ≤ nr)
    (hfresh : ∀ q, s.pages q = { refcount := 0, order := 0 })
    (hempty : ∀ i, s.pool.free_area.getD i [] = []) :
    PoolInv (hyp_pool_init s pfn nr res) ∧
    ListedBnd (hyp_pool_init s pfn nr res) (pfn + res) (pfn + nr) := by
  have hPS : (0:Nat) < PAGE_SIZE := by norm_num [PAGE_SIZE]
  have hmo4 : min MAX_ORDER (get_order (nr <<< PAGE_SHIFT)) < NR_PAGE_ORDERS := by
    have := Nat.min_le_left MAX_ORDER (get_order (nr <<< PAGE_SHIFT))
    have hM4 : MAX_ORDER = 4 := rfl
    have hN5 : NR_PAGE_ORDERS = 5 := rfl
    omega
  have heq : hyp_pool_init s pfn nr res =
      (List.range' res (nr - res)).foldl (fun u i => __hyp_put_page u (pfn + i))
        ((List.range nr).foldl (fun u i => hyp_set_page_refcounted u (pfn + i))
          { s with pool := { s.pool with
              max_order := min MAX_ORDER (get_order (nr <<< PAGE_SHIFT))
              free_area := initAreas s.pool.free_area
                (min MAX_ORDER (get_order (nr <<< PAGE_SHIFT)))
              range_start := pfn * PAGE_SIZE
              range_end := pfn * PAGE_SIZE + (nr <<< PAGE_SHIFT) } }) := rfl
  rw [heq]
  obtain ⟨hfd1, -, -⟩ := rcFold_rest pfn nr 0
    { s with pool := { s.pool with
        max_order := min MAX_ORDER (get_order (nr <<< PAGE_SHIFT))
        free_area := initAreas s.pool.free_area
          (min MAX_ORDER (get_order (nr <<< PAGE_SHIFT)))
        range_start := pfn * PAGE_SIZE
        range_end := pfn * PAGE_SIZE + (nr <<< PAGE_SHIFT) } }
  have hpool3 : ((List.range nr).foldl (fun u i => hyp_set_page_refcounted u (pfn + i))
      { s with pool := { s.pool with
          max_order := min MAX_ORDER (get_order (nr <<< PAGE_SHIFT))
          free_area := initAreas s.pool.free_area
            (min MAX_ORDER (get_order (nr <<< PAGE_SHIFT)))
          range_start := pfn * PAGE_SIZE
          range_end := pfn * PAGE_SIZE + (nr <<< PAGE_SHIFT) } }).pool
      = { s.pool with
          max_order := min MAX_ORDER (get_order (nr <<< PAGE_SHIFT))
          free_area := initAreas s.pool.free_area
            (min MAX_ORDER (get_order (nr <<< PAGE_SHIFT)))
          range_start := pfn * PAGE_SIZE
          range_end := pfn * PAGE_SIZE + (nr <<< PAGE_SHIFT) } := by
    rw [List.range_eq_range']
    exact hfd1
  have hpg3 : ∀ q, ((List.range nr).foldl (fun u i => hyp_set_page_refcounted u (pfn + i))
      { s with pool := { s.pool with
          max_order := min MAX_ORDER (get_order (nr <<< PAGE_SHIFT))
          free_area := initAreas s.pool.free_area
            (min MAX_ORDER (get_order (nr <<< PAGE_SHIFT)))
          range_start := pfn * PAGE_SIZE
          range_end := pfn * PAGE_SIZE + (nr <<< PAGE_SHIFT) } }).pages q
      = if pfn ≤ q ∧ q < pfn + nr then { refcount := 1, order := 0 }
        else { refcount := 0, order := 0 } := by
    intro q
    rw [List.range_eq_range', rcFold_pages pfn nr 0 _ q]
    by_cases hw : pfn ≤ q ∧ q < pfn + nr
    · rw [if_pos (show pfn + 0 ≤ q ∧ q < pfn + 0 + nr by omega), if_pos hw]
      show { s.pages q with refcount := 1 } = _
      rw [hfresh q]
    · rw [if_neg (show ¬ (pfn + 0 ≤ q ∧ q < pfn + 0 + nr) by omega), if_neg hw]
      exact hfresh q
  have hareas3 : ∀ j, j < NR_PAGE_ORDERS →
      getArea ((List.range nr).foldl (fun u i => hyp_set_page_refcounted u (pfn + i))
        { s with pool := { s.pool with
            max_order := min MAX_ORDER (get_order (nr <<< PAGE_SHIFT))
            free_area := initAreas s.pool.free_area
              (min MAX_ORDER (get_order (nr <<< PAGE_SHIFT)))
            range_start := pfn * PAGE_SIZE
            range_end := pfn * PAGE_SIZE + (nr <<< PAGE_SHIFT) } }) j = [] := by
    intro j hj
    unfold getArea
    rw [hpool3]
    show (initAreas s.pool.free_area (min MAX_ORDER (get_order (nr <<< PAGE_SHIFT)))).getD
      j [] = []
    rw [initAreas_getD _ _ j hj]
    by_cases hcase : j ≤ min MAX_ORDER (get_order (nr <<< PAGE_SHIFT))
    · rw [if_pos hcase]
    · rw [if_neg hcase]
      exact hempty j
  have hInv3 : PoolInv ((List.range nr).foldl
      (fun u i => hyp_set_page_refcounted u (pfn + i))
      { s with pool := { s.pool with
          max_order := min MAX_ORDER (get_order (nr <<< PAGE_SHIFT))
          free_area := initAreas s.pool.free_area
            (min MAX_ORDER (get_order (nr <<< PAGE_SHIFT)))
          range_start := pfn * PAGE_SIZE
          range_end := pfn * PAGE_SIZE + (nr <<< PAGE_SHIFT) } }) := by
    refine pre_put_inv _ pfn nr ?_ ?_ hareas3 ?_ ?_ ?_
    · rw [hpool3]
      exact initAreas_length _ _
    · rw [hpool3]
      exact hmo4
    · intro q h1 h2
      rw [hpg3 q, if_pos ⟨h1, h2⟩]
    · rw [hpool3]
    · rw [hpool3]
      show pfn * PAGE_SIZE + nr <<< PAGE_SHIFT = pfn * PAGE_SIZE + nr * PAGE_SIZE
      rw [shiftLeft_pageShift]
  obtain ⟨w1, w2, -, -, -⟩ := putFold_sound pfn (pfn + res) (nr - res) res _ hInv3
    (by
      intro k hk p2 hp2 hin
      rw [hareas3 k hk] at hp2
      exact absurd hp2 (List.not_mem_nil p2))
    le_rfl
    (by
      intro q h1 h2
      rw [hpg3 q, if_pos (by omega)])
    (by
      rw [hpool3]
      show pfn * PAGE_SIZE ≤ (pfn + res) * PAGE_SIZE
      exact mul_le_mul_right' (by omega) PAGE_SIZE)
    (by
      rw [hpool3]
      show (pfn + res + (nr - res)) * PAGE_SIZE ≤ pfn * PAGE_SIZE + nr <<< PAGE_SHIFT
      rw [shiftLeft_pageShift, ← Nat.add_mul]
      exact mul_le_mul_right' (by omega) PAGE_SIZE)
  refine ⟨w1, ?_⟩
  have he : pfn + res + (nr - res) = pfn + nr := by omega
  rw [← he]
  exact w2

theorem pool_init_empty_sound (s : HState) (nr : Nat)
    (hempty : ∀ i, s.pool.free_area.getD i [] = []) :
    PoolInv (hyp_pool_init_empty s nr) := by
  have hmo4 : min MAX_ORDER (get_order (nr <<< PAGE_SHIFT)) < NR_PAGE_ORDERS := by
    have := Nat.min_le_left MAX_ORDER (get_order (nr <<< PAGE_SHIFT))
    have hM4 : MAX_ORDER = 4 := rfl
    have hN5 : NR_PAGE_ORDERS = 5 := rfl
    omega
  have heq : hyp_pool_init_empty s nr =
      { s with pool := { s.pool with
          max_order := min MAX_ORDER (get_order (nr <<< PAGE_SHIFT))
          free_area := initAreas s.pool.free_area
            (min MAX_ORDER (get_order (nr <<< PAGE_SHIFT)))
          range_start := U64_MAX
          range_end := 0 } } := rfl
  rw [heq]
  have hareas : ∀ j, j < NR_PAGE_ORDERS →
      getArea { s with pool := { s.pool with
          max_order := min MAX_ORDER (get_order (nr <<< PAGE_SHIFT))
          free_area := initAreas s.pool.free_area
            (min MAX_ORDER (get_order (nr <<< PAGE_SHIFT)))
          range_start := U64_MAX
          range_end := 0 } } j = [] := by
    intro j hj
    unfold getArea
    show (initAreas s.pool.free_area (min MAX_ORDER (get_order (nr <<< PAGE_SHIFT)))).getD
      j [] = []
    rw [initAreas_getD _ _ j hj]
    by_cases hcase : j ≤ min MAX_ORDER (get_order (nr <<< PAGE_SHIFT))
    · rw [if_pos hcase]
    · rw [if_neg hcase]
      exact hempty j
  refine all_empty_inv _ (initAreas_length _ _) hmo4 hareas ?_
  intro q hqle hqin hqord hqrc
  exfalso
  obtain ⟨-, i2⟩ := hqin
  exact Nat.not_lt_zero _ i2

theorem freshState_empty : ∀ i, freshState.pool.free_area.getD i [] = [] := by
  intro i
  match i with
  | 0 => rfl
  | 1 => rfl
  | 2 => rfl
  | 3 => rfl
  | 4 => rfl
  | n + 5 => rfl

theorem freshState_pages : ∀ q, freshState.pages q = { refcount := 0, order := 0 } := by
  intro q
  rfl

/-- Claim C6 (amended): the two claimed predicates hold whenever the
structural pool invariant `PoolInv` holds, and that invariant is established
by `hyp_pool_init` and `hyp_pool_init_empty` from a zeroed state and
preserved by every public operation — `hyp_put_page` under its caller
contract, `hyp_get_page` on a held page, `hyp_alloc_pages`, and
`hyp_split_page` under its caller contract.  (As literally stated the second
predicate is false: see the counterexample, where an external donated head's
in-range buddy is simultaneously free at the same order; the amended
predicate restricts it to in-range heads.) -/
theorem c6_amended_invariant_preserved :
    (∀ s, PoolInv s → ClaimInv1 s ∧ ClaimInv3InRange s) ∧
    (∀ s pfn nr res, res ≤ nr →
      (∀ q, s.pages q = { refcount := 0, order := 0 }) →
      (∀ i, s.pool.free_area.getD i [] = []) →
      PoolInv (hyp_pool_init s pfn nr res)) ∧
    (∀ s nr, (∀ i, s.pool.free_area.getD i [] = []) →
      PoolInv (hyp_pool_init_empty s nr)) ∧
    (∀ s p, PoolInv s → PutContract s p → PoolInv (hyp_put_page s p)) ∧
    (∀ s p, PoolInv s → 1 ≤ (s.pages p).refcount → PoolInv (hyp_get_page s p)) ∧
    (∀ s w, PoolInv s → PoolInv (hyp_alloc_pages s w).2) ∧
    (∀ s p, PoolInv s → SplitContract s p → PoolInv (hyp_split_page s p)) := by
  have hPS : (0:Nat) < PAGE_SIZE := by norm_num [PAGE_SIZE]
  refine ⟨?_, ?_, ?_, ?_, ?_, ?_, ?_⟩
  · intro s h
    exact ⟨fun k hk p hp => (h.2.1 k hk).1 p hp, h.2.2.2.2.1⟩
  · intro s pfn nr res h1 h2 h3
    exact (pool_init_sound s pfn nr res h1 h2 h3).1
  · intro s nr h1
    exact pool_init_empty_sound s nr h1
  · intro s p hInv hPC
    refine (put_sound s p 0 (s.pool.range_end / PAGE_SIZE) hInv hPC
      (listedBnd_univ s hInv) ?_).1
    intro h1 hin
    exact ⟨Nat.zero_le _, (Nat.le_div_iff_mul_le hPS).mpr ((hPC.2 h1).2.2.2.1 hin).2⟩
  · intro s p hInv h1
    exact (get_sound s p 0 (s.pool.range_end / PAGE_SIZE) hInv h1
      (listedBnd_univ s hInv)).1
  · intro s w hInv
    exact (alloc_sound s w 0 (s.pool.range_end / PAGE_SIZE) hInv
      (listedBnd_univ s hInv)).1
  · intro s p hInv hSC
    exact (split_sound s p 0 (s.pool.range_end / PAGE_SIZE) hInv hSC
      (listedBnd_univ s hInv)).1

theorem c6_amended_witness :
    (PoolInv (hyp_pool_init freshState 0 2 2) ∧
      PutContract (hyp_pool_init freshState 0 2 2) 0) ∧
    (ClaimInv1 (hyp_pool_init freshState 0 2 2) ∧
      ClaimInv3InRange (hyp_pool_init freshState 0 2 2)) ∧
    PoolInv (hyp_put_page (hyp_pool_init freshState 0 2 2) 0) := by
  have hInv : PoolInv (hyp_pool_init freshState 0 2 2) :=
    c6_amended_invariant_preserved.2.1 freshState 0 2 2 (by decide)
      (fun q => rfl) freshState_empty
  have hPC : PutContract (hyp_pool_init freshState 0 2 2) 0 := by
    refine ⟨by decide, fun h => ⟨by decide, by decide, ?_, by decide, ?_, by decide⟩⟩
    · intro q h1 h2
      exfalso
      have ho : ((hyp_pool_init freshState 0 2 2).pages 0).order = 0 := by decide
      rw [ho] at h2
      have hp : (2:Nat) ^ 0 = 1 := pow_zero 2
      omega
    · intro hext
      exact absurd (by decide : inRangeP (hyp_pool_init freshState 0 2 2).pool 0) hext
  exact ⟨⟨hInv, hPC⟩, c6_amended_invariant_preserved.1 _ hInv,
    c6_amended_invariant_preserved.2.2.2.1 _ 0 hInv hPC⟩

/-- Claim C8: on a pool satisfying the structural invariant, every pointer
returned by `hyp_alloc_pages(want_order)` points to a region of
`2 ^ want_order` pages whose body bytes and embedded list-node bytes are all
zero; and the two mechanisms are as described — the memset on the attach/put
path zeroes every byte of the freed group, and removing a page from a free
list re-zeroes its embedded list-node bytes. -/
theorem c8_alloc_returns_zeroed_memory :
    (∀ s w, PoolInv s → ∀ p, (hyp_alloc_pages s w).1 = some p →
      ∀ q, p ≤ q → q < p + 2 ^ w →
        (hyp_alloc_pages s w).2.bodyZero q = true ∧
        (hyp_alloc_pages s w).2.nodeZero q = true) ∧
    (∀ s p q, p ≤ q → q < p + 2 ^ ((s.pages p).order) →
      (memsetGroup s p ((s.pages p).order)).bodyZero q = true ∧
      (memsetGroup s p ((s.pages p).order)).nodeZero q = true) ∧
    (∀ s p, (pageRemoveFromList s p).nodeZero p = true) := by
  refine ⟨?_, ?_, ?_⟩
  · intro s w hInv
    exact (alloc_sound s w 0 (s.pool.range_end / PAGE_SIZE) hInv
      (listedBnd_univ s hInv)).2.2
  · intro s p q h1 h2
    constructor
    · show (if p ≤ q ∧ q < p + 2 ^ ((s.pages p).order) then true else s.bodyZero q)
        = true
      rw [if_pos ⟨h1, h2⟩]
    · show (if p ≤ q ∧ q < p + 2 ^ ((s.pages p).order) then true else s.nodeZero q)
        = true
      rw [if_pos ⟨h1, h2⟩]
  · intro s p
    show updFn s.nodeZero p true p = true
    unfold updFn
    rw [if_pos rfl]

theorem c8_witness :
    (PoolInv s5AfterPuts ∧ (hyp_alloc_pages s5AfterPuts 0).1 = some 100 ∧
      (100:Nat) ≤ 100 ∧ (100:Nat) < 100 + 2 ^ 0) ∧
    ((hyp_alloc_pages s5AfterPuts 0).2.bodyZero 100 = true ∧
      (hyp_alloc_pages s5AfterPuts 0).2.nodeZero 100 = true) :=
  ⟨⟨by decide, by decide, by decide, by decide⟩,
    c8_alloc_returns_zeroed_memory.1 s5AfterPuts 0 (by decide) 100 (by decide) 100
      (by decide) (by decide)⟩
